import Mathlib

/-! Feedback portal: create and list operations, dashboard and analysis

A shallow embedding of `backend/models/Feedback.js` (the Mongoose schema),
`backend/controllers/feedbackController.js` (the two request handlers) and the
logic of the components `FeedbackDashboard.jsx`, `FeedbackAnalysis.jsx` and
`FeedbackForm.jsx`.

The schema is embedded as data (`FeedbackSchema`) and interpreted by the
document-building and validation functions below, which follow Mongoose's
documented behaviour for the options the schema uses (`required`, `trim`,
`match`, `enum`, `default`).  The collection is a list of records in insertion
order; everything the environment decides (generated id, clock, driver faults,
what the query layer makes of a filter value that is not a string, the answers
a fetch receives) is passed in explicitly.  Component state is a record, and
each handler is a function on it.
-/

namespace FeedbackPortal

/-! ## Strings and regular expressions -/

/-- ECMAScript `WhiteSpace` and `LineTerminator` code points: what
`String.prototype.trim` strips and what `\s` matches. -/
def isJsWhitespace (c : Char) : Bool :=
  let n := c.toNat
  n == 0x09 || n == 0x0A || n == 0x0B || n == 0x0C || n == 0x0D || n == 0x20 ||
  n == 0xA0 || n == 0x1680 || (0x2000 ≤ n && n ≤ 0x200A) || n == 0x2028 ||
  n == 0x2029 || n == 0x202F || n == 0x205F || n == 0x3000 || n == 0xFEFF

/-- Strip whitespace from both ends of a character list. -/
def trimChars (cs : List Char) : List Char :=
  ((cs.dropWhile isJsWhitespace).reverse.dropWhile isJsWhitespace).reverse

/-- The method `String.prototype.trim`. -/
def jsTrim (s : String) : String := ⟨trimChars s.data⟩

/-- ECMAScript `\w` (no `i`/`u` flag): `[A-Za-z0-9_]`. -/
def isWordChar (c : Char) : Bool :=
  let n := c.toNat
  (0x41 ≤ n && n ≤ 0x5A) || (0x61 ≤ n && n ≤ 0x7A) || (0x30 ≤ n && n ≤ 0x39) || n == 0x5F

/-- Regular expressions over characters, enough for the patterns of the sources. -/
inductive Regex where
  | never : Regex
  | empty : Regex
  | cls (p : Char → Bool) : Regex
  | seq (a b : Regex) : Regex
  | alt (a b : Regex) : Regex
  | star (a : Regex) : Regex

namespace Regex

/-- The single character `c`. -/
def chr (c : Char) : Regex := cls (fun d => d == c)

/-- Optional: `a?`. -/
def opt (a : Regex) : Regex := alt empty a

/-- One or more: `a+`. -/
def plus (a : Regex) : Regex := seq a (star a)

/-- Does the expression accept the empty string? -/
def nullable : Regex → Bool
  | never => false
  | empty => true
  | cls _ => false
  | seq a b => nullable a && nullable b
  | alt a b => nullable a || nullable b
  | star _ => true

/-- Brzozowski derivative with respect to one character. -/
def deriv (c : Char) : Regex → Regex
  | never => never
  | empty => never
  | cls p => if p c then empty else never
  | seq a b => if nullable a then alt (seq (deriv c a) b) (deriv c b) else seq (deriv c a) b
  | alt a b => alt (deriv c a) (deriv c b)
  | star a => seq (deriv c a) (star a)

/-- Whole-input match: the behaviour of `RegExp.prototype.test` for a pattern
anchored with `^` and `$` and carrying no flags. -/
def fullMatch (r : Regex) : List Char → Bool
  | [] => nullable r
  | c :: cs => fullMatch (deriv c r) cs

end Regex

/-- The expression `\w+([\.-]?\w+)*`, the shape of both sides of the `@` in the
email pattern. -/
def dottedWords : Regex :=
  .seq (.plus (.cls isWordChar))
    (.star (.seq (.opt (.cls (fun c => c == '.' || c == '-'))) (.plus (.cls isWordChar))))

/-- The expression `(\.\w{2,3})+`. -/
def domainSuffix : Regex :=
  .plus (.seq (.chr '.')
    (.seq (.cls isWordChar) (.seq (.cls isWordChar) (.opt (.cls isWordChar)))))

/-- The body of `/^\w+([\.-]?\w+)*@\w+([\.-]?\w+)*(\.\w{2,3})+$/`. -/
def emailPattern : Regex :=
  .seq dottedWords (.seq (.chr '@') (.seq dottedWords domainSuffix))

/-- The test `emailPattern.test(s)`. -/
def emailMatches (s : String) : Bool := emailPattern.fullMatch s.data


/-! ## Data model -/

/-- A persisted feedback document. `id` stands for `_id`; `timestamp` is in
milliseconds since the epoch. -/
structure FeedbackRecord where
  id : Nat
  name : String
  email : String
  feedback : String
  category : String
  timestamp : Int
  deriving DecidableEq, Repr

/-- The collection, in insertion order. -/
abbrev Store := List FeedbackRecord

/-- A JSON object sent as the body of `POST /feedback`, restricted to the four
content paths of the schema; each is either absent or a JSON string (the
submission form always sends four strings). The order of the keys is not
recorded. A body that is a JSON array is a list of these, see
`submitFeedbackMany`. -/
structure Body where
  name : Option String
  email : Option String
  feedback : Option String
  category : Option String
  deriving DecidableEq, Repr

/-- A thrown error, as far as the handlers look at it: `err.name` and, for a
Mongoose `ValidationError`, the `err.errors` map as (path, message) pairs. -/
structure JsError where
  name : String
  errors : List (String × String)
  deriving DecidableEq, Repr

/-- The options of one `String` schema path. -/
structure StringPath where
  path : String
  required : Option String
  trim : Bool
  matchPattern : Option (Regex × String)
  enumValues : Option (List String)
  default : Option String

/-- The four `String` paths of `FeedbackSchema`; the `timestamp` path
(`Date`, default `Date.now`) is handled in `buildDoc`. -/
structure Schema where
  name : StringPath
  email : StringPath
  feedback : StringPath
  category : StringPath

/-- The value `enum: [...]` of the `category` path. -/
def categories : List String := ["suggestion", "bug_report", "feature_request", "other"]

/-- The schema of `backend/models/Feedback.js`. -/
def FeedbackSchema : Schema where
  name :=
    { path := "name", required := some "Please add a name", trim := true,
      matchPattern := none, enumValues := none, default := none }
  email :=
    { path := "email", required := some "Please add an email", trim := false,
      matchPattern := some (emailPattern, "Please add a valid email"),
      enumValues := none, default := none }
  feedback :=
    { path := "feedback", required := some "Please add feedback text", trim := false,
      matchPattern := none, enumValues := none, default := none }
  category :=
    { path := "category", required := none, trim := false, matchPattern := none,
      enumValues := some categories, default := some "other" }

/-! ## Mongoose: building and validating a document -/

/-- The value a path holds in a new document: a supplied string goes through
the `trim` setter, an absent one takes the default. -/
def StringPath.initial (p : StringPath) : Option String → Option String
  | some v => some (if p.trim then jsTrim v else v)
  | none => p.default

/-- Mongoose's default message of the `enum` validator. -/
def enumMessage (path value : String) : String :=
  "`" ++ value ++ "` is not a valid enum value for path `" ++ path ++ "`."

/-- Validators after `required`, which see only a defined value: `match`
passes the empty string, `enum` checks membership. -/
def StringPath.checkValue (p : StringPath) (v : String) : Option String :=
  match p.matchPattern with
  | some (re, msg) =>
    if v ≠ "" ∧ re.fullMatch v.data = false then some msg else none
  | none =>
    match p.enumValues with
    | some vals => if v ∈ vals then none else some (enumMessage p.path v)
    | none => none

/-- Validation of one path: the `required` validator runs first and fails on a
missing or empty string; the first failing validator gives the path's message. -/
def StringPath.validate (p : StringPath) (value : Option String) : Option String :=
  match p.required, value with
  | some msg, none => some msg
  | some msg, some v => if v = "" then some msg else p.checkValue v
  | none, none => none
  | none, some v => p.checkValue v

/-- A document before it is saved. -/
structure Doc where
  id : Nat
  name : Option String
  email : Option String
  feedback : Option String
  category : Option String
  timestamp : Int

/-- What the environment contributes to one `Feedback.create` call. -/
structure CreateEnv where
  /-- the generated `_id` -/
  newId : Nat
  /-- the value of `Date.now()` -/
  now : Int
  /-- the error the driver throws on the insert, if any -/
  fault : Option JsError

/-- The document `new Feedback(body)`: setters and defaults applied. -/
def buildDoc (s : Schema) (env : CreateEnv) (body : Body) : Doc where
  id := env.newId
  name := s.name.initial body.name
  email := s.email.initial body.email
  feedback := s.feedback.initial body.feedback
  category := s.category.initial body.category
  timestamp := env.now

/-- The entry of `err.errors` for one path, if its value fails. -/
def StringPath.entry (p : StringPath) (value : Option String) : Option (String × String) :=
  (p.validate value).map (fun m => (p.path, m))

/-- The entry of a path that holds no value. -/
def StringPath.entryIfUnset (p : StringPath) (value : Option String) :
    Option (String × String) :=
  if value.isNone then p.entry value else none

/-- The entry of a path that holds a value. -/
def StringPath.entryIfSet (p : StringPath) (value : Option String) :
    Option (String × String) :=
  if value.isSome then p.entry value else none

/-- The entries of `err.errors` for a document, one per failing path, in the
order in which Mongoose validates the paths: first the required paths that
were left unset, which it keeps in reverse schema order, then the paths that
hold a value, here in schema order (the order in which the form writes them). -/
def validateDoc (s : Schema) (d : Doc) : List (String × String) :=
  [ s.feedback.entryIfUnset d.feedback,
    s.email.entryIfUnset d.email,
    s.name.entryIfUnset d.name,
    s.name.entryIfSet d.name,
    s.email.entryIfSet d.email,
    s.feedback.entryIfSet d.feedback,
    s.category.entryIfSet d.category ].filterMap id

/-- The stored form of a validated document. -/
def Doc.toRecord (d : Doc) : FeedbackRecord where
  id := d.id
  name := d.name.getD ""
  email := d.email.getD ""
  feedback := d.feedback.getD ""
  category := d.category.getD ""
  timestamp := d.timestamp

namespace Feedback

/-- The call `Feedback.create(body)`: validate, then insert. Returns the outcome and the
collection afterwards. -/
def create (env : CreateEnv) (store : Store) (body : Body) :
    Except JsError FeedbackRecord × Store :=
  let doc := buildDoc FeedbackSchema env body
  match validateDoc FeedbackSchema doc with
  | [] =>
    match env.fault with
    | some err => (.error err, store)
    | none => (.ok doc.toRecord, store ++ [doc.toRecord])
  | e :: es => (.error { name := "ValidationError", errors := e :: es }, store)

end Feedback

/-- The documents built from the elements of an array: each gets an `_id` of
its own. -/
def buildDocs (s : Schema) (env : CreateEnv) : List Body → List Doc
  | [] => []
  | body :: rest => buildDoc s env body :: buildDocs s { env with newId := env.newId + 1 } rest

namespace Feedback

/-- The call `Feedback.create(docs)` with an array: Mongoose builds, validates
and saves each element on its own and waits for all of them. Every element
that passes validation is inserted, whatever happens to the others. The call
fails with the error of an element that failed: a validation error if there is
one (validation is settled before any insert is answered), else the error of
the driver; it succeeds with the list of the saved documents. -/
def createMany (env : CreateEnv) (store : Store) (docs : List Body) :
    Except JsError (List FeedbackRecord) × Store :=
  let built := buildDocs FeedbackSchema env docs
  let valid := built.filter (fun d => (validateDoc FeedbackSchema d).isEmpty)
  let saved :=
    match env.fault with
    | some _ => []
    | none => valid.map Doc.toRecord
  let outcome :=
    match built.find? (fun d => !(validateDoc FeedbackSchema d).isEmpty) with
    | some d => .error { name := "ValidationError", errors := validateDoc FeedbackSchema d }
    | none =>
      match env.fault, valid with
      | some err, _ :: _ => .error err
      | _, _ => .ok saved
  (outcome, store ++ saved)

end Feedback

/-! ## The handlers -/

/-- The JSON bodies the handlers send. -/
inductive ResBody where
  /-- body `{success: true, data}` -/
  | created (data : FeedbackRecord)
  /-- body `{success: true, data}` where `data` is an array -/
  | createdMany (data : List FeedbackRecord)
  /-- body `{success: true, count, data}` -/
  | listed (count : Nat) (data : List FeedbackRecord)
  /-- body `{success: false, error: messages}` -/
  | invalid (error : List String)
  /-- body `{success: false, error}` -/
  | failed (error : String)
  deriving DecidableEq, Repr

/-- The `success` member of a body. -/
def ResBody.success : ResBody → Bool
  | .created _ => true
  | .createdMany _ => true
  | .listed _ _ => true
  | .invalid _ => false
  | .failed _ => false

/-- An HTTP response: status code and JSON body. -/
structure Response where
  status : Nat
  body : ResBody
  deriving DecidableEq, Repr

/-- The `catch` block of `submitFeedback`. -/
def submitCatch (err : JsError) : Response :=
  if err.name = "ValidationError" then
    { status := 400, body := .invalid (err.errors.map (fun val => val.2)) }
  else
    { status := 500, body := .failed "Server Error" }

/-- The handler `exports.submitFeedback` at a body that is a JSON object: the
response and the collection afterwards. -/
def submitFeedback (env : CreateEnv) (store : Store) (body : Body) : Response × Store :=
  match Feedback.create env store body with
  | (.ok feedback, store') => ({ status := 201, body := .created feedback }, store')
  | (.error err, store') => (submitCatch err, store')

/-- The handler `exports.submitFeedback` at a body that is a JSON array: the
same lines, where `Feedback.create` receives the array. -/
def submitFeedbackMany (env : CreateEnv) (store : Store) (docs : List Body) :
    Response × Store :=
  match Feedback.createMany env store docs with
  | (.ok feedback, store') => ({ status := 201, body := .createdMany feedback }, store')
  | (.error err, store') => (submitCatch err, store')

/-! ## Storage queries -/

/-- The values a sort can compare: a missing field sorts as `null`. -/
inductive BsonValue where
  | null : BsonValue
  | num (n : Int) : BsonValue
  | str (s : String) : BsonValue
  | objectId (n : Nat) : BsonValue
  | date (ms : Int) : BsonValue
  deriving DecidableEq, Repr

namespace BsonValue

/-- Position of a value's type in the BSON comparison order. -/
def rank : BsonValue → Nat
  | null => 0
  | num _ => 1
  | str _ => 2
  | objectId _ => 3
  | date _ => 4

/-- The BSON comparison order: by type first, then by value; strings compare
code point by code point. -/
def le : BsonValue → BsonValue → Prop
  | num a, num b => a ≤ b
  | str a, str b => a.data ≤ b.data
  | objectId a, objectId b => a ≤ b
  | date a, date b => a ≤ b
  | x, y => x.rank ≤ y.rank

instance decLe : DecidableRel le := fun x y => by
  cases x <;> cases y <;> unfold le <;> infer_instance

end BsonValue

/-- The value of a document at a top-level field name. Mongoose adds the
version key `__v` with value 0 to every document it creates. -/
def FeedbackRecord.field (r : FeedbackRecord) (name : String) : BsonValue :=
  if name = "_id" then .objectId r.id
  else if name = "name" then .str r.name
  else if name = "email" then .str r.email
  else if name = "feedback" then .str r.feedback
  else if name = "category" then .str r.category
  else if name = "timestamp" then .date r.timestamp
  else if name = "__v" then .num 0
  else .null

/-- The order one sort key puts on documents: ascending for a positive
direction, descending for a negative one. -/
def sortLe (key : String × Int) (a b : FeedbackRecord) : Prop :=
  if key.2 < 0 then (b.field key.1).le (a.field key.1) else (a.field key.1).le (b.field key.1)

instance sortLe.dec (key : String × Int) : DecidableRel (sortLe key) := fun a b => by
  unfold sortLe; infer_instance

/-- A value of `req.query`: one string, an array when the key is repeated in
the URL, or an object when the key carries brackets (`category[$ne]=x`). -/
inductive QueryValue where
  | str (s : String) : QueryValue
  | arr (items : List QueryValue) : QueryValue
  | obj (members : List (String × QueryValue)) : QueryValue

/-- The filter object `query` of `getFeedback`: empty or `{category}`, where
the value is the one of the request. -/
structure Filter where
  category : Option QueryValue

/-- Order documents by a sort object (keys in insertion order, first key most
significant); an empty sort object leaves the natural order. -/
def sortDocs (sort : List (String × Int)) (docs : List FeedbackRecord) : List FeedbackRecord :=
  sort.foldr (fun key acc => List.insertionSort (sortLe key) acc) docs

/-- What the environment contributes to one `find` call. -/
structure FindEnv where
  /-- the error the driver throws on the query, if any -/
  fault : Option JsError
  /-- what Mongoose and MongoDB make of a category condition that is not a
  single string (an array, an operator object): the documents it selects, or
  nothing when the condition is rejected -/
  reads : QueryValue → Option (FeedbackRecord → Bool)

/-- The documents a filter selects: all of them when it is empty, those whose
category equals the value when that is a string; any other value is read by
the query layer. -/
def Filter.reading (q : Filter) (env : FindEnv) : Option (FeedbackRecord → Bool) :=
  match q.category with
  | none => some (fun _ => true)
  | some (.str c) => some (fun r => r.category == c)
  | some (.arr items) => env.reads (.arr items)
  | some (.obj members) => env.reads (.obj members)

/-- Does a document satisfy the filter? -/
def Filter.admits (q : Filter) (env : FindEnv) (r : FeedbackRecord) : Bool :=
  match q.reading env with
  | some selects => selects r
  | none => false

/-- The error of `sort()` for an empty field name. The list handler does not
look at the name of an error. -/
def sortFieldError : JsError := { name := "Error", errors := [] }

/-- The error for a filter value that cannot be read as a condition on a
string path. -/
def castError : JsError := { name := "CastError", errors := [] }

namespace Feedback

/-- The query `Feedback.find(query).sort(sort)`, awaited. A sort object with
the empty string as a key is refused by `sort()` itself, a condition that
cannot be read is refused when the query is executed, before the driver is
called. -/
def find (env : FindEnv) (store : Store) (query : Filter) (sort : List (String × Int)) :
    Except JsError (List FeedbackRecord) :=
  if sort.any (fun key => key.1 == "") then .error sortFieldError
  else
    match query.reading env with
    | none => .error castError
    | some selects =>
      match env.fault with
      | some err => .error err
      | none => .ok (sortDocs sort (store.filter selects))

end Feedback

/-! ## The list handler -/

/-- JavaScript truthiness of a query value: only the empty string is falsy. -/
def QueryValue.truthy : QueryValue → Bool
  | .str s => s ≠ ""
  | .arr _ => true
  | .obj _ => true

/-- The query parameters `getFeedback` reads; an absent key is `undefined`. -/
structure ReqQuery where
  category : Option QueryValue
  sortBy : Option QueryValue

/-- Split a character list at every occurrence of a separator. -/
def splitChars (sep : Char) : List Char → List (List Char)
  | [] => [[]]
  | c :: cs =>
    if c = sep then [] :: splitChars sep cs
    else
      match splitChars sep cs with
      | [] => [[c]]
      | p :: ps => (c :: p) :: ps

/-- The call `s.split(sep)` for a one-character separator. -/
def jsSplit (s : String) (sep : Char) : List String :=
  (splitChars sep s.data).map String.mk

/-- The assignment `obj[key] = value` on an object created by `{}`: assigning
a number to `__proto__` is ignored by the inherited setter. -/
def objSet (obj : List (String × Int)) (key : String) (value : Int) : List (String × Int) :=
  if key = "__proto__" then obj
  else if obj.any (fun kv => kv.1 == key) then
    obj.map (fun kv => if kv.1 = key then (key, value) else kv)
  else obj ++ [(key, value)]

/-- The error of calling a method that the receiver does not have. -/
def typeError : JsError := { name := "TypeError", errors := [] }

/-- The filter built at lines 33 to 38. -/
def buildQuery (q : ReqQuery) : Filter :=
  match q.category with
  | some c => if c.truthy then { category := some c } else { category := none }
  | none => { category := none }

/-- The sort object built at lines 41 to 48; an array or an object is truthy
and has no `split`. -/
def buildSort (q : ReqQuery) : Except JsError (List (String × Int)) :=
  match q.sortBy with
  | some (.arr _) => .error typeError
  | some (.obj _) => .error typeError
  | some (.str s) =>
    if s ≠ "" then
      match jsSplit s ':' with
      | p0 :: rest => .ok (objSet [] p0 (if rest.head? = some "desc" then -1 else 1))
      | [] => .ok (objSet [] "undefined" 1)
    else .ok (objSet [] "timestamp" (-1))
  | none => .ok (objSet [] "timestamp" (-1))

/-- The `try` block of `getFeedback`. -/
def getFeedbackTry (env : FindEnv) (store : Store) (q : ReqQuery) : Except JsError Response := do
  let query := buildQuery q
  let sort ← buildSort q
  let feedback ← Feedback.find env store query sort
  return { status := 200, body := .listed feedback.length feedback }

/-- The handler `exports.getFeedback`; it never writes to the collection. -/
def getFeedback (env : FindEnv) (store : Store) (q : ReqQuery) : Response :=
  match getFeedbackTry env store q with
  | .ok res => res
  | .error _ => { status := 500, body := .failed "Server Error" }

/-! ## Reachable states -/

/-- One request to the API, together with what the environment does during it. -/
inductive Op where
  | create (env : CreateEnv) (body : Body) : Op
  | createMany (env : CreateEnv) (docs : List Body) : Op
  | list (env : FindEnv) (q : ReqQuery) : Op

/-- The collection after one request. -/
def step (store : Store) : Op → Store
  | .create env body => (submitFeedback env store body).2
  | .createMany env docs => (submitFeedbackMany env store docs).2
  | .list _ _ => store

/-- The collection after a sequence of requests, starting empty. -/
def run (ops : List Op) : Store := ops.foldl step []

/-! ## Vocabulary of the statements -/

/-- What the schema says about a raw `name`: required, judged after trimming. -/
def nameMessage : Option String → Option String
  | none => some "Please add a name"
  | some v => if jsTrim v = "" then some "Please add a name" else none

/-- What the schema says about a raw `email`: required, then the pattern. -/
def emailMessage : Option String → Option String
  | none => some "Please add an email"
  | some v =>
    if v = "" then some "Please add an email"
    else if emailMatches v = false then some "Please add a valid email" else none

/-- What the schema says about a raw `feedback`: required. -/
def feedbackMessage : Option String → Option String
  | none => some "Please add feedback text"
  | some v => if v = "" then some "Please add feedback text" else none

/-- What the schema says about a raw `category`: one of the enum values when given. -/
def categoryMessage : Option String → Option String
  | none => none
  | some v => if v ∈ categories then none else some (enumMessage "category" v)

/-- The messages expected for a body: one for each path that fails, listed in
schema order (the response lists them in the order of validation, see
`validateDoc`). -/
def expectedMessages (b : Body) : List String :=
  [nameMessage b.name, emailMessage b.email, feedbackMessage b.feedback,
    categoryMessage b.category].filterMap id

/-- The constraints of the data model on one persisted record. -/
structure WellFormed (r : FeedbackRecord) : Prop where
  name_ne : r.name ≠ ""
  name_head : ∀ c, r.name.data.head? = some c → isJsWhitespace c = false
  name_last : ∀ c, r.name.data.getLast? = some c → isJsWhitespace c = false
  email_ok : emailMatches r.email = true
  feedback_ne : r.feedback ≠ ""
  category_ok : r.category ∈ categories

/-- The field named by a sort specification: the text before the first colon. -/
def sortField (s : String) : String := ⟨s.data.takeWhile (fun c => c != ':')⟩

/-- The direction named by a sort specification: the text between the first
colon and the next one, if there is a colon at all. -/
def sortDirection (s : String) : Option String :=
  match s.data.dropWhile (fun c => c != ':') with
  | [] => none
  | _ :: rest => some ⟨rest.takeWhile (fun c => c != ':')⟩

/-! ## The analysis component -/

/-- The statement `acc[key] = (acc[key] || 0) + 1` on a counter object, held as
the list of its own entries in creation order. This is how JavaScript stores
and enumerates keys that are neither integer-like nor names inherited from
`Object.prototype`; the four category values are such keys. -/
def bumpCount : List (String × Nat) → String → List (String × Nat)
  | [], key => [(key, 1)]
  | (k, v) :: rest, key =>
    if k = key then (k, v + 1) :: rest else (k, v) :: bumpCount rest key

/-- Replace the first occurrence of a character: `replace(a, b)` with string
arguments. -/
def replaceFirst (a b : Char) : List Char → List Char
  | [] => []
  | c :: cs => if c = a then b :: cs else c :: replaceFirst a b cs

/-- Upper case of a `\w` character: only `a` to `z` change. -/
def upperWordChar (c : Char) : Char :=
  if 0x61 ≤ c.toNat ∧ c.toNat ≤ 0x7A then Char.ofNat (c.toNat - 32) else c

/-- The call `replace(/(^\w|\s\w)/g, m => m.toUpperCase())`: a word character
is put in upper case when it starts the string or follows a whitespace
character. -/
def capitalizeWords : Option Char → List Char → List Char
  | _, [] => []
  | prev, c :: cs =>
    let hit :=
      match prev with
      | none => isWordChar c
      | some p => isJsWhitespace p && isWordChar c
    (if hit then upperWordChar c else c) :: capitalizeWords (some c) cs

/-- The display name of a category: `formatCategoryName` of the dashboard, and
the same expression in `chartData`. -/
def formatCategoryName (category : String) : String :=
  ⟨capitalizeWords none (replaceFirst '_' ' ' category.data)⟩

/-- One element of `chartData`. -/
structure ChartEntry where
  name : String
  value : Nat
  total : Nat
  deriving DecidableEq, Repr

namespace FeedbackAnalysis

/-- The object `categoryCounts`: the reduction of lines 65 to 68. -/
def categoryCounts (data : List FeedbackRecord) : List (String × Nat) :=
  data.foldl (fun acc item => bumpCount acc item.category) []

/-- The value `total`: the sum of `Object.values(categoryCounts)`. -/
def total (data : List FeedbackRecord) : Nat :=
  ((categoryCounts data).map Prod.snd).foldl (fun a b => a + b) 0

/-- The array `chartData`, one element for each entry of `categoryCounts`. -/
def chartData (data : List FeedbackRecord) : List ChartEntry :=
  (categoryCounts data).map
    (fun entry => { name := formatCategoryName entry.1, value := entry.2, total := total data })

/-- The value `totalFeedbacks`. -/
def totalFeedbacks (data : List FeedbackRecord) : Nat := data.length

/-- The value `mostCommonCategory`: a reduction without initial value, which
starts from the first element. -/
def mostCommonCategory (data : List FeedbackRecord) : String :=
  match chartData data with
  | [] => "N/A"
  | first :: rest =>
    (rest.foldl (fun prev current => if prev.value > current.value then prev else current)
      first).name

/-- The figures the component shows. -/
structure View where
  totalFeedbacks : Nat
  mostCommonCategory : String
  chartData : List ChartEntry
  deriving DecidableEq, Repr

/-- The component: nothing is computed for an empty data set. -/
def render (data : List FeedbackRecord) : Option View :=
  if data.length = 0 then none
  else
    some
      { totalFeedbacks := totalFeedbacks data
        mostCommonCategory := mostCommonCategory data
        chartData := chartData data }

end FeedbackAnalysis

/-! ## Double-precision arithmetic for the tooltip -/

/-- The integer nearest to `n / d`, ties to the even one. -/
def roundHalfEven (n d : Nat) : Nat :=
  let q := n / d
  let r := n % d
  if 2 * r < d then q else if d < 2 * r then q + 1 else if q % 2 = 0 then q else q + 1

/-- A non-negative double below `2 ^ 52`, written `m / 2 ^ k` with
`2 ^ 52 ≤ m < 2 ^ 53` unless it is zero. -/
structure Dbl where
  m : Nat
  k : Nat
  deriving DecidableEq, Repr

/-- The least scale `k`, searched upwards from the given one, with
`d * 2 ^ 52 ≤ n * 2 ^ k`; the first argument bounds the search. -/
def findScale : Nat → Nat → Nat → Nat → Nat
  | 0, _, _, k => k
  | fuel + 1, n, d, k =>
    if n * 2 ^ k < d * 2 ^ 52 then findScale fuel n d (k + 1) else k

/-- The double nearest to the rational `n / d` (round to nearest, ties to
even), for `0 < n / d < 2 ^ 52`. -/
def toDbl (n d : Nat) : Dbl :=
  let k := findScale 1200 n d 0
  let m := roundHalfEven (n * 2 ^ k) d
  if m = 2 ^ 53 then { m := 2 ^ 52, k := k - 1 } else { m := m, k := k }

/-- The quotient `a / b` of two integers that are exact as doubles. -/
def Dbl.div (a b : Nat) : Dbl := toDbl a b

/-- The product `x * c` of a double and a small integer. -/
def Dbl.mulNat (x : Dbl) (c : Nat) : Dbl := toDbl (x.m * c) (2 ^ x.k)

/-- The number of tenths chosen by `x.toFixed(1)`: the integer nearest to
`10 * x`, the larger one on a tie. -/
def Dbl.tenths (x : Dbl) : Nat := (20 * x.m + 2 ^ x.k) / (2 * 2 ^ x.k)

/-- The rational number a double stands for. -/
def Dbl.toRat (x : Dbl) : ℚ := (x.m : ℚ) / 2 ^ x.k

/-- The text of `x.toFixed(1)`. -/
def Dbl.toFixed1 (x : Dbl) : String :=
  Nat.repr (x.tenths / 10) ++ "." ++ Nat.repr (x.tenths % 10)

/-- The tenths of the percentage in `CustomTooltip`:
`((value / total) * 100).toFixed(1)`. -/
def tooltipTenths (entry : ChartEntry) : Nat :=
  ((Dbl.div entry.value entry.total).mulNat 100).tenths

/-- The percentage text in `CustomTooltip`. -/
def tooltipPercentage (entry : ChartEntry) : String :=
  ((Dbl.div entry.value entry.total).mulNat 100).toFixed1

/-! ## The dashboard component -/

/-- The method `s.includes(q)`: does `q` occur in `s`? -/
def jsIncludes (s q : String) : Bool :=
  s.data.tails.any (fun t => q.data.isPrefixOf t)

/-- The search predicate of lines 125 to 130, for an already lower-cased query. -/
def searchHit (toLowerCase : String → String) (query : String) (item : FeedbackRecord) : Bool :=
  jsIncludes (toLowerCase item.name) query ||
  jsIncludes (toLowerCase item.email) query ||
  jsIncludes (toLowerCase item.feedback) query ||
  jsIncludes (toLowerCase item.category) query

/-- The function `applyFiltersToData`, returning the value it gives to
`filteredList`. `String.prototype.toLowerCase` is a parameter. -/
def applyFiltersToData (toLowerCase : String → String) (filterCategory searchQuery : String)
    (data : List FeedbackRecord) : List FeedbackRecord :=
  if data.length = 0 then []
  else
    let result := data
    let result :=
      if filterCategory ≠ "" then result.filter (fun item => item.category == filterCategory)
      else result
    let result :=
      if searchQuery ≠ "" then
        let query := toLowerCase searchQuery
        result.filter (searchHit toLowerCase query)
      else result
    result

/-- The state of the dashboard component. -/
structure Dashboard where
  feedbackList : List FeedbackRecord
  filteredList : List FeedbackRecord
  loading : Bool
  error : Option String
  filterCategory : String
  sortBy : String
  searchQuery : String
  page : Nat
  rowsPerPage : Nat
  deriving DecidableEq, Repr

namespace Dashboard

/-- The initial values of the `useState` calls. -/
def initial : Dashboard :=
  { feedbackList := [], filteredList := [], loading := true, error := none,
    filterCategory := "", sortBy := "timestamp:desc", searchQuery := "", page := 0,
    rowsPerPage := 5 }

/-- The object `params` that `fetchFeedback` sends. -/
def fetchParams (d : Dashboard) : ReqQuery :=
  { category := if d.filterCategory ≠ "" then some (.str d.filterCategory) else none
    sortBy := if d.sortBy ≠ "" then some (.str d.sortBy) else none }

/-- The function `fetchFeedback`, from the call to the arrival of the answer:
`some data` is a successful response carrying `data`, `none` a failed request. -/
def fetchFeedback (toLowerCase : String → String) (refreshTrigger : Nat) (d : Dashboard)
    (response : Option (List FeedbackRecord)) : Dashboard :=
  match response with
  | some data =>
    { d with
      error := none
      page := if refreshTrigger ≠ 0 ∧ d.page ≠ 0 then 0 else d.page
      feedbackList := data
      filteredList := applyFiltersToData toLowerCase d.filterCategory d.searchQuery data
      loading := false }
  | none =>
    { d with
      error := some "Failed to fetch feedback. Please try again later."
      feedbackList := []
      filteredList := []
      loading := false }

/-- The handler `handleFilterChange`, with the effect on `[filterCategory,
searchQuery]` that follows it. -/
def handleFilterChange (toLowerCase : String → String) (value : String) (d : Dashboard) :
    Dashboard :=
  { d with
    filterCategory := value
    filteredList := applyFiltersToData toLowerCase value d.searchQuery d.feedbackList }

/-- The handler `handleSearchChange`, with the effect on `[filterCategory,
searchQuery]` that follows it. -/
def handleSearchChange (toLowerCase : String → String) (value : String) (d : Dashboard) :
    Dashboard :=
  { d with
    searchQuery := value
    filteredList := applyFiltersToData toLowerCase d.filterCategory value d.feedbackList }

/-- The handler `handleSortChange`: the new state and, when the value changed,
the request that the effect on `[sortBy]` sends. -/
def handleSortChange (value : String) (d : Dashboard) : Dashboard × Option ReqQuery :=
  let d' := { d with sortBy := value }
  (d', if value ≠ d.sortBy then some (fetchParams d') else none)

/-- The handler `handleRefresh` of the refresh button. -/
def handleRefresh (toLowerCase : String → String) (refreshTrigger : Nat) (d : Dashboard)
    (response : Option (List FeedbackRecord)) : Dashboard :=
  fetchFeedback toLowerCase refreshTrigger d response

/-- A new submission: `handleFeedbackSubmitted` of `App.jsx` increments
`refreshTrigger`, and the effect on `[refreshTrigger]` fetches when the new
value is positive. -/
def submissionRefresh (toLowerCase : String → String) (refreshTrigger : Nat) (d : Dashboard)
    (response : Option (List FeedbackRecord)) : Dashboard :=
  if refreshTrigger + 1 > 0 then fetchFeedback toLowerCase (refreshTrigger + 1) d response
  else d

/-- The handler `handleChangePage`. -/
def handleChangePage (newPage : Nat) (d : Dashboard) : Dashboard :=
  { d with page := newPage }

/-- The handler `handleChangeRowsPerPage`. -/
def handleChangeRowsPerPage (value : Nat) (d : Dashboard) : Dashboard :=
  { d with rowsPerPage := value, page := 0 }

end Dashboard

/-- The call `list.slice(start, stop)` for non-negative integer arguments. -/
def jsSlice (list : List FeedbackRecord) (start stop : Nat) : List FeedbackRecord :=
  (list.take stop).drop start

/-- The records shown in the table body (lines 372 to 376). -/
def tableRows (filteredList : List FeedbackRecord) (page rowsPerPage : Nat) :
    List FeedbackRecord :=
  if filteredList.length > 0 then
    if rowsPerPage > 0 then
      jsSlice filteredList (page * rowsPerPage) (page * rowsPerPage + rowsPerPage)
    else filteredList
  else []

/-- The value `emptyRows`. -/
def emptyRows (filteredList : List FeedbackRecord) (page rowsPerPage : Nat) : Nat :=
  if page > 0 then (1 + page) * rowsPerPage - filteredList.length else 0

/-- What can happen to the page: the user's actions, each fetch given together
with the answer it receives. The fetch on mount is a `refresh`. -/
inductive Event where
  | filterChange (value : String) : Event
  | searchChange (value : String) : Event
  | sortChange (value : String) (response : Option (List FeedbackRecord)) : Event
  | refresh (response : Option (List FeedbackRecord)) : Event
  | submission (response : Option (List FeedbackRecord)) : Event
  | changePage (newPage : Nat) : Event
  | changeRowsPerPage (value : Nat) : Event

/-- The state of `App` as far as the dashboard depends on it, and the
dashboard's own state. -/
structure AppState where
  refreshTrigger : Nat
  dashboard : Dashboard
  deriving DecidableEq, Repr

namespace AppState

/-- The state when the page is loaded. -/
def initial : AppState := { refreshTrigger := 0, dashboard := Dashboard.initial }

/-- One event. A sort selection fetches only when the value changes. -/
def step (toLowerCase : String → String) (s : AppState) : Event → AppState
  | .filterChange value =>
    { s with dashboard := s.dashboard.handleFilterChange toLowerCase value }
  | .searchChange value =>
    { s with dashboard := s.dashboard.handleSearchChange toLowerCase value }
  | .sortChange value response =>
    match (s.dashboard.handleSortChange value).2 with
    | some _ =>
      { s with
        dashboard :=
          Dashboard.fetchFeedback toLowerCase s.refreshTrigger
            (s.dashboard.handleSortChange value).1 response }
    | none => { s with dashboard := (s.dashboard.handleSortChange value).1 }
  | .refresh response =>
    { s with dashboard := s.dashboard.handleRefresh toLowerCase s.refreshTrigger response }
  | .submission response =>
    { refreshTrigger := s.refreshTrigger + 1
      dashboard := s.dashboard.submissionRefresh toLowerCase s.refreshTrigger response }
  | .changePage newPage => { s with dashboard := s.dashboard.handleChangePage newPage }
  | .changeRowsPerPage value =>
    { s with dashboard := s.dashboard.handleChangeRowsPerPage value }

/-- The state after a sequence of events. -/
def run (toLowerCase : String → String) (events : List Event) : AppState :=
  events.foldl (step toLowerCase) initial

end AppState

/-- The lower-casing of the letters `A` to `Z`, every other character kept:
what `toLowerCase` does to a string of ASCII characters, and also to `ß`. -/
def asciiLower (s : String) : String := ⟨s.data.map Char.toLower⟩

/-- The upper-casing of the letters `a` to `z`, every other character kept:
what `toUpperCase` does to a string of ASCII characters. -/
def asciiUpper (s : String) : String := ⟨s.data.map Char.toUpper⟩

/-- Does the string consist of ASCII characters only? -/
def isAscii (s : String) : Bool := s.data.all (fun c => c.toNat < 128)

/-- A record with a function applied to its four text fields. -/
def FeedbackRecord.mapText (f : String → String) (r : FeedbackRecord) : FeedbackRecord :=
  { r with name := f r.name, email := f r.email, feedback := f r.feedback,
           category := f r.category }

/-- Do the four text fields of a record consist of ASCII characters only? -/
def FeedbackRecord.isAscii (r : FeedbackRecord) : Bool :=
  FeedbackPortal.isAscii r.name && FeedbackPortal.isAscii r.email &&
    FeedbackPortal.isAscii r.feedback && FeedbackPortal.isAscii r.category

/-- Two strings of ASCII characters that differ at most in the case of their
letters. -/
def sameUpToCase (s t : String) : Prop :=
  isAscii s = true ∧ isAscii t = true ∧ asciiLower s = asciiLower t

/-- Two records whose four text fields differ at most in the case of their
letters. -/
def FeedbackRecord.sameUpToCase (r r' : FeedbackRecord) : Prop :=
  FeedbackPortal.sameUpToCase r.name r'.name ∧ FeedbackPortal.sameUpToCase r.email r'.email ∧
    FeedbackPortal.sameUpToCase r.feedback r'.feedback ∧
    FeedbackPortal.sameUpToCase r.category r'.category

/-- The upper-casing of the letters `a` to `z` and of `ß`, whose upper-case
form is the two letters `SS`; every other character kept. This is what
`toUpperCase` does to a string made of ASCII characters and `ß`. -/
def upperCaseSharpS (s : String) : String :=
  ⟨(s.data.map (fun c => if c = 'ß' then ['S', 'S'] else [c.toUpper])).flatten⟩

/-- Twelve records, three pages of the table at five rows per page; used for a
concrete example. -/
def twelveRecords : List FeedbackRecord :=
  (List.range 12).map (fun i => ⟨i, "Ann", "a@b.co", "x", "other", 1000⟩)

/-! ## The submission form -/

/-- Any character: used around a pattern that is not anchored. -/
def anyChar : Regex := .cls (fun _ => true)

/-- The class `\S`: every character that `\s` does not match. -/
def nonSpace : Regex := .cls (fun c => !isJsWhitespace c)

/-- The method `test` of a pattern without anchors and flags: some part of
the input matches. -/
def Regex.test (r : Regex) (s : String) : Bool :=
  (Regex.seq (.star anyChar) (.seq r (.star anyChar))).fullMatch s.data

/-- The body of the form's pattern `/\S+@\S+\.\S+/`. -/
def formEmailPattern : Regex :=
  .seq (.plus nonSpace)
    (.seq (.chr '@') (.seq (.plus nonSpace) (.seq (.chr '.') (.plus nonSpace))))

/-- The flags of `touched`. -/
structure Touched where
  name : Bool
  email : Bool
  feedback : Bool
  deriving DecidableEq, Repr

/-- The state of the form component. -/
structure FormState where
  name : String
  email : String
  feedback : String
  category : String
  error : Option String
  success : Bool
  loading : Bool
  touched : Touched
  deriving DecidableEq, Repr

/-- The fields that report a blur. -/
inductive FormField where
  | name : FormField
  | email : FormField
  | feedback : FormField
  deriving DecidableEq, Repr

namespace FeedbackForm

/-- The initial values of the `useState` calls. -/
def initial : FormState :=
  { name := "", email := "", feedback := "", category := "other", error := none,
    success := false, loading := false,
    touched := { name := false, email := false, feedback := false } }

/-- The handler `handleBlur`. -/
def handleBlur (field : FormField) (st : FormState) : FormState :=
  match field with
  | .name => { st with touched := { st.touched with name := true } }
  | .email => { st with touched := { st.touched with email := true } }
  | .feedback => { st with touched := { st.touched with feedback := true } }

/-- The value `nameError`. -/
def nameError (st : FormState) : String :=
  if st.touched.name && st.name = "" then "Name is required" else ""

/-- The value `emailError`; `&&` evaluates the pattern only when
`touched.email` holds. -/
def emailError (st : FormState) : String :=
  if st.touched.email && st.email = "" then "Email is required"
  else if st.touched.email && !formEmailPattern.test st.email then "Email is invalid"
  else ""

/-- The value `feedbackError`. -/
def feedbackError (st : FormState) : String :=
  if st.touched.feedback && st.feedback = "" then "Feedback is required" else ""

/-- The truth value of `isFormValid`. -/
def isFormValid (st : FormState) : Bool :=
  st.name ≠ "" && st.email ≠ "" && st.feedback ≠ "" && nameError st = "" &&
    emailError st = "" && feedbackError st = ""

/-- The text `setError` receives in the `catch` block, from the body of the
error response if there is one. -/
def errorText : Option Response → String
  | some { status := _, body := .invalid messages } => ", ".intercalate messages
  | some { status := _, body := .failed error } =>
    if error ≠ "" then error else "Failed to submit feedback. Please try again later."
  | _ => "Failed to submit feedback. Please try again later."

/-- What one call of `handleSubmit` does: the state afterwards, the body of
the request if one is sent, and whether `onFeedbackSubmitted` is called. -/
structure Submitted where
  state : FormState
  request : Option Body
  notified : Bool
  deriving DecidableEq, Repr

/-- The handler `handleSubmit`. The second argument is the answer to the
request, if the request is sent and answered: axios resolves on a status from
200 to 299 and throws otherwise. -/
def handleSubmit (st : FormState) (response : Option Response) : Submitted :=
  if !isFormValid st then
    { state :=
        { st with
          error := none
          success := false
          touched := { name := true, email := true, feedback := true }
          loading := false }
      request := none
      notified := false }
  else
    let request : Body :=
      { name := some st.name, email := some st.email, feedback := some st.feedback,
        category := some st.category }
    match response with
    | some { status := status, body := body } =>
      if 200 ≤ status ∧ status < 300 then
        { state :=
            { name := "", email := "", feedback := "", category := "other", error := none,
              success := true, loading := false,
              touched := { name := false, email := false, feedback := false } }
          request := some request
          notified := true }
      else
        { state :=
            { st with
              error := some (errorText (some { status := status, body := body }))
              success := false
              loading := false }
          request := some request
          notified := false }
    | none =>
      { state := { st with error := some (errorText none), success := false, loading := false }
        request := some request
        notified := false }

end FeedbackForm

/-! ## The language of a regular expression -/

/-- The strings a regular expression denotes. -/
inductive Regex.Matches : Regex → List Char → Prop
  | empty : Regex.Matches .empty []
  | cls (p : Char → Bool) (c : Char) (h : p c = true) : Regex.Matches (.cls p) [c]
  | seq {a b : Regex} {s t : List Char} :
    Regex.Matches a s → Regex.Matches b t → Regex.Matches (.seq a b) (s ++ t)
  | altLeft {a b : Regex} {s : List Char} : Regex.Matches a s → Regex.Matches (.alt a b) s
  | altRight {a b : Regex} {s : List Char} : Regex.Matches b s → Regex.Matches (.alt a b) s
  | starNil {a : Regex} : Regex.Matches (.star a) []
  | starCons {a : Regex} {s t : List Char} :
    Regex.Matches a s → Regex.Matches (.star a) t → Regex.Matches (.star a) (s ++ t)

/-- Every character class of the expression lies within `P`. -/
def Regex.Within (P : Char → Prop) : Regex → Prop
  | .never => True
  | .empty => True
  | .cls p => ∀ c, p c = true → P c
  | .seq a b => Regex.Within P a ∧ Regex.Within P b
  | .alt a b => Regex.Within P a ∧ Regex.Within P b
  | .star a => Regex.Within P a

/-- The last label of a dotted name: the part after the last dot, or the whole
string when there is no dot. -/
def lastLabel (s : String) : String :=
  ⟨(s.data.reverse.takeWhile (fun c => c != '.')).reverse⟩

/-! ## Lemmas: validation and trimming -/

theorem other_mem_categories : "other" ∈ categories := by decide

theorem validate_name (v : Option String) :
    FeedbackSchema.name.validate (FeedbackSchema.name.initial v) = nameMessage v := by
  cases v <;> rfl

theorem validate_email (v : Option String) :
    FeedbackSchema.email.validate (FeedbackSchema.email.initial v) = emailMessage v := by
  cases v with
  | none => rfl
  | some v =>
    simp only [FeedbackSchema, StringPath.validate, StringPath.initial, StringPath.checkValue,
      emailMessage, emailMatches]
    by_cases h : v = "" <;> simp [h]

theorem validate_feedback (v : Option String) :
    FeedbackSchema.feedback.validate (FeedbackSchema.feedback.initial v) = feedbackMessage v := by
  cases v <;> rfl

theorem validate_category (v : Option String) :
    FeedbackSchema.category.validate (FeedbackSchema.category.initial v) = categoryMessage v := by
  cases v with
  | none =>
    simp only [FeedbackSchema, StringPath.validate, StringPath.initial, StringPath.checkValue,
      categoryMessage, other_mem_categories, if_true]
  | some v => rfl

theorem entryIfUnset_name (v : Option String) :
    FeedbackSchema.name.entryIfUnset (FeedbackSchema.name.initial v) =
      if v.isNone then (nameMessage v).map (fun m => ("name", m)) else none := by
  cases v <;> rfl

theorem entryIfSet_name (v : Option String) :
    FeedbackSchema.name.entryIfSet (FeedbackSchema.name.initial v) =
      if v.isSome then (nameMessage v).map (fun m => ("name", m)) else none := by
  cases v <;> rfl

theorem entryIfUnset_email (v : Option String) :
    FeedbackSchema.email.entryIfUnset (FeedbackSchema.email.initial v) =
      if v.isNone then (emailMessage v).map (fun m => ("email", m)) else none := by
  cases v <;> rfl

theorem entryIfSet_email (v : Option String) :
    FeedbackSchema.email.entryIfSet (FeedbackSchema.email.initial v) =
      if v.isSome then (emailMessage v).map (fun m => ("email", m)) else none := by
  cases v with
  | none => rfl
  | some v =>
    have h := validate_email (some v)
    have hset : FeedbackSchema.email.entryIfSet (FeedbackSchema.email.initial (some v)) =
        (FeedbackSchema.email.validate (FeedbackSchema.email.initial (some v))).map
          (fun m => ("email", m)) := rfl
    rw [hset, h]
    rfl

theorem entryIfUnset_feedback (v : Option String) :
    FeedbackSchema.feedback.entryIfUnset (FeedbackSchema.feedback.initial v) =
      if v.isNone then (feedbackMessage v).map (fun m => ("feedback", m)) else none := by
  cases v <;> rfl

theorem entryIfSet_feedback (v : Option String) :
    FeedbackSchema.feedback.entryIfSet (FeedbackSchema.feedback.initial v) =
      if v.isSome then (feedbackMessage v).map (fun m => ("feedback", m)) else none := by
  cases v <;> rfl

theorem entryIfSet_category (v : Option String) :
    FeedbackSchema.category.entryIfSet (FeedbackSchema.category.initial v) =
      (categoryMessage v).map (fun m => ("category", m)) := by
  cases v with
  | none =>
    have h := validate_category none
    have hset : FeedbackSchema.category.entryIfSet (FeedbackSchema.category.initial none) =
        (FeedbackSchema.category.validate (FeedbackSchema.category.initial none)).map
          (fun m => ("category", m)) := rfl
    rw [hset, h]
  | some v => rfl

/-- The messages of `err.errors` are those of the failing paths, in the order
of validation. -/
theorem validateDoc_messages (env : CreateEnv) (body : Body) :
    ((validateDoc FeedbackSchema (buildDoc FeedbackSchema env body)).map Prod.snd).Perm
      (expectedMessages body) := by
  obtain ⟨n, e, f, c⟩ := body
  simp only [validateDoc, buildDoc, expectedMessages, entryIfUnset_name, entryIfSet_name,
    entryIfUnset_email, entryIfSet_email, entryIfUnset_feedback, entryIfSet_feedback,
    entryIfSet_category]
  cases n <;> cases e <;> cases f <;> cases categoryMessage c <;>
    simp only [Option.isNone_none, Option.isNone_some, Option.isSome_none, Option.isSome_some,
      if_true, if_false, Bool.false_eq_true, nameMessage, emailMessage, feedbackMessage] <;>
    (try split_ifs) <;>
    simp only [List.filterMap_cons, List.filterMap_nil, Option.map_some', Option.map_none', id,
      List.map_cons, List.map_nil] <;>
    rw [List.perm_iff_count] <;> intro x <;>
    simp only [List.count_cons, List.count_nil] <;> omega


theorem trimChars_eq (cs : List Char) :
    trimChars cs = (cs.dropWhile isJsWhitespace).rdropWhile isJsWhitespace := rfl

theorem trimChars_head (cs : List Char) (c : Char) (h : (trimChars cs).head? = some c) :
    isJsWhitespace c = false := by
  have hne : trimChars cs ≠ [] := by
    intro h0; rw [h0] at h; simp at h
  have hpre : trimChars cs <+: cs.dropWhile isJsWhitespace := by
    rw [trimChars_eq]; exact List.rdropWhile_prefix _ _
  have hne' : cs.dropWhile isJsWhitespace ≠ [] := by
    intro h0; rw [h0] at hpre; exact hne (List.prefix_nil.mp hpre)
  have hh := hpre.head hne
  have hnot := List.head_dropWhile_not isJsWhitespace cs hne'
  rw [List.head?_eq_head hne] at h
  have hc : c = (cs.dropWhile isJsWhitespace).head hne' := by
    rw [← hh]; exact (Option.some.inj h).symm
  rw [hc]; exact hnot

theorem trimChars_last (cs : List Char) (c : Char) (h : (trimChars cs).getLast? = some c) :
    isJsWhitespace c = false := by
  have hne : trimChars cs ≠ [] := by
    intro h0; rw [h0] at h; simp at h
  rw [List.getLast?_eq_getLast _ hne] at h
  have hc : c = (trimChars cs).getLast hne := (Option.some.inj h).symm
  have := List.rdropWhile_last_not (p := isJsWhitespace) (l := cs.dropWhile isJsWhitespace) hne
  rw [hc]
  simpa [trimChars_eq] using this

/-! ## Lemmas: the create operation -/

theorem validateDoc_eq_nil_iff (env : CreateEnv) (body : Body) :
    validateDoc FeedbackSchema (buildDoc FeedbackSchema env body) = [] ↔
      expectedMessages body = [] := by
  have hperm := validateDoc_messages env body
  constructor
  · intro h0
    rw [h0] at hperm
    exact hperm.symm.eq_nil
  · intro h0
    rw [h0] at hperm
    exact List.map_eq_nil_iff.mp hperm.eq_nil

theorem create_invalid (env : CreateEnv) (store : Store) (body : Body)
    (h : expectedMessages body ≠ []) :
    Feedback.create env store body =
      (.error { name := "ValidationError",
                errors := validateDoc FeedbackSchema (buildDoc FeedbackSchema env body) },
        store) := by
  have hne : validateDoc FeedbackSchema (buildDoc FeedbackSchema env body) ≠ [] :=
    fun h0 => h ((validateDoc_eq_nil_iff env body).mp h0)
  unfold Feedback.create
  cases hv : validateDoc FeedbackSchema (buildDoc FeedbackSchema env body) with
  | nil => exact absurd hv hne
  | cons e es => simp only [hv]

theorem create_valid (env : CreateEnv) (store : Store) (body : Body)
    (h : expectedMessages body = []) :
    Feedback.create env store body =
      match env.fault with
      | some err => (.error err, store)
      | none =>
        (.ok (buildDoc FeedbackSchema env body).toRecord,
          store ++ [(buildDoc FeedbackSchema env body).toRecord]) := by
  have hv := (validateDoc_eq_nil_iff env body).mpr h
  unfold Feedback.create
  simp only [hv]

theorem submitFeedback_invalid (env : CreateEnv) (store : Store) (body : Body)
    (h : expectedMessages body ≠ []) :
    submitFeedback env store body =
      ({ status := 400,
         body := .invalid
           ((validateDoc FeedbackSchema (buildDoc FeedbackSchema env body)).map Prod.snd) },
        store) := by
  unfold submitFeedback
  rw [create_invalid env store body h]
  rfl

theorem submitFeedback_invalid_perm (env : CreateEnv) (store : Store) (body : Body)
    (h : expectedMessages body ≠ []) :
    ∃ msgs,
      submitFeedback env store body = ({ status := 400, body := .invalid msgs }, store) ∧
        msgs.Perm (expectedMessages body) :=
  ⟨_, submitFeedback_invalid env store body h, validateDoc_messages env body⟩

theorem length_expectedMessages (b : Body) :
    (expectedMessages b).length =
      ([nameMessage b.name, emailMessage b.email, feedbackMessage b.feedback,
        categoryMessage b.category].filter Option.isSome).length := by
  unfold expectedMessages
  cases nameMessage b.name <;> cases emailMessage b.email <;>
    cases feedbackMessage b.feedback <;> cases categoryMessage b.category <;> rfl

theorem submitFeedback_valid (env : CreateEnv) (store : Store) (body : Body)
    (h : expectedMessages body = []) (hf : env.fault = none) :
    submitFeedback env store body =
      ({ status := 201, body := .created (buildDoc FeedbackSchema env body).toRecord },
        store ++ [(buildDoc FeedbackSchema env body).toRecord]) := by
  unfold submitFeedback
  rw [create_valid env store body h, hf]

theorem submitFeedback_fault (env : CreateEnv) (store : Store) (body : Body)
    (h : expectedMessages body = []) (err : JsError) (hf : env.fault = some err) :
    submitFeedback env store body = (submitCatch err, store) := by
  unfold submitFeedback
  rw [create_valid env store body h, hf]

theorem expectedMessages_eq_nil_iff (b : Body) :
    expectedMessages b = [] ↔
      nameMessage b.name = none ∧ emailMessage b.email = none ∧
        feedbackMessage b.feedback = none ∧ categoryMessage b.category = none := by
  unfold expectedMessages
  cases nameMessage b.name <;> cases emailMessage b.email <;>
    cases feedbackMessage b.feedback <;> cases categoryMessage b.category <;> simp

theorem mem_expectedMessages (b : Body) (m : String) :
    m ∈ expectedMessages b ↔
      nameMessage b.name = some m ∨ emailMessage b.email = some m ∨
        feedbackMessage b.feedback = some m ∨ categoryMessage b.category = some m := by
  unfold expectedMessages
  simp [List.mem_filterMap, eq_comm]

theorem buildDoc_toRecord (env : CreateEnv) (body : Body) :
    (buildDoc FeedbackSchema env body).toRecord =
      { id := env.newId, name := (body.name.map jsTrim).getD "", email := body.email.getD "",
        feedback := body.feedback.getD "", category := body.category.getD "other",
        timestamp := env.now } := by
  obtain ⟨n, e, f, c⟩ := body
  cases n <;> cases e <;> cases f <;> cases c <;> rfl

theorem nameMessage_eq_none (v : Option String) (h : nameMessage v = none) :
    ∃ n, v = some n ∧ jsTrim n ≠ "" := by
  cases v with
  | none => simp [nameMessage] at h
  | some n =>
    refine ⟨n, rfl, ?_⟩
    intro h0
    simp [nameMessage, h0] at h

theorem emailMatches_empty : emailMatches "" = false := by decide

theorem emailMessage_eq_none (v : Option String) (h : emailMessage v = none) :
    ∃ e, v = some e ∧ e ≠ "" ∧ emailMatches e = true := by
  cases v with
  | none => simp [emailMessage] at h
  | some e =>
    have hne : e ≠ "" := by
      intro h0; simp [emailMessage, h0] at h
    refine ⟨e, rfl, hne, ?_⟩
    cases hm : emailMatches e with
    | true => rfl
    | false => simp [emailMessage, hne, hm] at h

theorem feedbackMessage_eq_none (v : Option String) (h : feedbackMessage v = none) :
    ∃ f, v = some f ∧ f ≠ "" := by
  cases v with
  | none => simp [feedbackMessage] at h
  | some f =>
    refine ⟨f, rfl, ?_⟩
    intro h0
    simp [feedbackMessage, h0] at h

theorem categoryMessage_eq_none (v : Option String) (h : categoryMessage v = none) :
    v.getD "other" ∈ categories := by
  cases v with
  | none => exact other_mem_categories
  | some c =>
    by_cases hc : c ∈ categories
    · exact hc
    · simp [categoryMessage, hc] at h

theorem wellFormed_of_valid (env : CreateEnv) (body : Body) (h : expectedMessages body = []) :
    WellFormed (buildDoc FeedbackSchema env body).toRecord := by
  obtain ⟨h1, h2, h3, h4⟩ := (expectedMessages_eq_nil_iff body).mp h
  obtain ⟨n, hn, hn'⟩ := nameMessage_eq_none _ h1
  obtain ⟨e, he, he', hm⟩ := emailMessage_eq_none _ h2
  obtain ⟨f, hf, hf'⟩ := feedbackMessage_eq_none _ h3
  have hc := categoryMessage_eq_none _ h4
  rw [buildDoc_toRecord]
  simp only [hn, he, hf, Option.map_some', Option.getD_some]
  exact
    { name_ne := hn'
      name_head := fun c hc => trimChars_head n.data c hc
      name_last := fun c hc => trimChars_last n.data c hc
      email_ok := hm
      feedback_ne := hf'
      category_ok := hc }

theorem submitFeedback_store (env : CreateEnv) (store : Store) (body : Body) :
    (submitFeedback env store body).2 = store ∨
      (expectedMessages body = [] ∧
        (submitFeedback env store body).2 =
          store ++ [(buildDoc FeedbackSchema env body).toRecord]) := by
  by_cases h : expectedMessages body = []
  · cases hf : env.fault with
    | none => right; exact ⟨h, by rw [submitFeedback_valid env store body h hf]⟩
    | some err => left; rw [submitFeedback_fault env store body h err hf]
  · left; rw [submitFeedback_invalid env store body h]

theorem mem_buildDocs (env : CreateEnv) (docs : List Body) (d : Doc)
    (h : d ∈ buildDocs FeedbackSchema env docs) :
    ∃ env' body, body ∈ docs ∧ d = buildDoc FeedbackSchema env' body := by
  induction docs generalizing env with
  | nil => exact absurd h (List.not_mem_nil _)
  | cons body rest ih =>
    rw [buildDocs, List.mem_cons] at h
    rcases h with h | h
    · exact ⟨env, body, List.mem_cons_self _ _, h⟩
    · obtain ⟨env', b, hb, hd⟩ := ih _ h
      exact ⟨env', b, List.mem_cons_of_mem _ hb, hd⟩

theorem submitFeedbackMany_snd (env : CreateEnv) (store : Store) (docs : List Body) :
    (submitFeedbackMany env store docs).2 = (Feedback.createMany env store docs).2 := by
  unfold submitFeedbackMany
  rcases Feedback.createMany env store docs with ⟨_ | _, _⟩ <;> rfl

theorem submitFeedbackMany_store (env : CreateEnv) (store : Store) (docs : List Body) :
    ∃ added, (submitFeedbackMany env store docs).2 = store ++ added ∧
      ∀ r ∈ added, ∃ env' body, body ∈ docs ∧ expectedMessages body = [] ∧
        r = (buildDoc FeedbackSchema env' body).toRecord := by
  rw [submitFeedbackMany_snd]
  refine ⟨_, rfl, ?_⟩
  intro r hr
  cases hf : env.fault with
  | some err =>
    simp only [hf] at hr
    exact absurd hr (List.not_mem_nil _)
  | none =>
    simp only [hf, List.mem_map, List.mem_filter, List.isEmpty_iff] at hr
    obtain ⟨d, ⟨hd, hv⟩, hr⟩ := hr
    obtain ⟨env', body, hb, hd'⟩ := mem_buildDocs env docs d hd
    rw [hd'] at hv hr
    exact ⟨env', body, hb, (validateDoc_eq_nil_iff env' body).mp hv, hr.symm⟩

theorem step_wellFormed (store : Store) (op : Op) (h : ∀ r ∈ store, WellFormed r) :
    ∀ r ∈ step store op, WellFormed r := by
  cases op with
  | list env q => exact h
  | createMany env docs =>
    intro r hr
    simp only [step] at hr
    obtain ⟨added, h0, hadded⟩ := submitFeedbackMany_store env store docs
    rw [h0, List.mem_append] at hr
    rcases hr with hr | hr
    · exact h r hr
    · obtain ⟨env', body, _, hv, hr'⟩ := hadded r hr
      rw [hr']
      exact wellFormed_of_valid env' body hv
  | create env body =>
    intro r hr
    simp only [step] at hr
    rcases submitFeedback_store env store body with h0 | ⟨hv, h0⟩
    · rw [h0] at hr; exact h r hr
    · rw [h0, List.mem_append, List.mem_singleton] at hr
      rcases hr with hr | hr
      · exact h r hr
      · rw [hr]; exact wellFormed_of_valid env body hv

theorem foldl_step_wellFormed (ops : List Op) (store : Store) (h : ∀ r ∈ store, WellFormed r) :
    ∀ r ∈ ops.foldl step store, WellFormed r := by
  induction ops generalizing store with
  | nil => exact h
  | cons op ops ih => exact ih (step store op) (step_wellFormed store op h)

/-! ## The create operation: claims -/

/-- C1: a body in which name, email or feedback is missing is answered with
status 400, success false and a list of messages that holds, in the order of
validation, one message for each failing path and nothing else (a missing name
yields "Please add a name"), and the collection is left as it was. -/
theorem submitFeedback_missing_field (env : CreateEnv) (store : Store) (body : Body)
    (h : body.name = none ∨ body.email = none ∨ body.feedback = none) :
    ∃ msgs,
      submitFeedback env store body = ({ status := 400, body := .invalid msgs }, store) ∧
        (submitFeedback env store body).1.body.success = false ∧
        msgs.Perm (expectedMessages body) ∧
        msgs.length =
          ([nameMessage body.name, emailMessage body.email, feedbackMessage body.feedback,
            categoryMessage body.category].filter Option.isSome).length ∧
        (body.name = none → "Please add a name" ∈ msgs) ∧
        (body.email = none → "Please add an email" ∈ msgs) ∧
        (body.feedback = none → "Please add feedback text" ∈ msgs) := by
  have hn : body.name = none → "Please add a name" ∈ expectedMessages body := fun h0 =>
    (mem_expectedMessages body _).mpr (Or.inl (by rw [h0]; rfl))
  have he : body.email = none → "Please add an email" ∈ expectedMessages body := fun h0 =>
    (mem_expectedMessages body _).mpr (Or.inr (Or.inl (by rw [h0]; rfl)))
  have hf : body.feedback = none → "Please add feedback text" ∈ expectedMessages body :=
    fun h0 => (mem_expectedMessages body _).mpr (Or.inr (Or.inr (Or.inl (by rw [h0]; rfl))))
  have hne : expectedMessages body ≠ [] := by
    rcases h with h | h | h
    · exact List.ne_nil_of_mem (hn h)
    · exact List.ne_nil_of_mem (he h)
    · exact List.ne_nil_of_mem (hf h)
  obtain ⟨msgs, hs, hperm⟩ := submitFeedback_invalid_perm env store body hne
  refine ⟨msgs, hs, by rw [hs]; rfl, hperm, ?_, fun h0 => hperm.mem_iff.mpr (hn h0),
    fun h0 => hperm.mem_iff.mpr (he h0), fun h0 => hperm.mem_iff.mpr (hf h0)⟩
  rw [hperm.length_eq]
  exact length_expectedMessages body

/-- Witness for C1: the body `{name: "A"}`, sent to an empty collection; the
response lists the message of the feedback before that of the email. -/
theorem submitFeedback_missing_field_witness :
    (some "A" = (none : Option String) ∨ (none : Option String) = none ∨
        (none : Option String) = none) ∧
      submitFeedback ⟨1, 0, none⟩ [] ⟨some "A", none, none, none⟩ =
        ({ status := 400,
           body := .invalid ["Please add feedback text", "Please add an email"] }, []) ∧
      ∃ msgs,
        submitFeedback ⟨1, 0, none⟩ [] ⟨some "A", none, none, none⟩ =
            ({ status := 400, body := .invalid msgs }, []) ∧
          msgs.length = 2 :=
  ⟨Or.inr (Or.inl rfl), by decide,
    (submitFeedback_missing_field ⟨1, 0, none⟩ [] ⟨some "A", none, none, none⟩
      (Or.inr (Or.inl rfl))).imp fun _ h => ⟨h.1, h.2.2.2.1.trans (by decide)⟩⟩

/-- C2, as stated, fails for an empty email: it does not match the pattern,
yet the only message is the one of the `required` validator. -/
theorem submitFeedback_empty_email_counterexample :
    emailMatches "" = false ∧
      submitFeedback ⟨1, 0, none⟩ [] ⟨some "A", some "", some "x", none⟩ =
        ({ status := 400, body := .invalid ["Please add an email"] }, []) ∧
      "Please add a valid email" ∉ ["Please add an email"] := by
  decide

/-- C2, amended: a body whose email is a non-empty string that does not match
the pattern is answered with status 400 and a message list containing
"Please add a valid email", whatever the other fields, and nothing is
persisted; the list holds the messages of the failing paths in the order of
validation. -/
theorem submitFeedback_invalid_email (env : CreateEnv) (store : Store) (body : Body)
    (e : String) (he : body.email = some e) (hne : e ≠ "") (hm : emailMatches e = false) :
    ∃ msgs,
      submitFeedback env store body = ({ status := 400, body := .invalid msgs }, store) ∧
        "Please add a valid email" ∈ msgs ∧
        msgs.Perm (expectedMessages body) := by
  have hmem : "Please add a valid email" ∈ expectedMessages body :=
    (mem_expectedMessages body _).mpr (Or.inr (Or.inl (by simp [he, emailMessage, hne, hm])))
  obtain ⟨msgs, hs, hperm⟩ :=
    submitFeedback_invalid_perm env store body (List.ne_nil_of_mem hmem)
  exact ⟨msgs, hs, hperm.mem_iff.mpr hmem, hperm⟩

/-- Witness for C2: the record with name "A", email "bad" and feedback "x". -/
theorem submitFeedback_invalid_email_witness :
    ("bad" : String) ≠ "" ∧ emailMatches "bad" = false ∧
      submitFeedback ⟨1, 0, none⟩ [] ⟨some "A", some "bad", some "x", none⟩ =
        ({ status := 400, body := .invalid ["Please add a valid email"] }, []) ∧
      ∃ msgs,
        submitFeedback ⟨1, 0, none⟩ [] ⟨some "A", some "bad", some "x", none⟩ =
            ({ status := 400, body := .invalid msgs }, []) ∧
          "Please add a valid email" ∈ msgs :=
  ⟨by decide, by decide, by decide,
    (submitFeedback_invalid_email ⟨1, 0, none⟩ [] ⟨some "A", some "bad", some "x", none⟩ "bad"
      rfl (by decide) (by decide)).imp fun _ h => ⟨h.1, h.2.1⟩⟩

/-- C3, as stated, fails for a name made of whitespace only: it is non-empty,
but the `trim` setter empties it before the `required` validator runs. -/
theorem submitFeedback_blank_name_counterexample :
    (" " : String) ≠ "" ∧ emailMatches "a@b.co" = true ∧ ("x" : String) ≠ "" ∧
      submitFeedback ⟨1, 0, none⟩ [] ⟨some " ", some "a@b.co", some "x", none⟩ =
        ({ status := 400, body := .invalid ["Please add a name"] }, []) := by
  decide

/-- C3, amended: when the name is non-empty after trimming, the email matches
the pattern, the feedback is non-empty, the category is omitted or an enum
value, and the insert succeeds, the answer is status 201 with success true and
the stored record as data; that record carries the trimmed name, the submitted
email and feedback, the category (or "other"), the generated id and the
current time; it is appended to the collection, which grows by one. -/
theorem submitFeedback_valid_body (env : CreateEnv) (store : Store) (body : Body)
    (n e f : String) (hn : body.name = some n) (hn' : jsTrim n ≠ "")
    (he : body.email = some e) (hm : emailMatches e = true)
    (hf : body.feedback = some f) (hf' : f ≠ "")
    (hc : body.category = none ∨ ∃ c, c ∈ categories ∧ body.category = some c)
    (henv : env.fault = none) :
    submitFeedback env store body =
        ({ status := 201,
           body := .created ⟨env.newId, jsTrim n, e, f, body.category.getD "other", env.now⟩ },
          store ++ [⟨env.newId, jsTrim n, e, f, body.category.getD "other", env.now⟩]) ∧
      (submitFeedback env store body).1.body.success = true ∧
      (submitFeedback env store body).2.length = store.length + 1 := by
  have hne : e ≠ "" := by
    intro h0; rw [h0, emailMatches_empty] at hm; exact Bool.noConfusion hm
  have hv : expectedMessages body = [] := by
    rw [expectedMessages_eq_nil_iff]
    refine ⟨by simp [hn, nameMessage, hn'], by simp [he, emailMessage, hne, hm],
      by simp [hf, feedbackMessage, hf'], ?_⟩
    rcases hc with hc | ⟨c, hc, hc'⟩
    · rw [hc]; rfl
    · simp [hc', categoryMessage, hc]
  have hs := submitFeedback_valid env store body hv henv
  rw [buildDoc_toRecord, hn, he, hf] at hs
  simp only [Option.map_some', Option.getD_some] at hs
  refine ⟨hs, by rw [hs]; rfl, by rw [hs]; simp⟩

/-- Witness for C3: a valid body without category, name padded with blanks. -/
theorem submitFeedback_valid_body_witness :
    jsTrim " Ann " ≠ "" ∧ emailMatches "a@b.co" = true ∧ ("x" : String) ≠ "" ∧
      submitFeedback ⟨7, 1000, none⟩ [] ⟨some " Ann ", some "a@b.co", some "x", none⟩ =
        ({ status := 201, body := .created ⟨7, "Ann", "a@b.co", "x", "other", 1000⟩ },
          [⟨7, "Ann", "a@b.co", "x", "other", 1000⟩]) :=
  ⟨by decide, by decide, by decide,
    (submitFeedback_valid_body ⟨7, 1000, none⟩ [] ⟨some " Ann ", some "a@b.co", some "x", none⟩
      " Ann " "a@b.co" "x" rfl (by decide) rfl (by decide) rfl (by decide) (Or.inl rfl)
      rfl).1.trans (by decide)⟩

/-- C4: in every state reached from the empty collection by create and list
requests, each persisted record has a non-empty name with no whitespace at
either end, an email matching the pattern, a non-empty feedback and a category
among the four enum values. -/
theorem stored_records_wellFormed (ops : List Op) (r : FeedbackRecord) (h : r ∈ run ops) :
    WellFormed r :=
  foldl_step_wellFormed ops [] (fun _ hr => absurd hr (List.not_mem_nil _)) r h

/-- Witness for C4: after a rejected create, a list and an accepted create. -/
theorem stored_records_wellFormed_witness :
    (⟨7, "Ann", "a@b.co", "x", "other", 1000⟩ : FeedbackRecord) ∈
        run [.create ⟨6, 900, none⟩ ⟨some " ", some "bad", none, some "spam"⟩,
          .list ⟨none, fun _ => none⟩ ⟨none, none⟩,
          .create ⟨7, 1000, none⟩ ⟨some " Ann ", some "a@b.co", some "x", none⟩] ∧
      WellFormed (⟨7, "Ann", "a@b.co", "x", "other", 1000⟩ : FeedbackRecord) :=
  ⟨by decide,
    stored_records_wellFormed
      [.create ⟨6, 900, none⟩ ⟨some " ", some "bad", none, some "spam"⟩,
        .list ⟨none, fun _ => none⟩ ⟨none, none⟩,
        .create ⟨7, 1000, none⟩ ⟨some " Ann ", some "a@b.co", some "x", none⟩]
      ⟨7, "Ann", "a@b.co", "x", "other", 1000⟩ (by decide)⟩

/-! ## Lemmas: the sort order -/

theorem bson_le_total (x y : BsonValue) : x.le y ∨ y.le x := by
  cases x <;> cases y <;> simp only [BsonValue.le, BsonValue.rank] <;> exact le_total _ _

theorem bson_le_trans {x y z : BsonValue} (h1 : x.le y) (h2 : y.le z) : x.le z := by
  cases x <;> cases y <;> cases z <;> simp only [BsonValue.le, BsonValue.rank] at h1 h2 ⊢ <;>
    first
      | exact le_trans h1 h2
      | omega

theorem sortLe_total (key : String × Int) (a b : FeedbackRecord) :
    sortLe key a b ∨ sortLe key b a := by
  unfold sortLe
  split_ifs
  · exact bson_le_total _ _
  · exact bson_le_total _ _

theorem sortLe_trans (key : String × Int) {a b c : FeedbackRecord}
    (h1 : sortLe key a b) (h2 : sortLe key b c) : sortLe key a c := by
  unfold sortLe at h1 h2 ⊢
  split_ifs at h1 h2 ⊢
  · exact bson_le_trans h2 h1
  · exact bson_le_trans h1 h2

theorem sorted_insertionSort_sortLe (key : String × Int) (docs : List FeedbackRecord) :
    (List.insertionSort (sortLe key) docs).Sorted (sortLe key) :=
  @List.sorted_insertionSort _ (sortLe key) _ ⟨sortLe_total key⟩ ⟨fun _ _ _ => sortLe_trans key⟩
    docs

theorem sortDocs_perm (sort : List (String × Int)) (docs : List FeedbackRecord) :
    (sortDocs sort docs).Perm docs := by
  induction sort with
  | nil => exact List.Perm.refl _
  | cons key rest ih => exact (List.perm_insertionSort (sortLe key) _).trans ih

theorem sortDocs_single (key : String × Int) (docs : List FeedbackRecord) :
    sortDocs [key] docs = List.insertionSort (sortLe key) docs := rfl

theorem field_proto (r : FeedbackRecord) : r.field "__proto__" = .null := by
  unfold FeedbackRecord.field
  rw [if_neg (by decide), if_neg (by decide), if_neg (by decide), if_neg (by decide),
    if_neg (by decide), if_neg (by decide), if_neg (by decide)]

theorem sorted_proto (d : Int) (docs : List FeedbackRecord) :
    docs.Sorted (sortLe ("__proto__", d)) := by
  apply List.pairwise_of_forall
  intro a b
  unfold sortLe
  simp only [field_proto]
  split_ifs <;> exact Nat.le_refl _

/-! ## Lemmas: parsing the sort specification -/

theorem splitChars_eq (sep : Char) (cs : List Char) :
    splitChars sep cs =
      cs.takeWhile (fun c => c != sep) ::
        (match cs.dropWhile (fun c => c != sep) with
          | [] => []
          | _ :: rest => splitChars sep rest) := by
  induction cs with
  | nil => rfl
  | cons c cs ih =>
    by_cases h : c = sep
    · subst h
      simp [splitChars]
    · have hne : (c != sep) = true := by simpa using h
      rw [splitChars, if_neg h, ih]
      simp [List.takeWhile_cons, List.dropWhile_cons, hne]

theorem jsSplit_colon (s : String) :
    ∃ rest, jsSplit s ':' = sortField s :: rest ∧ rest.head? = sortDirection s := by
  unfold jsSplit sortField sortDirection
  rw [splitChars_eq]
  cases h : s.data.dropWhile (fun c => c != ':') with
  | nil => exact ⟨[], by simp, rfl⟩
  | cons c rest =>
    refine ⟨(splitChars ':' rest).map String.mk, by simp, ?_⟩
    rw [splitChars_eq]
    simp

theorem objSet_empty (key : String) (value : Int) :
    objSet [] key value = if key = "__proto__" then [] else [(key, value)] := by
  unfold objSet
  split_ifs <;> simp_all

theorem sortField_empty : sortField "" = "" := rfl

theorem ne_empty_of_sortField (s : String) (h : sortField s ≠ "") : s ≠ "" := by
  intro h0
  rw [h0] at h
  exact h sortField_empty

theorem buildSort_str (category : Option QueryValue) (s : String) (hs : s ≠ "") :
    buildSort ⟨category, some (.str s)⟩ =
      .ok (objSet [] (sortField s) (if sortDirection s = some "desc" then -1 else 1)) := by
  obtain ⟨rest, h1, h2⟩ := jsSplit_colon s
  simp only [buildSort, hs, ne_eq, not_false_eq_true, if_true, h1, h2]

theorem buildSort_default (category : Option QueryValue) (sortBy : Option QueryValue)
    (h : sortBy = none ∨ sortBy = some (.str "")) :
    buildSort ⟨category, sortBy⟩ = .ok [("timestamp", -1)] := by
  rcases h with h | h <;> subst h <;> rfl

theorem buildSort_arr (category : Option QueryValue) (items : List QueryValue) :
    buildSort ⟨category, some (.arr items)⟩ = .error typeError := rfl

theorem buildSort_obj (category : Option QueryValue) (members : List (String × QueryValue)) :
    buildSort ⟨category, some (.obj members)⟩ = .error typeError := rfl

theorem objSet_empty_any (key : String) (value : Int) :
    (objSet [] key value).any (fun kv => kv.1 == "") = decide (key = "") := by
  rw [objSet_empty]
  by_cases hp : key = "__proto__"
  · rw [if_pos hp, hp]; rfl
  · rw [if_neg hp]
    by_cases hk : key = "" <;> simp [hk]

/-! ## Lemmas: the list operation -/

theorem buildQuery_str (c : String) (sortBy : Option QueryValue) (hc : c ≠ "") :
    buildQuery ⟨some (.str c), sortBy⟩ = { category := some (.str c) } := by
  simp [buildQuery, QueryValue.truthy, hc]

theorem buildQuery_none (category : Option String) (sortBy : Option QueryValue)
    (h : category = none ∨ category = some "") :
    buildQuery ⟨category.map QueryValue.str, sortBy⟩ = { category := none } := by
  rcases h with h | h <;> subst h <;> rfl

theorem reading_string (env : FindEnv) (category : Option String) (sortBy : Option QueryValue) :
    ∃ selects, (buildQuery ⟨category.map QueryValue.str, sortBy⟩).reading env = some selects := by
  cases category with
  | none => exact ⟨_, rfl⟩
  | some c =>
    by_cases hc : c = ""
    · subst hc; exact ⟨_, rfl⟩
    · exact ⟨_, by rw [Option.map_some', buildQuery_str c sortBy hc]; rfl⟩

theorem admits_of_reading (q : Filter) (env : FindEnv) (selects : FeedbackRecord → Bool)
    (h : q.reading env = some selects) : q.admits env = selects := by
  funext r
  simp only [Filter.admits, h]

theorem find_ok (env : FindEnv) (store : Store) (query : Filter) (sort : List (String × Int))
    (hkey : sort.any (fun key => key.1 == "") = false) (selects : FeedbackRecord → Bool)
    (hr : query.reading env = some selects) (henv : env.fault = none) :
    Feedback.find env store query sort = .ok (sortDocs sort (store.filter (query.admits env))) := by
  rw [admits_of_reading query env selects hr]
  simp only [Feedback.find, hkey, hr, henv, Bool.false_eq_true, if_false]

theorem find_eq_ok (env : FindEnv) (store : Store) (query : Filter) (sort : List (String × Int))
    (data : List FeedbackRecord) (h : Feedback.find env store query sort = .ok data) :
    sort.any (fun key => key.1 == "") = false ∧ env.fault = none ∧
      (∃ selects, query.reading env = some selects) ∧
      data = sortDocs sort (store.filter (query.admits env)) := by
  cases hkey : sort.any (fun key => key.1 == "") with
  | true =>
    simp only [Feedback.find, hkey, if_true] at h
    exact Except.noConfusion h
  | false =>
    cases hr : query.reading env with
    | none =>
      simp only [Feedback.find, hkey, hr, Bool.false_eq_true, if_false] at h
      exact Except.noConfusion h
    | some selects =>
      cases henv : env.fault with
      | some err =>
        simp only [Feedback.find, hkey, hr, henv, Bool.false_eq_true, if_false] at h
        exact Except.noConfusion h
      | none =>
        rw [find_ok env store query sort hkey selects hr henv] at h
        exact ⟨rfl, rfl, ⟨selects, rfl⟩, (Except.ok.inj h).symm⟩

theorem getFeedback_of_find (env : FindEnv) (store : Store) (q : ReqQuery)
    (sort : List (String × Int)) (hs : buildSort q = .ok sort) :
    getFeedback env store q =
      match Feedback.find env store (buildQuery q) sort with
      | .ok data => { status := 200, body := .listed data.length data }
      | .error _ => { status := 500, body := .failed "Server Error" } := by
  cases hf : Feedback.find env store (buildQuery q) sort with
  | error e =>
    simp only [getFeedback, getFeedbackTry, hs, bind, Except.bind, hf]
  | ok data =>
    simp only [getFeedback, getFeedbackTry, hs, bind, Except.bind, hf]
    rfl

theorem getFeedback_ok (env : FindEnv) (store : Store) (q : ReqQuery) (sort : List (String × Int))
    (hs : buildSort q = .ok sort) (hkey : sort.any (fun key => key.1 == "") = false)
    (selects : FeedbackRecord → Bool) (hr : (buildQuery q).reading env = some selects)
    (henv : env.fault = none) :
    getFeedback env store q =
      { status := 200,
        body := .listed (sortDocs sort (store.filter ((buildQuery q).admits env))).length
          (sortDocs sort (store.filter ((buildQuery q).admits env))) } := by
  rw [getFeedback_of_find env store q sort hs, find_ok env store _ sort hkey selects hr henv]

theorem getFeedback_sort_error (env : FindEnv) (store : Store) (q : ReqQuery) (err : JsError)
    (hs : buildSort q = .error err) :
    getFeedback env store q = { status := 500, body := .failed "Server Error" } := by
  simp only [getFeedback, getFeedbackTry, hs]
  rfl

theorem getFeedback_find_error (env : FindEnv) (store : Store) (q : ReqQuery)
    (sort : List (String × Int)) (err : JsError) (hs : buildSort q = .ok sort)
    (hf : Feedback.find env store (buildQuery q) sort = .error err) :
    getFeedback env store q = { status := 500, body := .failed "Server Error" } := by
  rw [getFeedback_of_find env store q sort hs, hf]

theorem find_empty_key (env : FindEnv) (store : Store) (query : Filter)
    (sort : List (String × Int)) (hkey : sort.any (fun key => key.1 == "") = true) :
    Feedback.find env store query sort = .error sortFieldError := by
  simp only [Feedback.find, hkey, if_true]

/-- A response of the list handler has status 200 only when the sort object
was built and the storage query returned. -/
theorem getFeedback_status_ok (env : FindEnv) (store : Store) (q : ReqQuery)
    (h : (getFeedback env store q).status = 200) :
    ∃ sort data, buildSort q = .ok sort ∧
      Feedback.find env store (buildQuery q) sort = .ok data ∧
      getFeedback env store q = { status := 200, body := .listed data.length data } := by
  cases hs : buildSort q with
  | error e =>
    rw [getFeedback_sort_error env store q e hs] at h
    exact absurd h (by decide)
  | ok sort =>
    cases hf : Feedback.find env store (buildQuery q) sort with
    | error e =>
      rw [getFeedback_find_error env store q sort e hs hf] at h
      exact absurd h (by decide)
    | ok data =>
      refine ⟨sort, data, rfl, hf, ?_⟩
      rw [getFeedback_of_find env store q sort hs, hf]

/-! ## The list operation: claims -/

/-- C5, as stated, fails for the empty category value: the handler skips the
filter, so a record whose category is not the empty string is returned. -/
theorem getFeedback_empty_category_counterexample :
    getFeedback ⟨none, fun _ => none⟩ [⟨1, "Bob", "b@x.io", "hi", "other", 10⟩]
        ⟨some (.str ""), none⟩ =
        { status := 200, body := .listed 1 [⟨1, "Bob", "b@x.io", "hi", "other", 10⟩] } ∧
      (⟨1, "Bob", "b@x.io", "hi", "other", 10⟩ : FeedbackRecord).category ≠ "" := by
  decide

/-- C5, amended: for every collection and every category value given as a
single non-empty string, every successful answer of the list operation carries
exactly the stored records whose category equals that value, each as often as
it is stored, whatever the sort specification; and the operation does succeed
when the driver answers the query and the sort specification is absent, empty
or a single string with a non-empty field. -/
theorem getFeedback_category_filter (env : FindEnv) (store : Store) (c : String)
    (sortBy : Option QueryValue) (hc : c ≠ "") :
    ((getFeedback env store ⟨some (.str c), sortBy⟩).status = 200 →
      ∃ data,
        getFeedback env store ⟨some (.str c), sortBy⟩ =
            { status := 200, body := .listed data.length data } ∧
          data.Perm (store.filter (fun r => r.category == c)) ∧
          (∀ r ∈ data, r ∈ store ∧ r.category = c) ∧
          (∀ r ∈ store, r.category = c → r ∈ data)) ∧
      (env.fault = none →
        (sortBy = none ∨ sortBy = some (.str "") ∨
          ∃ s, sortBy = some (.str s) ∧ sortField s ≠ "") →
        (getFeedback env store ⟨some (.str c), sortBy⟩).status = 200) := by
  have hq := buildQuery_str c sortBy hc
  have hread : (buildQuery ⟨some (.str c), sortBy⟩).reading env =
      some (fun r => r.category == c) := by
    rw [hq]; rfl
  have hadm := admits_of_reading _ env _ hread
  constructor
  · intro hstatus
    obtain ⟨sort, data, _, hf, hg⟩ := getFeedback_status_ok env store _ hstatus
    obtain ⟨_, _, _, hdata⟩ := find_eq_ok env store _ sort data hf
    rw [hadm] at hdata
    have hperm : data.Perm (store.filter (fun r => r.category == c)) := by
      rw [hdata]; exact sortDocs_perm sort _
    refine ⟨data, hg, hperm, ?_, ?_⟩
    · intro r hr
      have := (hperm.mem_iff).mp hr
      simpa using this
    · intro r hr hcat
      exact (hperm.mem_iff).mpr (by simpa using ⟨hr, hcat⟩)
  · intro henv hsort
    have hb : ∃ sort, buildSort ⟨some (.str c), sortBy⟩ = .ok sort ∧
        sort.any (fun key => key.1 == "") = false := by
      rcases hsort with h | h | ⟨s, h, hfield⟩
      · exact ⟨_, buildSort_default _ sortBy (Or.inl h), rfl⟩
      · exact ⟨_, buildSort_default _ sortBy (Or.inr h), rfl⟩
      · subst h
        refine ⟨_, buildSort_str _ s (ne_empty_of_sortField s hfield), ?_⟩
        rw [objSet_empty_any]
        exact decide_eq_false hfield
    obtain ⟨sort, hb, hkey⟩ := hb
    rw [getFeedback_ok env store _ sort hb hkey _ hread henv]

/-- Witness for C5: of three records, the two bug reports are returned, here
in the order of the sort specification `name:asc`. -/
theorem getFeedback_category_filter_witness :
    ("bug_report" : String) ≠ "" ∧
      getFeedback ⟨none, fun _ => none⟩
          [⟨1, "Bob", "b@x.io", "hi", "bug_report", 10⟩, ⟨2, "Al", "a@x.io", "yo", "other", 30⟩,
            ⟨3, "Cy", "c@x.io", "oh", "bug_report", 20⟩]
          ⟨some (.str "bug_report"), some (.str "name:asc")⟩ =
        { status := 200,
          body := .listed 2
            [⟨1, "Bob", "b@x.io", "hi", "bug_report", 10⟩,
              ⟨3, "Cy", "c@x.io", "oh", "bug_report", 20⟩] } ∧
      ∃ data,
        getFeedback ⟨none, fun _ => none⟩
            [⟨1, "Bob", "b@x.io", "hi", "bug_report", 10⟩, ⟨2, "Al", "a@x.io", "yo", "other", 30⟩,
              ⟨3, "Cy", "c@x.io", "oh", "bug_report", 20⟩]
            ⟨some (.str "bug_report"), some (.str "name:asc")⟩ =
          { status := 200, body := .listed data.length data } ∧
        ∀ r ∈ data, r.category = "bug_report" :=
  ⟨by decide, by decide,
    ((getFeedback_category_filter ⟨none, fun _ => none⟩
      [⟨1, "Bob", "b@x.io", "hi", "bug_report", 10⟩, ⟨2, "Al", "a@x.io", "yo", "other", 30⟩,
        ⟨3, "Cy", "c@x.io", "oh", "bug_report", 20⟩]
      "bug_report" (some (.str "name:asc")) (by decide)).1 (by decide)).imp
      fun _ h => ⟨h.1, fun r hr => (h.2.2.1 r hr).2⟩⟩

/-- C6: for a sort specification `field:direction` with a non-empty field,
when the driver answers the query, the result is a rearrangement of the
filtered records ordered by that field, the text before the first colon:
descending when the direction is "desc", ascending otherwise; unless the field
is `__proto__`, the sort object sent to storage has exactly that one key. With
`name:asc` the names ascend in lexical order. -/
theorem getFeedback_sortBy (env : FindEnv) (store : Store) (category : Option String)
    (s : String) (hfield : sortField s ≠ "") (henv : env.fault = none) :
    ∃ data,
      getFeedback env store ⟨category.map QueryValue.str, some (.str s)⟩ =
          { status := 200, body := .listed data.length data } ∧
        data.Perm
          (store.filter
            ((buildQuery ⟨category.map QueryValue.str, some (.str s)⟩).admits env)) ∧
        data.Sorted (sortLe (sortField s, if sortDirection s = some "desc" then -1 else 1)) ∧
        (sortField s ≠ "__proto__" →
          buildSort ⟨category.map QueryValue.str, some (.str s)⟩ =
            .ok [(sortField s, if sortDirection s = some "desc" then -1 else 1)]) ∧
        (s = "name:asc" → data.Sorted (fun a b => a.name ≤ b.name)) := by
  have hb := buildSort_str (category.map QueryValue.str) s (ne_empty_of_sortField s hfield)
  have hkey := objSet_empty_any (sortField s) (if sortDirection s = some "desc" then -1 else 1)
  rw [decide_eq_false hfield] at hkey
  obtain ⟨selects, hread⟩ := reading_string env category (some (.str s))
  have hg := getFeedback_ok env store _ _ hb hkey selects hread henv
  rw [objSet_empty] at hb hg
  have hsorted : (sortDocs (if sortField s = "__proto__" then []
        else [(sortField s, if sortDirection s = some "desc" then -1 else 1)])
      (store.filter
        ((buildQuery ⟨category.map QueryValue.str, some (.str s)⟩).admits env))).Sorted
      (sortLe (sortField s, if sortDirection s = some "desc" then -1 else 1)) := by
    by_cases hp : sortField s = "__proto__"
    · rw [if_pos hp, hp]; exact sorted_proto _ _
    · rw [if_neg hp]; exact sorted_insertionSort_sortLe _ _
  refine ⟨_, hg, sortDocs_perm _ _, hsorted, ?_, ?_⟩
  · intro hp
    rw [hb, if_neg hp]
  · intro hname
    subst hname
    have h1 : sortField "name:asc" = "name" := by decide
    have h2 : sortDirection "name:asc" = some "asc" := by decide
    rw [h1, h2] at hsorted
    refine hsorted.imp ?_
    intro a b hab
    exact String.le_iff_toList_le.mpr hab

/-- Witness for C6: three records listed by `name:asc`. -/
theorem getFeedback_sortBy_witness :
    sortField "name:asc" ≠ "" ∧
      getFeedback ⟨none, fun _ => none⟩
          [⟨1, "Bob", "b@x.io", "hi", "bug_report", 10⟩, ⟨2, "Al", "a@x.io", "yo", "other", 30⟩,
            ⟨3, "Cy", "c@x.io", "oh", "bug_report", 20⟩]
          ⟨none, some (.str "name:asc")⟩ =
        { status := 200,
          body := .listed 3
            [⟨2, "Al", "a@x.io", "yo", "other", 30⟩, ⟨1, "Bob", "b@x.io", "hi", "bug_report", 10⟩,
              ⟨3, "Cy", "c@x.io", "oh", "bug_report", 20⟩] } ∧
      ∃ data,
        getFeedback ⟨none, fun _ => none⟩
            [⟨1, "Bob", "b@x.io", "hi", "bug_report", 10⟩, ⟨2, "Al", "a@x.io", "yo", "other", 30⟩,
              ⟨3, "Cy", "c@x.io", "oh", "bug_report", 20⟩]
            ⟨(none : Option String).map QueryValue.str, some (.str "name:asc")⟩ =
          { status := 200, body := .listed data.length data } ∧
        data.Sorted (fun a b => a.name ≤ b.name) :=
  ⟨by decide, by decide,
    (getFeedback_sortBy ⟨none, fun _ => none⟩
      [⟨1, "Bob", "b@x.io", "hi", "bug_report", 10⟩, ⟨2, "Al", "a@x.io", "yo", "other", 30⟩,
        ⟨3, "Cy", "c@x.io", "oh", "bug_report", 20⟩]
      none "name:asc" (by decide) rfl).imp fun _ h => ⟨h.1, h.2.2.2.2 rfl⟩⟩

/-- C7: without a sortBy value (absent or empty) the sort object is exactly
`{timestamp: -1}`, so the result is ordered by timestamp, newest first; when
the category is absent or empty as well, the filter is empty and the result
is a rearrangement of the whole collection. -/
theorem getFeedback_default_sort (env : FindEnv) (store : Store) (category : Option String)
    (sortBy : Option QueryValue) (hs : sortBy = none ∨ sortBy = some (.str ""))
    (henv : env.fault = none) :
    buildSort ⟨category.map QueryValue.str, sortBy⟩ = .ok [("timestamp", -1)] ∧
      ∃ data,
        getFeedback env store ⟨category.map QueryValue.str, sortBy⟩ =
            { status := 200, body := .listed data.length data } ∧
          data.Sorted (fun a b => b.timestamp ≤ a.timestamp) ∧
          data.Perm
            (store.filter ((buildQuery ⟨category.map QueryValue.str, sortBy⟩).admits env)) ∧
          (category = none ∨ category = some "" →
            buildQuery ⟨category.map QueryValue.str, sortBy⟩ = { category := none } ∧
              data.Perm store) := by
  have hb := buildSort_default (category.map QueryValue.str) sortBy hs
  obtain ⟨selects, hread⟩ := reading_string env category sortBy
  have hg := getFeedback_ok env store _ _ hb rfl selects hread henv
  have hperm := sortDocs_perm [("timestamp", -1)]
    (store.filter ((buildQuery ⟨category.map QueryValue.str, sortBy⟩).admits env))
  refine ⟨hb, _, hg, ?_, hperm, ?_⟩
  · exact (sorted_insertionSort_sortLe ("timestamp", -1) _).imp (fun hab => hab)
  · intro hc
    have hq := buildQuery_none category sortBy hc
    refine ⟨hq, ?_⟩
    have hall : store.filter (Filter.admits { category := none } env) = store :=
      List.filter_eq_self.mpr (fun _ _ => rfl)
    rw [hq, hall]
    exact sortDocs_perm _ store

/-- Witness for C7: three records listed with no parameters. -/
theorem getFeedback_default_sort_witness :
    ((none : Option QueryValue) = none ∨ (none : Option QueryValue) = some (.str "")) ∧
      getFeedback ⟨none, fun _ => none⟩
          [⟨1, "Bob", "b@x.io", "hi", "bug_report", 10⟩, ⟨2, "Al", "a@x.io", "yo", "other", 30⟩,
            ⟨3, "Cy", "c@x.io", "oh", "bug_report", 20⟩]
          ⟨none, none⟩ =
        { status := 200,
          body := .listed 3
            [⟨2, "Al", "a@x.io", "yo", "other", 30⟩, ⟨3, "Cy", "c@x.io", "oh", "bug_report", 20⟩,
              ⟨1, "Bob", "b@x.io", "hi", "bug_report", 10⟩] } ∧
      buildSort ⟨(none : Option String).map QueryValue.str, none⟩ = .ok [("timestamp", -1)] :=
  ⟨Or.inl rfl, by decide,
    (getFeedback_default_sort ⟨none, fun _ => none⟩
      [⟨1, "Bob", "b@x.io", "hi", "bug_report", 10⟩, ⟨2, "Al", "a@x.io", "yo", "other", 30⟩,
        ⟨3, "Cy", "c@x.io", "oh", "bug_report", 20⟩]
      none none (Or.inl rfl) rfl).1⟩

/-- C8, evaluated: when the sortBy key is repeated, `req.query.sortBy` is an
array and the handler answers 500 whatever the state of storage, and so it
does for a sortBy given with brackets, which is an object; a sort
specification that starts with a colon names the empty field, which
`sort()` refuses, and is answered with 500 as well. -/
theorem getFeedback_repeated_sortBy (env : FindEnv) (store : Store)
    (category : Option QueryValue) :
    (∀ items : List QueryValue,
      getFeedback env store ⟨category, some (.arr items)⟩ =
        { status := 500, body := .failed "Server Error" }) ∧
      (∀ members : List (String × QueryValue),
        getFeedback env store ⟨category, some (.obj members)⟩ =
          { status := 500, body := .failed "Server Error" }) ∧
      (∀ s : String, s ≠ "" → sortField s = "" →
        getFeedback env store ⟨category, some (.str s)⟩ =
          { status := 500, body := .failed "Server Error" }) ∧
      getFeedback ⟨none, fun _ => none⟩ [⟨1, "Bob", "b@x.io", "hi", "other", 10⟩]
          ⟨none, some (.arr [.str "name:asc", .str "email:desc"])⟩ =
        { status := 500, body := .failed "Server Error" } ∧
      getFeedback ⟨none, fun _ => none⟩ [⟨1, "Bob", "b@x.io", "hi", "other", 10⟩]
          ⟨none, some (.str ":desc")⟩ =
        { status := 500, body := .failed "Server Error" } := by
  refine ⟨fun items => getFeedback_sort_error env store _ typeError (buildSort_arr _ _),
    fun members => getFeedback_sort_error env store _ typeError (buildSort_obj _ _), ?_,
    by decide, by decide⟩
  intro s hs hfield
  have hb := buildSort_str category s hs
  have hkey := objSet_empty_any (sortField s) (if sortDirection s = some "desc" then -1 else 1)
  rw [decide_eq_true hfield] at hkey
  exact getFeedback_find_error env store _ _ _ hb (find_empty_key env store _ _ hkey)

/-- C9: when `Feedback.create` fails, the answer is 400 exactly when the error
is named ValidationError, and its error member is then the list of the
messages in `err.errors`, which for a rejected body are the messages of the
failing paths, each once, in the order of validation; every other failure is
answered with 500 and the fixed body "Server Error"; nothing is persisted. -/
theorem submitFeedback_failure (env : CreateEnv) (store : Store) (body : Body) (err : JsError)
    (h : (Feedback.create env store body).1 = .error err) :
    ((submitFeedback env store body).1.status = 400 ↔ err.name = "ValidationError") ∧
      (err.name ≠ "ValidationError" →
        (submitFeedback env store body).1 =
          { status := 500, body := .failed "Server Error" }) ∧
      (err.name = "ValidationError" →
        (submitFeedback env store body).1 =
          { status := 400, body := .invalid (err.errors.map Prod.snd) }) ∧
      (expectedMessages body ≠ [] →
        err.name = "ValidationError" ∧
          (err.errors.map Prod.snd).Perm (expectedMessages body)) ∧
      (submitFeedback env store body).2 = store := by
  have hsub : submitFeedback env store body = (submitCatch err, store) := by
    by_cases hv : expectedMessages body = []
    · cases hf : env.fault with
      | none =>
        rw [create_valid env store body hv, hf] at h
        exact Except.noConfusion h
      | some e =>
        rw [create_valid env store body hv, hf] at h
        have he : e = err := Except.error.inj h
        rw [submitFeedback_fault env store body hv e hf, he]
    · rw [create_invalid env store body hv] at h
      have he := Except.error.inj h
      rw [submitFeedback_invalid env store body hv, ← he]
      rfl
  rw [hsub]
  refine ⟨?_, ?_, ?_, ?_, rfl⟩
  · unfold submitCatch
    split_ifs with hn
    · exact ⟨fun _ => hn, fun _ => rfl⟩
    · exact ⟨fun h4 => absurd (show (500 : Nat) = 400 from h4) (by decide),
        fun h4 => absurd h4 hn⟩
  · intro hn
    simp only [submitCatch, if_neg hn]
  · intro hn
    simp only [submitCatch, if_pos hn]
  · intro hv
    rw [create_invalid env store body hv] at h
    have he := Except.error.inj h
    rw [← he]
    exact ⟨rfl, validateDoc_messages env body⟩

/-- Witness for C9: a valid body while the driver throws a network error. -/
theorem submitFeedback_failure_witness :
    (Feedback.create ⟨7, 1000, some ⟨"MongoNetworkError", []⟩⟩ []
          ⟨some "Ann", some "a@b.co", some "x", none⟩).1 =
        .error ⟨"MongoNetworkError", []⟩ ∧
      (submitFeedback ⟨7, 1000, some ⟨"MongoNetworkError", []⟩⟩ []
          ⟨some "Ann", some "a@b.co", some "x", none⟩).1 =
        { status := 500, body := .failed "Server Error" } :=
  ⟨rfl,
    (submitFeedback_failure ⟨7, 1000, some ⟨"MongoNetworkError", []⟩⟩ []
      ⟨some "Ann", some "a@b.co", some "x", none⟩ ⟨"MongoNetworkError", []⟩ rfl).2.1
      (by decide)⟩

/-- C10: on every list response with status 200 the body is
`{success: true, count, data}` where count is the length of data and data is
the whole result of the storage query, a rearrangement of all stored records
that pass the filter. -/
theorem getFeedback_count_data (env : FindEnv) (store : Store) (q : ReqQuery)
    (h : (getFeedback env store q).status = 200) :
    ∃ data sort,
      getFeedback env store q = { status := 200, body := .listed data.length data } ∧
        buildSort q = .ok sort ∧
        Feedback.find env store (buildQuery q) sort = .ok data ∧
        data.Perm (store.filter ((buildQuery q).admits env)) ∧
        data.length = (store.filter ((buildQuery q).admits env)).length := by
  obtain ⟨sort, data, hs, hf, hg⟩ := getFeedback_status_ok env store q h
  obtain ⟨_, _, _, hdata⟩ := find_eq_ok env store _ sort data hf
  have hperm : data.Perm (store.filter ((buildQuery q).admits env)) := by
    rw [hdata]; exact sortDocs_perm sort _
  exact ⟨data, sort, hg, hs, hf, hperm, hperm.length_eq⟩

/-- Witness for C10: the filtered and sorted listing of three records. -/
theorem getFeedback_count_data_witness :
    (getFeedback ⟨none, fun _ => none⟩
          [⟨1, "Bob", "b@x.io", "hi", "bug_report", 10⟩, ⟨2, "Al", "a@x.io", "yo", "other", 30⟩,
            ⟨3, "Cy", "c@x.io", "oh", "bug_report", 20⟩]
          ⟨some (.str "bug_report"), some (.str "name:desc")⟩).status = 200 ∧
      ∃ data sort,
        getFeedback ⟨none, fun _ => none⟩
            [⟨1, "Bob", "b@x.io", "hi", "bug_report", 10⟩, ⟨2, "Al", "a@x.io", "yo", "other", 30⟩,
              ⟨3, "Cy", "c@x.io", "oh", "bug_report", 20⟩]
            ⟨some (.str "bug_report"), some (.str "name:desc")⟩ =
          { status := 200, body := .listed data.length data } ∧
        buildSort ⟨some (.str "bug_report"), some (.str "name:desc")⟩ = .ok sort :=
  ⟨by decide,
    (getFeedback_count_data ⟨none, fun _ => none⟩
      [⟨1, "Bob", "b@x.io", "hi", "bug_report", 10⟩, ⟨2, "Al", "a@x.io", "yo", "other", 30⟩,
        ⟨3, "Cy", "c@x.io", "oh", "bug_report", 20⟩]
      ⟨some (.str "bug_report"), some (.str "name:desc")⟩ (by decide)).imp
      fun _ h => h.imp fun _ h => ⟨h.1, h.2.1⟩⟩

/-! ## Lemmas: the dashboard filters -/

theorem jsIncludes_iff (s q : String) : jsIncludes s q = true ↔ q.data <:+: s.data := by
  unfold jsIncludes
  rw [List.any_eq_true, List.infix_iff_prefix_suffix]
  constructor
  · rintro ⟨t, ht, hp⟩
    exact ⟨t, List.isPrefixOf_iff_prefix.mp hp, (List.mem_tails _ _).mp ht⟩
  · rintro ⟨t, hp, ht⟩
    exact ⟨t, (List.mem_tails _ _).mpr ht, List.isPrefixOf_iff_prefix.mpr hp⟩

theorem jsIncludes_empty (s : String) : jsIncludes s "" = true :=
  (jsIncludes_iff s "").mpr List.nil_infix

/-- The filter that `applyFiltersToData` amounts to. -/
theorem applyFiltersToData_eq_filter (toLowerCase : String → String) (c q : String)
    (data : List FeedbackRecord) :
    applyFiltersToData toLowerCase c q data =
      data.filter (fun r =>
        (decide (c = "") || r.category == c) &&
          (decide (q = "") || searchHit toLowerCase (toLowerCase q) r)) := by
  unfold applyFiltersToData
  by_cases hd : data.length = 0
  · rw [if_pos hd, List.length_eq_zero.mp hd]; rfl
  · rw [if_neg hd]
    by_cases hc : c = "" <;> by_cases hq : q = "" <;>
      simp [hc, hq, List.filter_filter, Bool.and_comm]

theorem mem_applyFiltersToData (toLowerCase : String → String) (c q : String)
    (data : List FeedbackRecord) (r : FeedbackRecord) :
    r ∈ applyFiltersToData toLowerCase c q data ↔
      r ∈ data ∧ (c = "" ∨ r.category = c) ∧
        (q = "" ∨ searchHit toLowerCase (toLowerCase q) r = true) := by
  rw [applyFiltersToData_eq_filter, List.mem_filter]
  simp

theorem applyFiltersToData_sublist (toLowerCase : String → String) (c q : String)
    (data : List FeedbackRecord) :
    (applyFiltersToData toLowerCase c q data).Sublist data := by
  rw [applyFiltersToData_eq_filter]
  exact List.filter_sublist _

theorem applyFiltersToData_none (toLowerCase : String → String) (data : List FeedbackRecord) :
    applyFiltersToData toLowerCase "" "" data = data := by
  rw [applyFiltersToData_eq_filter]
  simp

theorem searchHit_iff (toLowerCase : String → String) (query : String) (r : FeedbackRecord) :
    searchHit toLowerCase query r = true ↔
      query.data <:+: (toLowerCase r.name).data ∨ query.data <:+: (toLowerCase r.email).data ∨
        query.data <:+: (toLowerCase r.feedback).data ∨
        query.data <:+: (toLowerCase r.category).data := by
  unfold searchHit
  simp only [Bool.or_eq_true, jsIncludes_iff, or_assoc]

theorem char_ascii_cases (P : Char → Prop) (h : ∀ n : Fin 128, P (Char.ofNat n.val)) (c : Char)
    (hc : c.toNat < 128) : P c := by
  have := h ⟨c.toNat, hc⟩
  simpa [Char.ofNat_toNat] using this

theorem char_case_ascii (c : Char) (hc : c.toNat < 128) :
    c.toUpper.toLower = c.toLower ∧ c.toUpper.toNat < 128 ∧ c.toLower.toLower = c.toLower ∧
      c.toLower.toNat < 128 :=
  char_ascii_cases
    (fun c => c.toUpper.toLower = c.toLower ∧ c.toUpper.toNat < 128 ∧
      c.toLower.toLower = c.toLower ∧ c.toLower.toNat < 128) (by decide) c hc

theorem sameUpToCase_asciiUpper (s : String) (h : isAscii s = true) :
    sameUpToCase s (asciiUpper s) := by
  have hall : ∀ c ∈ s.data, c.toNat < 128 := by
    simpa [isAscii] using h
  refine ⟨h, ?_, ?_⟩
  · simp only [isAscii, asciiUpper, List.all_map, List.all_eq_true, Function.comp,
      decide_eq_true_eq]
    exact fun c hc => (char_case_ascii c (hall c hc)).2.1
  · simp only [asciiLower, asciiUpper, List.map_map]
    exact congrArg String.mk
      (List.map_congr_left (fun c hc => ((char_case_ascii c (hall c hc)).1).symm))

theorem sameUpToCase_asciiLower (s : String) (h : isAscii s = true) :
    sameUpToCase s (asciiLower s) := by
  have hall : ∀ c ∈ s.data, c.toNat < 128 := by
    simpa [isAscii] using h
  refine ⟨h, ?_, ?_⟩
  · simp only [isAscii, asciiLower, List.all_map, List.all_eq_true, Function.comp,
      decide_eq_true_eq]
    exact fun c hc => (char_case_ascii c (hall c hc)).2.2.2
  · simp only [asciiLower, List.map_map]
    exact congrArg String.mk
      (List.map_congr_left (fun c hc => ((char_case_ascii c (hall c hc)).2.2.1).symm))

theorem asciiUpper_ne_empty (s : String) (h : s ≠ "") : asciiUpper s ≠ "" := by
  intro h0
  apply h
  have hd : (asciiUpper s).data = [] := by rw [h0]
  simp only [asciiUpper, List.map_eq_nil_iff] at hd
  exact String.ext hd

theorem asciiLower_ne_empty (s : String) (h : s ≠ "") : asciiLower s ≠ "" := by
  intro h0
  apply h
  have hd : (asciiLower s).data = [] := by rw [h0]
  simp only [asciiLower, List.map_eq_nil_iff] at hd
  exact String.ext hd

theorem sameUpToCase_mapText_asciiUpper (r : FeedbackRecord) (h : r.isAscii = true) :
    r.sameUpToCase (r.mapText asciiUpper) := by
  simp only [FeedbackRecord.isAscii, Bool.and_eq_true] at h
  obtain ⟨⟨⟨h1, h2⟩, h3⟩, h4⟩ := h
  exact ⟨sameUpToCase_asciiUpper _ h1, sameUpToCase_asciiUpper _ h2,
    sameUpToCase_asciiUpper _ h3, sameUpToCase_asciiUpper _ h4⟩

theorem sameUpToCase_mapText_asciiLower (r : FeedbackRecord) (h : r.isAscii = true) :
    r.sameUpToCase (r.mapText asciiLower) := by
  simp only [FeedbackRecord.isAscii, Bool.and_eq_true] at h
  obtain ⟨⟨⟨h1, h2⟩, h3⟩, h4⟩ := h
  exact ⟨sameUpToCase_asciiLower _ h1, sameUpToCase_asciiLower _ h2,
    sameUpToCase_asciiLower _ h3, sameUpToCase_asciiLower _ h4⟩

theorem searchHit_sameUpToCase (toLowerCase : String → String)
    (hlow : ∀ s, isAscii s = true → toLowerCase s = asciiLower s) (query : String)
    (r r' : FeedbackRecord) (h : r.sameUpToCase r') :
    searchHit toLowerCase query r = searchHit toLowerCase query r' := by
  obtain ⟨hn, he, hf, hc⟩ := h
  simp only [searchHit, hlow _ hn.1, hlow _ hn.2.1, hn.2.2, hlow _ he.1, hlow _ he.2.1, he.2.2,
    hlow _ hf.1, hlow _ hf.2.1, hf.2.2, hlow _ hc.1, hlow _ hc.2.1, hc.2.2]

theorem filter_sameUpToCase (toLowerCase : String → String)
    (hlow : ∀ s, isAscii s = true → toLowerCase s = asciiLower s) (query : String)
    (data data' : List FeedbackRecord) (h : List.Forall₂ FeedbackRecord.sameUpToCase data data') :
    List.Forall₂ FeedbackRecord.sameUpToCase (data.filter (searchHit toLowerCase query))
      (data'.filter (searchHit toLowerCase query)) := by
  induction h with
  | nil => exact List.Forall₂.nil
  | cons hr _ ih =>
    have hhit := searchHit_sameUpToCase toLowerCase hlow query _ _ hr
    rw [List.filter_cons, List.filter_cons, ← hhit]
    split_ifs
    · exact List.Forall₂.cons hr ih
    · exact ih

theorem filter_map_sameUpToCase (toLowerCase : String → String)
    (hlow : ∀ s, isAscii s = true → toLowerCase s = asciiLower s) (query : String)
    (g : FeedbackRecord → FeedbackRecord) (data : List FeedbackRecord)
    (h : ∀ r ∈ data, r.sameUpToCase (g r)) :
    (data.map g).filter (searchHit toLowerCase query) =
      (data.filter (searchHit toLowerCase query)).map g := by
  rw [List.filter_map]
  congr 1
  apply List.filter_congr
  intro r hr
  exact (searchHit_sameUpToCase toLowerCase hlow query r (g r) (h r hr)).symm

/-! ## Lemmas: the life of a record -/

theorem step_append (store : Store) (op : Op) : ∃ added, step store op = store ++ added := by
  cases op with
  | list env q => exact ⟨[], (List.append_nil _).symm⟩
  | create env body =>
    rcases submitFeedback_store env store body with h | ⟨_, h⟩
    · exact ⟨[], by simp only [step, h, List.append_nil]⟩
    · exact ⟨[(buildDoc FeedbackSchema env body).toRecord], by simp only [step, h]⟩
  | createMany env docs =>
    obtain ⟨added, h, _⟩ := submitFeedbackMany_store env store docs
    exact ⟨added, by simp only [step, h]⟩

theorem submitFeedback_append (env : CreateEnv) (store : Store) (body : Body) :
    ∃ added, (submitFeedback env store body).2 = store ++ added ∧ added.length ≤ 1 := by
  rcases submitFeedback_store env store body with h | ⟨_, h⟩
  · exact ⟨[], by rw [h, List.append_nil], Nat.zero_le _⟩
  · exact ⟨[(buildDoc FeedbackSchema env body).toRecord], h, Nat.le_refl _⟩

theorem foldl_step_prefix (ops : List Op) (store : Store) :
    store <+: ops.foldl step store := by
  induction ops generalizing store with
  | nil => exact List.prefix_refl _
  | cons op ops ih =>
    obtain ⟨added, h⟩ := step_append store op
    exact (List.prefix_append store added).trans (h ▸ ih (step store op))

/-- C11, evaluated: no request updates or deletes a stored record. A list
request leaves the collection as it is; every create request keeps the stored
records in place and unchanged in front of what it appends, and so does every
sequence of requests; a create request whose body is one JSON object appends at
most one record. A create request whose body is a JSON array appends one
record for each element that passes validation: two for an array of two valid
records. -/
theorem records_never_updated_or_deleted (store : Store) :
    (∀ env q, step store (.list env q) = store) ∧
      (∀ op, store <+: step store op) ∧
      (∀ ops : List Op, store <+: ops.foldl step store) ∧
      (∀ env body, ∃ added,
        (submitFeedback env store body).2 = store ++ added ∧ added.length ≤ 1) ∧
      submitFeedbackMany ⟨7, 1000, none⟩ [⟨1, "Bob", "b@x.io", "hi", "other", 10⟩]
          [⟨some "Ann", some "a@b.co", some "x", none⟩,
            ⟨some "Al", some "al@b.co", some "y", some "bug_report"⟩] =
        ({ status := 201,
           body := .createdMany
             [⟨7, "Ann", "a@b.co", "x", "other", 1000⟩,
               ⟨8, "Al", "al@b.co", "y", "bug_report", 1000⟩] },
          [⟨1, "Bob", "b@x.io", "hi", "other", 10⟩, ⟨7, "Ann", "a@b.co", "x", "other", 1000⟩,
            ⟨8, "Al", "al@b.co", "y", "bug_report", 1000⟩]) :=
  ⟨fun _ _ => rfl, fun op => foldl_step_prefix [op] store,
    fun ops => foldl_step_prefix ops store, fun env body => submitFeedback_append env store body,
    by decide⟩

/-! ## The dashboard: claims -/

/-- C16, as stated, fails outside the ASCII letters: the upper-case form of
the query `ß` is `SS`; the first finds nothing in a record whose feedback is
`HAUPTSTRASSE 5`, the second finds the record. Likewise the query `ss` finds
that record and not the one whose feedback is `Hauptstraße 5`, of which
`HAUPTSTRASSE 5` is the upper-case form. On all these strings the function
`asciiLower` is `toLowerCase`. -/
theorem search_sharp_s_counterexample :
    upperCaseSharpS "ß" = "SS" ∧
      applyFiltersToData asciiLower "" "ß" [⟨1, "Jo", "jo@x.io", "HAUPTSTRASSE 5", "other", 10⟩] =
        [] ∧
      applyFiltersToData asciiLower "" "SS" [⟨1, "Jo", "jo@x.io", "HAUPTSTRASSE 5", "other", 10⟩] =
        [⟨1, "Jo", "jo@x.io", "HAUPTSTRASSE 5", "other", 10⟩] ∧
      upperCaseSharpS "Hauptstraße 5" = "HAUPTSTRASSE 5" ∧
      applyFiltersToData asciiLower "" "ss" [⟨1, "Jo", "jo@x.io", "Hauptstraße 5", "other", 10⟩] =
        [] ∧
      applyFiltersToData asciiLower "" "ss" [⟨1, "Jo", "jo@x.io", "HAUPTSTRASSE 5", "other", 10⟩] =
        [⟨1, "Jo", "jo@x.io", "HAUPTSTRASSE 5", "other", 10⟩] := by
  decide

/-- C16, amended: with no category filter and a non-empty search query, the
filtered view is the fetched set restricted to the records in which the
lower-cased query occurs in the lower-cased name, email, feedback or category.
Where `toLowerCase` lower-cases the letters `A` to `Z` of a string of ASCII
characters and keeps its other characters, as it does in JavaScript, a query
of ASCII characters selects the same records as every query that differs from
it only in the case of its letters, among them its upper-case and its
lower-case form; and changing the case of letters in fields of ASCII
characters keeps the matching records: the views of the two sets correspond
record by record, and the view of the set with all fields in upper case (or
in lower case) is the view of the set, put in upper case (or in lower
case). -/
theorem applyFiltersToData_search (toLowerCase : String → String) (data : List FeedbackRecord)
    (q : String) (hq : q ≠ "") :
    applyFiltersToData toLowerCase "" q data =
        data.filter (fun r =>
          jsIncludes (toLowerCase r.name) (toLowerCase q) ||
          jsIncludes (toLowerCase r.email) (toLowerCase q) ||
          jsIncludes (toLowerCase r.feedback) (toLowerCase q) ||
          jsIncludes (toLowerCase r.category) (toLowerCase q)) ∧
      (∀ r, r ∈ applyFiltersToData toLowerCase "" q data ↔
        r ∈ data ∧
          ((toLowerCase q).data <:+: (toLowerCase r.name).data ∨
            (toLowerCase q).data <:+: (toLowerCase r.email).data ∨
            (toLowerCase q).data <:+: (toLowerCase r.feedback).data ∨
            (toLowerCase q).data <:+: (toLowerCase r.category).data)) ∧
      ((∀ s, isAscii s = true → toLowerCase s = asciiLower s) →
        (∀ q', q' ≠ "" → sameUpToCase q q' →
          applyFiltersToData toLowerCase "" q' data =
            applyFiltersToData toLowerCase "" q data) ∧
        (isAscii q = true →
          applyFiltersToData toLowerCase "" (asciiUpper q) data =
              applyFiltersToData toLowerCase "" q data ∧
            applyFiltersToData toLowerCase "" (asciiLower q) data =
              applyFiltersToData toLowerCase "" q data) ∧
        (∀ data', List.Forall₂ FeedbackRecord.sameUpToCase data data' →
          List.Forall₂ FeedbackRecord.sameUpToCase
            (applyFiltersToData toLowerCase "" q data)
            (applyFiltersToData toLowerCase "" q data')) ∧
        ((∀ r ∈ data, r.isAscii = true) →
          applyFiltersToData toLowerCase "" q (data.map (FeedbackRecord.mapText asciiUpper)) =
              (applyFiltersToData toLowerCase "" q data).map
                (FeedbackRecord.mapText asciiUpper) ∧
            applyFiltersToData toLowerCase "" q (data.map (FeedbackRecord.mapText asciiLower)) =
              (applyFiltersToData toLowerCase "" q data).map
                (FeedbackRecord.mapText asciiLower))) := by
  have heq : ∀ (q' : String) (l : List FeedbackRecord), q' ≠ "" →
      applyFiltersToData toLowerCase "" q' l =
        l.filter (searchHit toLowerCase (toLowerCase q')) := by
    intro q' l hq'
    rw [applyFiltersToData_eq_filter]
    simp [hq']
  refine ⟨heq q data hq, ?_, ?_⟩
  · intro r
    rw [mem_applyFiltersToData, searchHit_iff]
    simp [hq]
  · intro hlow
    have hquery : ∀ q', q' ≠ "" → sameUpToCase q q' →
        applyFiltersToData toLowerCase "" q' data =
          applyFiltersToData toLowerCase "" q data := by
      intro q' hq' hsame
      rw [heq q' data hq', heq q data hq, hlow q hsame.1, hlow q' hsame.2.1, hsame.2.2]
    refine ⟨hquery, ?_, ?_, ?_⟩
    · intro hascii
      exact ⟨hquery _ (asciiUpper_ne_empty q hq) (sameUpToCase_asciiUpper q hascii),
        hquery _ (asciiLower_ne_empty q hq) (sameUpToCase_asciiLower q hascii)⟩
    · intro data' hrel
      rw [heq q data hq, heq q data' hq]
      exact filter_sameUpToCase toLowerCase hlow (toLowerCase q) data data' hrel
    · intro hascii
      rw [heq q data hq, heq q _ hq, heq q _ hq]
      exact ⟨filter_map_sameUpToCase toLowerCase hlow _ _ data
          (fun r hr => sameUpToCase_mapText_asciiUpper r (hascii r hr)),
        filter_map_sameUpToCase toLowerCase hlow _ _ data
          (fun r hr => sameUpToCase_mapText_asciiLower r (hascii r hr))⟩

/-- Witness for C16: the query "BUG" against three records; the query "bug"
gives the same view. -/
theorem applyFiltersToData_search_witness :
    ("BUG" : String) ≠ "" ∧
      applyFiltersToData asciiLower "" "BUG"
          [⟨1, "Bob", "b@x.io", "hi there", "suggestion", 10⟩,
            ⟨2, "Al", "a@x.io", "a Bug in it", "other", 30⟩,
            ⟨3, "Cy", "c@x.io", "oh", "bug_report", 20⟩] =
        [⟨2, "Al", "a@x.io", "a Bug in it", "other", 30⟩,
          ⟨3, "Cy", "c@x.io", "oh", "bug_report", 20⟩] ∧
      applyFiltersToData asciiLower "" "bug"
          [⟨1, "Bob", "b@x.io", "hi there", "suggestion", 10⟩,
            ⟨2, "Al", "a@x.io", "a Bug in it", "other", 30⟩,
            ⟨3, "Cy", "c@x.io", "oh", "bug_report", 20⟩] =
        applyFiltersToData asciiLower "" "BUG"
          [⟨1, "Bob", "b@x.io", "hi there", "suggestion", 10⟩,
            ⟨2, "Al", "a@x.io", "a Bug in it", "other", 30⟩,
            ⟨3, "Cy", "c@x.io", "oh", "bug_report", 20⟩] :=
  ⟨by decide,
    (applyFiltersToData_search asciiLower
      [⟨1, "Bob", "b@x.io", "hi there", "suggestion", 10⟩,
        ⟨2, "Al", "a@x.io", "a Bug in it", "other", 30⟩,
        ⟨3, "Cy", "c@x.io", "oh", "bug_report", 20⟩]
      "BUG" (by decide)).1.trans (by decide),
    ((applyFiltersToData_search asciiLower
      [⟨1, "Bob", "b@x.io", "hi there", "suggestion", 10⟩,
        ⟨2, "Al", "a@x.io", "a Bug in it", "other", 30⟩,
        ⟨3, "Cy", "c@x.io", "oh", "bug_report", 20⟩]
      "BUG" (by decide)).2.2 (fun _ _ => rfl)).1 "bug" (by decide)
      ⟨by decide, by decide, by decide⟩⟩

/-- C17: a record is in the filtered view exactly when it is in the fetched
set, the category filter is empty or equals its category, and the search query
is empty or matches it; hence, when the query matches the feedback text of one
record and no field of any other, and the filter is empty or equals that
record's category, the view is that one record. -/
theorem applyFiltersToData_and (toLowerCase : String → String) (c q : String) :
    (∀ data r, r ∈ applyFiltersToData toLowerCase c q data ↔
      r ∈ data ∧ (c = "" ∨ r.category = c) ∧
        (q = "" ∨ searchHit toLowerCase (toLowerCase q) r = true)) ∧
      (∀ pre post r, toLowerCase "" = "" →
        jsIncludes (toLowerCase r.feedback) (toLowerCase q) = true →
        (∀ r' ∈ pre ++ post, searchHit toLowerCase (toLowerCase q) r' = false) →
        (c = "" ∨ r.category = c) →
        applyFiltersToData toLowerCase c q (pre ++ r :: post) = [r]) := by
  refine ⟨fun data r => mem_applyFiltersToData toLowerCase c q data r, ?_⟩
  intro pre post r hlow hhit hothers hcat
  have hq : q ≠ "" ∨ (pre = [] ∧ post = []) := by
    by_cases hq : q = ""
    · right
      have hnone : pre ++ post = [] := by
        rw [List.eq_nil_iff_forall_not_mem]
        intro r' hr'
        have h := hothers r' hr'
        rw [hq, hlow] at h
        have h1 : searchHit toLowerCase "" r' = true := by
          simp only [searchHit, jsIncludes_empty, Bool.or_self]
        rw [h1] at h
        exact Bool.noConfusion h
      exact List.append_eq_nil.mp hnone
    · exact Or.inl hq
  have hr : searchHit toLowerCase (toLowerCase q) r = true := by
    simp only [searchHit, hhit, Bool.or_true, Bool.true_or]
  have hkeep : ((decide (c = "") || r.category == c) &&
      (decide (q = "") || searchHit toLowerCase (toLowerCase q) r)) = true := by
    rcases hcat with hcat | hcat <;> simp [hcat, hr]
  rw [applyFiltersToData_eq_filter]
  rcases hq with hq | ⟨h1, h2⟩
  · have hdrop : ∀ l : List FeedbackRecord,
        (∀ r' ∈ l, searchHit toLowerCase (toLowerCase q) r' = false) →
        l.filter (fun r =>
          (decide (c = "") || r.category == c) &&
            (decide (q = "") || searchHit toLowerCase (toLowerCase q) r)) = [] := by
      intro l hl
      rw [List.filter_eq_nil_iff]
      intro r' hr'
      simp [hq, hl r' hr']
    rw [List.filter_append, List.filter_cons, if_pos hkeep,
      hdrop pre (fun r' hr' => hothers r' (List.mem_append_left _ hr')),
      hdrop post (fun r' hr' => hothers r' (List.mem_append_right _ hr'))]
    rfl
  · rw [h1, h2, List.nil_append, List.filter_cons, if_pos hkeep]
    rfl

/-- Witness for C17: the query "crash" occurs in one feedback text only, and
the filter names that record's category. -/
theorem applyFiltersToData_and_witness :
    asciiLower "" = "" ∧
      applyFiltersToData asciiLower "bug_report" "crash"
          ([⟨1, "Bob", "b@x.io", "hi there", "suggestion", 10⟩] ++
            ⟨3, "Cy", "c@x.io", "a Crash at start", "bug_report", 20⟩ ::
              [⟨2, "Al", "a@x.io", "yo", "bug_report", 30⟩]) =
        [⟨3, "Cy", "c@x.io", "a Crash at start", "bug_report", 20⟩] :=
  ⟨by decide,
    (applyFiltersToData_and asciiLower "bug_report" "crash").2
      [⟨1, "Bob", "b@x.io", "hi there", "suggestion", 10⟩]
      [⟨2, "Al", "a@x.io", "yo", "bug_report", 30⟩]
      ⟨3, "Cy", "c@x.io", "a Crash at start", "bug_report", 20⟩
      (by decide) (by decide) (by decide) (Or.inr rfl)⟩

/-! ## Lemmas: the dashboard state -/

theorem fetchFeedback_sublist (toLowerCase : String → String) (n : Nat) (d : Dashboard)
    (response : Option (List FeedbackRecord)) :
    (d.fetchFeedback toLowerCase n response).filteredList.Sublist
      (d.fetchFeedback toLowerCase n response).feedbackList := by
  cases response with
  | none => exact List.Sublist.refl _
  | some data => exact applyFiltersToData_sublist toLowerCase _ _ data

theorem step_sublist (toLowerCase : String → String) (s : AppState) (e : Event)
    (h : s.dashboard.filteredList.Sublist s.dashboard.feedbackList) :
    (s.step toLowerCase e).dashboard.filteredList.Sublist
      (s.step toLowerCase e).dashboard.feedbackList := by
  cases e with
  | filterChange value => exact applyFiltersToData_sublist toLowerCase _ _ _
  | searchChange value => exact applyFiltersToData_sublist toLowerCase _ _ _
  | sortChange value response =>
    simp only [AppState.step]
    cases hreq : (s.dashboard.handleSortChange value).2 with
    | none => exact h
    | some req => exact fetchFeedback_sublist toLowerCase _ _ _
  | refresh response => exact fetchFeedback_sublist toLowerCase _ _ _
  | submission response =>
    simp only [AppState.step, Dashboard.submissionRefresh, Nat.succ_pos, if_true,
      gt_iff_lt]
    exact fetchFeedback_sublist toLowerCase _ _ _
  | changePage newPage => exact h
  | changeRowsPerPage value => exact h

theorem foldl_step_sublist (toLowerCase : String → String) (events : List Event) (s : AppState)
    (h : s.dashboard.filteredList.Sublist s.dashboard.feedbackList) :
    (events.foldl (AppState.step toLowerCase) s).dashboard.filteredList.Sublist
      (events.foldl (AppState.step toLowerCase) s).dashboard.feedbackList := by
  induction events generalizing s with
  | nil => exact h
  | cons e es ih => exact ih _ (step_sublist toLowerCase s e h)

/-- C18: whatever the category filter and the search query, the filtered view
is a sub-list of the fetched set in the order the server returned, and equals
it when both are empty; in every state the page can reach the view is a
sub-list of the fetched set, which is the data of the last answer; a sort
selection changes neither list, and when the value changes it sends a request
carrying the new sortBy. -/
theorem dashboard_never_sorts (toLowerCase : String → String) :
    (∀ c q data, (applyFiltersToData toLowerCase c q data).Sublist data) ∧
      (∀ data, applyFiltersToData toLowerCase "" "" data = data) ∧
      (∀ events,
        (AppState.run toLowerCase events).dashboard.filteredList.Sublist
          (AppState.run toLowerCase events).dashboard.feedbackList) ∧
      (∀ n (d : Dashboard) data,
        (d.fetchFeedback toLowerCase n (some data)).feedbackList = data) ∧
      (∀ (d : Dashboard) value,
        (d.handleSortChange value).1.filteredList = d.filteredList ∧
          (d.handleSortChange value).1.feedbackList = d.feedbackList ∧
          (d.handleSortChange value).1.sortBy = value) ∧
      (∀ (d : Dashboard) value, value ≠ d.sortBy → value ≠ "" →
        ∃ req, (d.handleSortChange value).2 = some req ∧ req.sortBy = some (.str value)) := by
  refine ⟨applyFiltersToData_sublist toLowerCase, applyFiltersToData_none toLowerCase,
    fun events => foldl_step_sublist toLowerCase events _ (List.Sublist.refl _),
    fun _ _ _ => rfl, fun _ _ => ⟨rfl, rfl, rfl⟩, ?_⟩
  intro d value hne hv
  refine ⟨_, if_pos hne, ?_⟩
  simp only [Dashboard.fetchParams, hv, ne_eq, not_false_eq_true, if_true]

/-- Witness for C18: choosing `name:asc` after the initial `timestamp:desc`. -/
theorem dashboard_never_sorts_witness :
    ("name:asc" : String) ≠ Dashboard.initial.sortBy ∧ ("name:asc" : String) ≠ "" ∧
      ∃ req, (Dashboard.initial.handleSortChange "name:asc").2 = some req ∧
        req.sortBy = some (.str "name:asc") :=
  ⟨by decide, by decide,
    (dashboard_never_sorts asciiLower).2.2.2.2.2 Dashboard.initial "name:asc" (by decide)
      (by decide)⟩

/-! ## Lemmas: pagination -/

theorem tableRows_eq (view : List FeedbackRecord) (p r : Nat) (hr : 0 < r) :
    tableRows view p r = (view.drop (p * r)).take r := by
  unfold tableRows jsSlice
  rw [if_pos hr]
  by_cases hv : view.length > 0
  · rw [if_pos hv, List.drop_take, Nat.add_sub_cancel_left]
  · rw [if_neg hv]
    have : view = [] := List.length_eq_zero.mp (Nat.eq_zero_of_not_pos hv)
    rw [this]; simp

theorem flatten_pages (view : List FeedbackRecord) (r k : Nat) :
    ((List.range k).map (fun p => (view.drop (p * r)).take r)).flatten = view.take (k * r) := by
  induction k with
  | zero => simp
  | succ k ih =>
    rw [List.range_succ, List.map_append, List.flatten_append, ih, Nat.succ_mul, List.take_add]
    simp

/-- C19: for rows-per-page `r > 0` the table shows the records of the filtered
view at positions `p * r` up to `min (p * r + r) n - 1`, in order: at most `r`
rows; the pages 0, 1, 2, ... put one after the other give the filtered view,
each record once. -/
theorem tableRows_slices (view : List FeedbackRecord) (p r : Nat) (hr : 0 < r) :
    tableRows view p r = (view.drop (p * r)).take r ∧
      (tableRows view p r).length = min (p * r + r) view.length - p * r ∧
      (tableRows view p r).length ≤ r ∧
      (∀ i, i < (tableRows view p r).length → (tableRows view p r)[i]? = view[p * r + i]?) ∧
      (∀ k, view.length ≤ k * r →
        ((List.range k).map (fun page => tableRows view page r)).flatten = view) := by
  have heq := tableRows_eq view p r hr
  have hlen : (tableRows view p r).length = min (p * r + r) view.length - p * r := by
    rw [heq, List.length_take, List.length_drop]
    omega
  refine ⟨heq, hlen, by rw [hlen]; omega, ?_, ?_⟩
  · intro i hi
    have hir : i < r := by rw [hlen] at hi; omega
    rw [heq, List.getElem?_take_of_lt hir, List.getElem?_drop]
  · intro k hk
    have hmap : (List.range k).map (fun page => tableRows view page r) =
        (List.range k).map (fun p => (view.drop (p * r)).take r) :=
      List.map_congr_left (fun page _ => tableRows_eq view page r hr)
    rw [hmap, flatten_pages, List.take_of_length_le hk]

/-- Witness for C19: three records, two rows per page, second page. -/
theorem tableRows_slices_witness :
    0 < 2 ∧
      tableRows
          [⟨1, "Bob", "b@x.io", "hi", "suggestion", 10⟩, ⟨2, "Al", "a@x.io", "yo", "other", 30⟩,
            ⟨3, "Cy", "c@x.io", "oh", "bug_report", 20⟩] 1 2 =
        [⟨3, "Cy", "c@x.io", "oh", "bug_report", 20⟩] :=
  ⟨by decide,
    (tableRows_slices
      [⟨1, "Bob", "b@x.io", "hi", "suggestion", 10⟩, ⟨2, "Al", "a@x.io", "yo", "other", 30⟩,
        ⟨3, "Cy", "c@x.io", "oh", "bug_report", 20⟩] 1 2 (by decide)).1.trans (by decide)⟩

/-- The page after the answer to a fetch arrives: zero after a submission; for
the refresh button, zero when the refresh counter is not zero and unchanged
when it is zero; a page that is zero stays zero; a failed fetch leaves the
page as it is. -/
theorem page_after_fetch (toLowerCase : String → String) (n : Nat) (d : Dashboard)
    (data : List FeedbackRecord) :
    (d.submissionRefresh toLowerCase n (some data)).page = 0 ∧
      (n ≠ 0 → (d.handleRefresh toLowerCase n (some data)).page = 0) ∧
      (n = 0 → (d.handleRefresh toLowerCase n (some data)).page = d.page) ∧
      (d.page = 0 → (d.handleRefresh toLowerCase n (some data)).page = 0) ∧
      (d.handleRefresh toLowerCase n none).page = d.page ∧
      (d.submissionRefresh toLowerCase n none).page = d.page := by
  have hfetch : ∀ m : Nat, (d.fetchFeedback toLowerCase m (some data)).page =
      if m ≠ 0 ∧ d.page ≠ 0 then 0 else d.page := fun _ => rfl
  have hsub : ∀ resp, d.submissionRefresh toLowerCase n resp =
      d.fetchFeedback toLowerCase (n + 1) resp := by
    intro resp
    simp only [Dashboard.submissionRefresh, Nat.succ_pos, if_true, gt_iff_lt]
  refine ⟨?_, ?_, ?_, ?_, rfl, by rw [hsub]; rfl⟩
  · rw [hsub, hfetch]
    by_cases hp : d.page = 0 <;> simp [hp]
  · intro hn
    simp only [Dashboard.handleRefresh]
    rw [hfetch]
    by_cases hp : d.page = 0 <;> simp [hp, hn]
  · intro hn
    simp only [Dashboard.handleRefresh]
    rw [hfetch]
    simp [hn]
  · intro hp
    simp only [Dashboard.handleRefresh]
    rw [hfetch]
    simp [hp]

/-- C20, evaluated: the page is loaded and receives twelve records, the user
goes to the third page and presses the refresh button before any submission.
The refresh counter is still zero, so when the twelve records arrive again the
page stays at 2. The same steps after one submission reset the page to 0, and
so does any refresh by the button once the counter is not zero. -/
theorem refresh_button_keeps_page :
    (AppState.run asciiLower [.refresh (some twelveRecords), .changePage 2]).dashboard.page = 2 ∧
      (AppState.run asciiLower
        [.refresh (some twelveRecords), .changePage 2,
          .refresh (some twelveRecords)]).refreshTrigger = 0 ∧
      (AppState.run asciiLower
        [.refresh (some twelveRecords), .changePage 2,
          .refresh (some twelveRecords)]).dashboard.page = 2 ∧
      (AppState.run asciiLower
        [.refresh (some twelveRecords), .changePage 2,
          .refresh (some twelveRecords)]).dashboard.feedbackList = twelveRecords ∧
      (AppState.run asciiLower
        [.refresh (some twelveRecords), .submission (some twelveRecords), .changePage 2,
          .refresh (some twelveRecords)]).dashboard.page = 0 ∧
      (∀ (n : Nat) (d : Dashboard) (data : List FeedbackRecord), n = 0 →
        (d.handleRefresh asciiLower n (some data)).page = d.page) := by
  refine ⟨by decide, by decide, by decide, by decide, by decide, ?_⟩
  intro n d data hn
  exact (page_after_fetch asciiLower n d data).2.2.1 hn

/-! ## Lemmas: counting categories -/

theorem bumpCount_map (f : String → Nat) (L : List String) (c : String) (hnd : L.Nodup)
    (hf : c ∉ L → f c = 0) :
    bumpCount (L.map (fun k => (k, f k))) c =
      (if c ∈ L then L else L ++ [c]).map (fun k => (k, f k + if k = c then 1 else 0)) := by
  induction L with
  | nil => simp [bumpCount, hf]
  | cons a L ih =>
    have hnd' := List.nodup_cons.mp hnd
    by_cases hac : a = c
    · subst hac
      have hrest : L.map (fun k => (k, f k)) =
          L.map (fun k => (k, f k + if k = a then 1 else 0)) := by
        apply List.map_congr_left
        intro k hk
        have : k ≠ a := fun h => hnd'.1 (h ▸ hk)
        simp [this]
      simp only [List.map_cons, bumpCount, if_true, List.mem_cons, true_or, hrest]
    · have hca : c ≠ a := fun h => hac h.symm
      have hf' : c ∉ L → f c = 0 := fun h => hf (by simp [hca, h])
      simp only [List.map_cons, bumpCount, if_neg hac, ih hnd'.2 hf', List.mem_cons, hca,
        false_or]
      by_cases hcl : c ∈ L <;> simp [hcl, hac]

theorem foldl_bumpCount (cats : List String) :
    cats.foldl bumpCount [] =
      cats.reverse.dedup.reverse.map (fun k => (k, cats.count k)) := by
  induction cats using List.reverseRecOn with
  | nil => rfl
  | append_singleton cats c ih =>
    rw [List.foldl_append, List.foldl_cons, List.foldl_nil, ih]
    have hnd : cats.reverse.dedup.reverse.Nodup :=
      List.nodup_reverse.mpr (List.nodup_dedup _)
    have hmem : ∀ k, k ∈ cats.reverse.dedup.reverse ↔ k ∈ cats := by
      intro k; simp
    have hf : c ∉ cats.reverse.dedup.reverse → cats.count c = 0 := fun h =>
      List.count_eq_zero.mpr (fun hc => h ((hmem c).mpr hc))
    rw [bumpCount_map (fun k => cats.count k) _ c hnd hf, List.reverse_append,
      List.reverse_singleton, List.singleton_append]
    have hcount : ∀ k, (cats ++ [c]).count k = cats.count k + if k = c then 1 else 0 := by
      intro k
      rw [List.count_append, List.count_singleton]
      by_cases hk : k = c
      · subst hk; simp
      · have : ¬ c = k := fun h => hk h.symm
        simp [hk, this]
    by_cases hc : c ∈ cats
    · rw [if_pos ((hmem c).mpr hc), List.dedup_cons_of_mem (List.mem_reverse.mpr hc)]
      exact List.map_congr_left (fun k _ => by rw [hcount])
    · rw [if_neg (fun h => hc ((hmem c).mp h)),
        List.dedup_cons_of_not_mem (fun h => hc (List.mem_reverse.mp h)), List.reverse_cons]
      exact List.map_congr_left (fun k _ => by rw [hcount])

theorem categoryCounts_eq (data : List FeedbackRecord) :
    FeedbackAnalysis.categoryCounts data =
      (data.map (fun r => r.category)).reverse.dedup.reverse.map
        (fun k => (k, (data.map (fun r => r.category)).count k)) := by
  unfold FeedbackAnalysis.categoryCounts
  rw [← foldl_bumpCount, List.foldl_map]

theorem firstOccurrences_sorted (cats : List String) :
    (cats.reverse.dedup.reverse.map (fun k => cats.indexOf k)).Sorted (fun a b => a < b) := by
  induction cats using List.reverseRecOn with
  | nil => exact List.sorted_nil
  | append_singleton cats c ih =>
    have hmem : ∀ k, k ∈ cats.reverse.dedup.reverse ↔ k ∈ cats := by
      intro k; simp
    have hold : cats.reverse.dedup.reverse.map (fun k => (cats ++ [c]).indexOf k) =
        cats.reverse.dedup.reverse.map (fun k => cats.indexOf k) :=
      List.map_congr_left (fun k hk => List.indexOf_append_of_mem ((hmem k).mp hk))
    rw [List.reverse_append, List.reverse_singleton, List.singleton_append]
    by_cases hc : c ∈ cats
    · rw [List.dedup_cons_of_mem (List.mem_reverse.mpr hc), hold]
      exact ih
    · rw [List.dedup_cons_of_not_mem (fun h => hc (List.mem_reverse.mp h)), List.reverse_cons,
        List.map_append, hold]
      refine List.pairwise_append.mpr ⟨ih, List.pairwise_singleton _ _, ?_⟩
      intro a ha b hb
      obtain ⟨k, hk, rfl⟩ := List.mem_map.mp ha
      rw [List.map_singleton, List.mem_singleton] at hb
      rw [hb, List.indexOf_append_of_not_mem hc]
      have : cats.indexOf k < cats.length := List.indexOf_lt_length.mpr ((hmem k).mp hk)
      omega

theorem foldl_add_eq_sum (l : List Nat) (a : Nat) : l.foldl (fun x y => x + y) a = a + l.sum := by
  induction l generalizing a with
  | nil => simp
  | cons b l ih => rw [List.foldl_cons, ih, List.sum_cons, Nat.add_assoc]

theorem total_eq_length (data : List FeedbackRecord) :
    FeedbackAnalysis.total data = data.length := by
  unfold FeedbackAnalysis.total
  rw [categoryCounts_eq, foldl_add_eq_sum, Nat.zero_add, List.map_map]
  have h := List.sum_map_count_dedup_eq_length (data.map (fun r => r.category)).reverse
  rw [List.length_reverse, List.length_map] at h
  rw [← h, ← List.sum_reverse, ← List.map_reverse, List.reverse_reverse]
  apply congrArg
  apply List.map_congr_left
  intro k _
  simp

theorem chartData_eq (data : List FeedbackRecord) :
    FeedbackAnalysis.chartData data =
      (data.map (fun r => r.category)).reverse.dedup.reverse.map
        (fun k =>
          { name := formatCategoryName k, value := (data.map (fun r => r.category)).count k,
            total := data.length }) := by
  unfold FeedbackAnalysis.chartData
  rw [total_eq_length, categoryCounts_eq, List.map_map]
  rfl

/-! ## Lemmas: the most common category -/

theorem reduce_last_max (first : ChartEntry) (rest : List ChartEntry) :
    ∃ pre post,
      first :: rest =
          pre ++
            rest.foldl (fun prev current => if prev.value > current.value then prev else current)
              first :: post ∧
        (∀ x ∈ pre,
          x.value ≤
            (rest.foldl (fun prev current => if prev.value > current.value then prev else current)
              first).value) ∧
        (∀ x ∈ post,
          x.value <
            (rest.foldl (fun prev current => if prev.value > current.value then prev else current)
              first).value) := by
  induction rest using List.reverseRecOn with
  | nil => exact ⟨[], [], rfl, fun _ h => absurd h (List.not_mem_nil _),
      fun _ h => absurd h (List.not_mem_nil _)⟩
  | append_singleton rest x ih =>
    obtain ⟨pre, post, heq, hpre, hpost⟩ := ih
    rw [List.foldl_append, List.foldl_cons, List.foldl_nil]
    generalize rest.foldl
      (fun prev current => if prev.value > current.value then prev else current) first = e
      at heq hpre hpost ⊢
    by_cases hgt : e.value > x.value
    · rw [if_pos hgt]
      refine ⟨pre, post ++ [x], ?_, hpre, ?_⟩
      · rw [← List.cons_append, heq]; simp
      · intro y hy
        rcases List.mem_append.mp hy with hy | hy
        · exact hpost y hy
        · rw [List.mem_singleton.mp hy]; exact hgt
    · rw [if_neg hgt]
      refine ⟨first :: rest, [], by simp, ?_, fun _ h => absurd h (List.not_mem_nil _)⟩
      intro y hy
      rw [heq] at hy
      have hle : e.value ≤ x.value := Nat.le_of_not_gt hgt
      rcases List.mem_append.mp hy with hy | hy
      · exact Nat.le_trans (hpre y hy) hle
      · rcases List.mem_cons.mp hy with hy | hy
        · rw [hy]; exact hle
        · exact Nat.le_trans (Nat.le_of_lt (hpost y hy)) hle

theorem pick_spec (cats : List String) (n : Nat) (first : ChartEntry) (rest : List ChartEntry)
    (h : cats.reverse.dedup.reverse.map
        (fun k => ({ name := formatCategoryName k, value := cats.count k, total := n } :
          ChartEntry)) = first :: rest) :
    ∃ k, k ∈ cats ∧
      (rest.foldl (fun prev current => if prev.value > current.value then prev else current)
        first).name = formatCategoryName k ∧
      (∀ c, cats.count c ≤ cats.count k) ∧
      (∀ c ∈ cats, cats.count c = cats.count k → cats.indexOf c ≤ cats.indexOf k) := by
  have hsorted := firstOccurrences_sorted cats
  have hmem : ∀ k, k ∈ cats.reverse.dedup.reverse ↔ k ∈ cats := by
    intro k; simp
  obtain ⟨pre, post, heq, hpre, hpost⟩ := reduce_last_max first rest
  generalize rest.foldl
    (fun prev current => if prev.value > current.value then prev else current) first = e
    at heq hpre hpost ⊢
  rw [← h] at heq
  generalize cats.reverse.dedup.reverse = F at heq hsorted hmem
  obtain ⟨Fpre, F2, hF, hmpre, hm2⟩ := List.map_eq_append_iff.mp heq
  obtain ⟨k, Fpost, hF2, hk, hmpost⟩ := List.map_eq_cons_iff.mp hm2
  subst hF2
  subst hF
  have hval : e.value = cats.count k := by rw [← hk]
  have hbound : ∀ c ∈ Fpre ++ k :: Fpost, cats.count c ≤ cats.count k := by
    intro c hc
    rcases List.mem_append.mp hc with hc | hc
    · have := hpre _ (hmpre ▸ List.mem_map_of_mem _ hc)
      rw [hval] at this
      exact this
    · rcases List.mem_cons.mp hc with hc | hc
      · rw [hc]
      · have := hpost _ (hmpost ▸ List.mem_map_of_mem _ hc)
        rw [hval] at this
        exact Nat.le_of_lt this
  refine ⟨k, (hmem k).mp (by simp), by rw [← hk], ?_, ?_⟩
  · intro c
    by_cases hc : c ∈ cats
    · exact hbound c ((hmem c).mpr hc)
    · rw [List.count_eq_zero.mpr hc]; exact Nat.zero_le _
  · intro c hc htie
    rcases List.mem_append.mp ((hmem c).mpr hc) with hc' | hc'
    · rw [List.map_append] at hsorted
      have := (List.pairwise_append.mp hsorted).2.2 _ (List.mem_map_of_mem _ hc') _
        (List.mem_map_of_mem _ (List.mem_cons_self k Fpost))
      exact Nat.le_of_lt this
    · rcases List.mem_cons.mp hc' with hc' | hc'
      · rw [hc']
      · have := hpost _ (hmpost ▸ List.mem_map_of_mem _ hc')
        rw [hval] at this
        simp only at this
        omega

theorem mostCommonCategory_spec (data : List FeedbackRecord) (hne : data ≠ []) :
    ∃ k, k ∈ data.map (fun r => r.category) ∧
      FeedbackAnalysis.mostCommonCategory data = formatCategoryName k ∧
      (∀ c, (data.map (fun r => r.category)).count c ≤
        (data.map (fun r => r.category)).count k) ∧
      (∀ c ∈ data.map (fun r => r.category),
        (data.map (fun r => r.category)).count c = (data.map (fun r => r.category)).count k →
        (data.map (fun r => r.category)).indexOf c ≤
          (data.map (fun r => r.category)).indexOf k) := by
  have hchart := chartData_eq data
  unfold FeedbackAnalysis.mostCommonCategory
  cases hcd : FeedbackAnalysis.chartData data with
  | nil =>
    exfalso
    rw [hchart] at hcd
    obtain ⟨r, rs, rfl⟩ := List.exists_cons_of_ne_nil hne
    have hr : r.category ∈
        ((r :: rs).map (fun r => r.category)).reverse.dedup.reverse := by simp
    rw [List.map_eq_nil_iff.mp hcd] at hr
    exact List.not_mem_nil _ hr
  | cons first rest =>
    rw [hchart] at hcd
    exact pick_spec _ _ first rest hcd

/-! ## The analysis: claims -/

/-- C12: for a non-empty fetched set (categories among the enum values) the
aggregation has one entry for each category present, in the order in which
the categories first occur; the count of an entry is the number of records
with that category; the total, the sum of the counts, is the number of
records; the chart data repeat these figures under the display names. For the
categories suggestion, suggestion, bug_report: total 3, counts 2 and 1. -/
theorem categoryCounts_spec (data : List FeedbackRecord) (hne : data ≠ [])
    (hcat : ∀ r ∈ data, r.category ∈ categories) :
    ((FeedbackAnalysis.categoryCounts data).map Prod.fst).Nodup ∧
      (∀ k, k ∈ (FeedbackAnalysis.categoryCounts data).map Prod.fst ↔
        k ∈ data.map (fun r => r.category)) ∧
      (∀ k ∈ (FeedbackAnalysis.categoryCounts data).map Prod.fst, k ∈ categories) ∧
      ((FeedbackAnalysis.categoryCounts data).map
        (fun e => (data.map (fun r => r.category)).indexOf e.1)).Sorted (fun a b => a < b) ∧
      (∀ e ∈ FeedbackAnalysis.categoryCounts data,
        e.2 = data.countP (fun r => r.category == e.1)) ∧
      FeedbackAnalysis.total data = data.length ∧
      FeedbackAnalysis.chartData data =
        (FeedbackAnalysis.categoryCounts data).map
          (fun e => { name := formatCategoryName e.1, value := e.2, total := data.length }) ∧
      FeedbackAnalysis.render data =
        some
          { totalFeedbacks := data.length
            mostCommonCategory := FeedbackAnalysis.mostCommonCategory data
            chartData := FeedbackAnalysis.chartData data } ∧
      (data.map (fun r => r.category) = ["suggestion", "suggestion", "bug_report"] →
        FeedbackAnalysis.categoryCounts data = [("suggestion", 2), ("bug_report", 1)] ∧
          FeedbackAnalysis.total data = 3 ∧ FeedbackAnalysis.totalFeedbacks data = 3) := by
  have hcc := categoryCounts_eq data
  have hkeys : (FeedbackAnalysis.categoryCounts data).map Prod.fst =
      (data.map (fun r => r.category)).reverse.dedup.reverse := by
    rw [hcc, List.map_map]
    exact (List.map_congr_left (fun _ _ => rfl)).trans (List.map_id _)
  have hmem : ∀ k, k ∈ (FeedbackAnalysis.categoryCounts data).map Prod.fst ↔
      k ∈ data.map (fun r => r.category) := by
    intro k; rw [hkeys]; simp
  refine ⟨?_, hmem, ?_, ?_, ?_, total_eq_length data, ?_, ?_, ?_⟩
  · rw [hkeys]; exact List.nodup_reverse.mpr (List.nodup_dedup _)
  · intro k hk
    obtain ⟨r, hr, rfl⟩ := List.mem_map.mp ((hmem k).mp hk)
    exact hcat r hr
  · have h := firstOccurrences_sorted (data.map (fun r => r.category))
    rw [hcc, List.map_map]
    exact h
  · intro e he
    rw [hcc] at he
    obtain ⟨k, _, rfl⟩ := List.mem_map.mp he
    simp only [List.count, List.countP_map]
    rfl
  · unfold FeedbackAnalysis.chartData
    rw [total_eq_length]
  · unfold FeedbackAnalysis.render FeedbackAnalysis.totalFeedbacks
    rw [if_neg (fun h => hne (List.length_eq_zero.mp h))]
  · intro hcats
    have hlen : data.length = 3 := by
      have := congrArg List.length hcats
      rwa [List.length_map] at this
    refine ⟨?_, by rw [total_eq_length, hlen], hlen⟩
    rw [hcc, hcats]
    decide

/-- Witness for C12: two suggestions and one bug report. -/
theorem categoryCounts_spec_witness :
    ([⟨1, "Bob", "b@x.io", "hi", "suggestion", 10⟩, ⟨2, "Al", "a@x.io", "yo", "suggestion", 30⟩,
        ⟨3, "Cy", "c@x.io", "oh", "bug_report", 20⟩] : List FeedbackRecord) ≠ [] ∧
      FeedbackAnalysis.categoryCounts
          [⟨1, "Bob", "b@x.io", "hi", "suggestion", 10⟩,
            ⟨2, "Al", "a@x.io", "yo", "suggestion", 30⟩,
            ⟨3, "Cy", "c@x.io", "oh", "bug_report", 20⟩] =
        [("suggestion", 2), ("bug_report", 1)] ∧
      FeedbackAnalysis.total
          [⟨1, "Bob", "b@x.io", "hi", "suggestion", 10⟩,
            ⟨2, "Al", "a@x.io", "yo", "suggestion", 30⟩,
            ⟨3, "Cy", "c@x.io", "oh", "bug_report", 20⟩] = 3 :=
  ⟨by decide,
    ((categoryCounts_spec
      [⟨1, "Bob", "b@x.io", "hi", "suggestion", 10⟩, ⟨2, "Al", "a@x.io", "yo", "suggestion", 30⟩,
        ⟨3, "Cy", "c@x.io", "oh", "bug_report", 20⟩]
      (by decide) (by decide)).2.2.2.2.2.2.2.2 rfl).1,
    by decide⟩

/-- C13: for a non-empty fetched set (categories among the enum values) the
name reported as most common is the display name of a category that is
present in the set and whose count is at least the count of every category;
for suggestion, suggestion, bug_report it is the display name of suggestion. -/
theorem mostCommonCategory_max (data : List FeedbackRecord) (hne : data ≠ [])
    (hcat : ∀ r ∈ data, r.category ∈ categories) :
    (∃ k, k ∈ data.map (fun r => r.category) ∧ k ∈ categories ∧
        FeedbackAnalysis.mostCommonCategory data = formatCategoryName k ∧
        (∀ c, data.countP (fun r => r.category == c) ≤
          data.countP (fun r => r.category == k))) ∧
      (data.map (fun r => r.category) = ["suggestion", "suggestion", "bug_report"] →
        FeedbackAnalysis.mostCommonCategory data = formatCategoryName "suggestion" ∧
          formatCategoryName "suggestion" = "Suggestion") := by
  have hcount : ∀ c, (data.map (fun r => r.category)).count c =
      data.countP (fun r => r.category == c) := by
    intro c
    simp only [List.count, List.countP_map]
    rfl
  constructor
  · obtain ⟨k, hk, hname, hmax, _⟩ := mostCommonCategory_spec data hne
    refine ⟨k, hk, ?_, hname, ?_⟩
    · obtain ⟨r, hr, rfl⟩ := List.mem_map.mp hk
      exact hcat r hr
    · intro c
      rw [← hcount, ← hcount]
      exact hmax c
  · intro hcats
    have hlen : data.length = 3 := by
      have := congrArg List.length hcats
      rwa [List.length_map] at this
    refine ⟨?_, by decide⟩
    unfold FeedbackAnalysis.mostCommonCategory
    rw [chartData_eq, hcats, hlen]
    decide

/-- Witness for C13: two suggestions and one bug report. -/
theorem mostCommonCategory_max_witness :
    ([⟨1, "Bob", "b@x.io", "hi", "suggestion", 10⟩, ⟨2, "Al", "a@x.io", "yo", "suggestion", 30⟩,
        ⟨3, "Cy", "c@x.io", "oh", "bug_report", 20⟩] : List FeedbackRecord) ≠ [] ∧
      FeedbackAnalysis.mostCommonCategory
          [⟨1, "Bob", "b@x.io", "hi", "suggestion", 10⟩,
            ⟨2, "Al", "a@x.io", "yo", "suggestion", 30⟩,
            ⟨3, "Cy", "c@x.io", "oh", "bug_report", 20⟩] =
        formatCategoryName "suggestion" :=
  ⟨by decide,
    ((mostCommonCategory_max
      [⟨1, "Bob", "b@x.io", "hi", "suggestion", 10⟩, ⟨2, "Al", "a@x.io", "yo", "suggestion", 30⟩,
        ⟨3, "Cy", "c@x.io", "oh", "bug_report", 20⟩]
      (by decide) (by decide)).2 rfl).1⟩

/-- C14, as stated, fails: with one suggestion followed by one bug report the
two categories tie, suggestion is encountered first, and the name reported is
that of bug_report. -/
theorem mostCommonCategory_tie_counterexample :
    FeedbackAnalysis.categoryCounts
        [⟨1, "Bob", "b@x.io", "hi", "suggestion", 10⟩,
          ⟨3, "Cy", "c@x.io", "oh", "bug_report", 20⟩] =
      [("suggestion", 1), ("bug_report", 1)] ∧
      FeedbackAnalysis.mostCommonCategory
          [⟨1, "Bob", "b@x.io", "hi", "suggestion", 10⟩,
            ⟨3, "Cy", "c@x.io", "oh", "bug_report", 20⟩] = "Bug Report" ∧
      formatCategoryName "suggestion" = "Suggestion" ∧
      formatCategoryName "bug_report" = "Bug Report" := by
  decide

/-- C14, amended: for a non-empty fetched set (categories among the enum
values) in which categories share the highest count, the name reported as most
common is that of the tied category encountered last in iteration order: every
category with the same count has its first record no later than the first
record of the reported one. -/
theorem mostCommonCategory_tie (data : List FeedbackRecord) (hne : data ≠ [])
    (hcat : ∀ r ∈ data, r.category ∈ categories) :
    ∃ k, k ∈ data.map (fun r => r.category) ∧ k ∈ categories ∧
      FeedbackAnalysis.mostCommonCategory data = formatCategoryName k ∧
      (∀ c, (data.map (fun r => r.category)).count c ≤
        (data.map (fun r => r.category)).count k) ∧
      (∀ c ∈ data.map (fun r => r.category),
        (data.map (fun r => r.category)).count c = (data.map (fun r => r.category)).count k →
        (data.map (fun r => r.category)).indexOf c ≤
          (data.map (fun r => r.category)).indexOf k) := by
  obtain ⟨k, hk, hname, hmax, htie⟩ := mostCommonCategory_spec data hne
  refine ⟨k, hk, ?_, hname, hmax, htie⟩
  obtain ⟨r, hr, rfl⟩ := List.mem_map.mp hk
  exact hcat r hr

/-- Witness for C14: one suggestion, then one bug report. -/
theorem mostCommonCategory_tie_witness :
    ([⟨1, "Bob", "b@x.io", "hi", "suggestion", 10⟩, ⟨3, "Cy", "c@x.io", "oh", "bug_report", 20⟩] :
        List FeedbackRecord) ≠ [] ∧
      ∃ k, k ∈ categories ∧
        FeedbackAnalysis.mostCommonCategory
            [⟨1, "Bob", "b@x.io", "hi", "suggestion", 10⟩,
              ⟨3, "Cy", "c@x.io", "oh", "bug_report", 20⟩] = formatCategoryName k :=
  ⟨by decide,
    (mostCommonCategory_tie
      [⟨1, "Bob", "b@x.io", "hi", "suggestion", 10⟩, ⟨3, "Cy", "c@x.io", "oh", "bug_report", 20⟩]
      (by decide) (by decide)).imp fun _ h => ⟨h.2.1, h.2.2.1⟩⟩

/-! ## Lemmas: rounding in double precision -/

theorem roundHalfEven_bounds (n d : Nat) (hd : 0 < d) :
    2 * (roundHalfEven n d * d) ≤ 2 * n + d ∧ 2 * n ≤ 2 * (roundHalfEven n d * d) + d := by
  have h1 : d * (n / d) + n % d = n := Nat.div_add_mod n d
  have h2 : n % d < d := Nat.mod_lt n hd
  unfold roundHalfEven
  simp only
  generalize n / d = q at h1 ⊢
  generalize n % d = r at h1 h2 ⊢
  have hq : q * d = d * q := Nat.mul_comm q d
  have hq1 : (q + 1) * d = d * q + d := by rw [Nat.add_mul, Nat.one_mul, hq]
  split_ifs <;> simp only [hq, hq1] <;> omega

theorem findScale_ge (n d K : Nat) (h : ∀ j, j < K → n * 2 ^ j < d * 2 ^ 52) :
    ∀ fuel k, K ≤ k + fuel → K ≤ findScale fuel n d k := by
  intro fuel
  induction fuel with
  | zero => intro k hk; simpa [findScale] using hk
  | succ fuel ih =>
    intro k hk
    unfold findScale
    by_cases hc : n * 2 ^ k < d * 2 ^ 52
    · rw [if_pos hc]
      exact ih (k + 1) (by omega)
    · rw [if_neg hc]
      by_contra hlt
      exact hc (h k (by omega))

theorem toDbl_toRat (n d : Nat) (hk : 1 ≤ findScale 1200 n d 0) :
    (toDbl n d).toRat =
      (roundHalfEven (n * 2 ^ findScale 1200 n d 0) d : ℚ) / 2 ^ findScale 1200 n d 0 := by
  unfold toDbl
  simp only
  generalize findScale 1200 n d 0 = k at hk ⊢
  generalize roundHalfEven (n * 2 ^ k) d = m
  by_cases hm : m = 2 ^ 53
  · rw [if_pos hm, hm]
    obtain ⟨j, rfl⟩ : ∃ j, k = j + 1 := ⟨k - 1, by omega⟩
    simp only [Dbl.toRat, Nat.add_sub_cancel]
    rw [pow_succ]
    push_cast
    field_simp
    ring
  · rw [if_neg hm]
    rfl

theorem toDbl_err (n d K : Nat) (hd : 0 < d) (hK : K ≤ findScale 1200 n d 0)
    (hk : 1 ≤ findScale 1200 n d 0) :
    |(toDbl n d).toRat - (n : ℚ) / d| ≤ 1 / 2 ^ (K + 1) := by
  rw [toDbl_toRat n d hk]
  obtain ⟨h1, h2⟩ := roundHalfEven_bounds (n * 2 ^ findScale 1200 n d 0) d hd
  generalize findScale 1200 n d 0 = k at hK hk h1 h2 ⊢
  generalize roundHalfEven (n * 2 ^ k) d = m at h1 h2 ⊢
  have hdq : (0 : ℚ) < d := by exact_mod_cast hd
  have hpk : (0 : ℚ) < 2 ^ k := by positivity
  have h1q : 2 * ((m : ℚ) * d) ≤ 2 * (n * 2 ^ k) + d := by exact_mod_cast h1
  have h2q : 2 * ((n : ℚ) * 2 ^ k) ≤ 2 * (m * d) + d := by exact_mod_cast h2
  have hle : (1 : ℚ) / 2 ^ (k + 1) ≤ 1 / 2 ^ (K + 1) := by
    apply one_div_le_one_div_of_le (by positivity)
    exact pow_le_pow_right₀ (by norm_num) (by omega)
  refine le_trans ?_ hle
  have hdiff : (m : ℚ) / 2 ^ k - n / d = (m * d - n * 2 ^ k) / (2 ^ k * d) := by
    field_simp
    ring
  rw [hdiff, abs_le, pow_succ]
  constructor
  · rw [le_div_iff₀ (by positivity)]
    have : -(1 / ((2 : ℚ) ^ k * 2)) * (2 ^ k * d) = -(d / 2) := by
      field_simp
      ring
    rw [this]
    linarith
  · rw [div_le_iff₀ (by positivity)]
    have : 1 / ((2 : ℚ) ^ k * 2) * (2 ^ k * d) = d / 2 := by
      field_simp
      ring
    rw [this]
    linarith

theorem toDbl_le_one (n d : Nat) (hd : 0 < d) (hnd : n ≤ d) :
    (toDbl n d).m ≤ 2 ^ (toDbl n d).k := by
  obtain ⟨h1, _⟩ := roundHalfEven_bounds (n * 2 ^ findScale 1200 n d 0) d hd
  unfold toDbl
  simp only
  generalize findScale 1200 n d 0 = k at h1 ⊢
  generalize roundHalfEven (n * 2 ^ k) d = m at h1 ⊢
  have hm : m ≤ 2 ^ k := by
    by_contra hlt
    have h3 : 2 ^ k + 1 ≤ m := by omega
    have h4 : (2 ^ k + 1) * d ≤ m * d := Nat.mul_le_mul_right d h3
    have h5 : n * 2 ^ k ≤ d * 2 ^ k := Nat.mul_le_mul_right (2 ^ k) hnd
    have h6 : (2 ^ k + 1) * d = d * 2 ^ k + d := by ring
    omega
  by_cases hm53 : m = 2 ^ 53
  · rw [if_pos hm53]
    simp only
    rw [hm53] at hm
    have hk : 53 ≤ k := (Nat.pow_le_pow_iff_right (by norm_num)).mp hm
    exact Nat.pow_le_pow_right (by norm_num) (by omega)
  · rw [if_neg hm53]
    exact hm

theorem tenths_err (x : Dbl) : |(x.tenths : ℚ) / 10 - x.toRat| ≤ 1 / 20 := by
  have hP : 0 < 2 * 2 ^ x.k := by positivity
  have h1 : 2 * 2 ^ x.k * x.tenths ≤ 20 * x.m + 2 ^ x.k := Nat.mul_div_le _ _
  have h2 : 20 * x.m + 2 ^ x.k < 2 * 2 ^ x.k * (x.tenths + 1) := by
    have := Nat.lt_mul_div_succ (20 * x.m + 2 ^ x.k) hP
    exact this
  unfold Dbl.toRat
  generalize x.tenths = T at h1 h2 ⊢
  generalize x.m = m at h1 h2 ⊢
  have hpk : (0 : ℚ) < 2 ^ x.k := by positivity
  have h1q : 2 * (2 : ℚ) ^ x.k * T ≤ 20 * m + 2 ^ x.k := by exact_mod_cast h1
  have h2q : 20 * (m : ℚ) + 2 ^ x.k < 2 * 2 ^ x.k * (T + 1) := by exact_mod_cast h2
  have hdiff : (T : ℚ) / 10 - m / 2 ^ x.k = (T * 2 ^ x.k - 10 * m) / (10 * 2 ^ x.k) := by
    field_simp
  rw [hdiff, abs_le]
  constructor
  · rw [le_div_iff₀ (by positivity)]
    linarith
  · rw [div_le_iff₀ (by positivity)]
    linarith

theorem tooltipTenths_err (name : String) (v t : Nat) (hv : 0 < v) (hvt : v ≤ t) :
    |(tooltipTenths { name := name, value := v, total := t } : ℚ) / 10 - (v : ℚ) / t * 100| ≤
      1 / 20 + 1 / 2 ^ 45 := by
  have ht : 0 < t := Nat.lt_of_lt_of_le hv hvt
  -- the quotient
  have hk1 : 52 ≤ findScale 1200 v t 0 := by
    apply findScale_ge v t 52 _ 1200 0 (by norm_num)
    intro j hj
    have h1 : v * 2 ^ j ≤ t * 2 ^ j := Nat.mul_le_mul_right _ hvt
    have h2 : (2 : Nat) ^ j < 2 ^ 52 := Nat.pow_lt_pow_right (by norm_num) hj
    exact Nat.lt_of_le_of_lt h1 (Nat.mul_lt_mul_of_pos_left h2 ht)
  have e1 := toDbl_err v t 52 ht hk1 (by omega)
  have hle := toDbl_le_one v t ht hvt
  -- the product
  have hk2 : 46 ≤ findScale 1200 ((toDbl v t).m * 100) (2 ^ (toDbl v t).k) 0 := by
    apply findScale_ge _ _ 46 _ 1200 0 (by norm_num)
    intro j hj
    have h2 : (2 : Nat) ^ j ≤ 2 ^ 45 := Nat.pow_le_pow_right (by norm_num) (by omega)
    calc (toDbl v t).m * 100 * 2 ^ j ≤ 2 ^ (toDbl v t).k * 100 * 2 ^ 45 :=
          Nat.mul_le_mul (Nat.mul_le_mul_right _ hle) h2
      _ < 2 ^ (toDbl v t).k * 2 ^ 52 := by
          rw [Nat.mul_assoc]
          exact Nat.mul_lt_mul_of_pos_left (by norm_num) (by positivity)
  have e2 := toDbl_err ((toDbl v t).m * 100) (2 ^ (toDbl v t).k) 46 (by positivity) hk2
    (by omega)
  have e3 := tenths_err ((Dbl.div v t).mulNat 100)
  have hprod : (((toDbl v t).m * 100 : Nat) : ℚ) / ((2 ^ (toDbl v t).k : Nat) : ℚ) =
      (toDbl v t).toRat * 100 := by
    unfold Dbl.toRat
    push_cast
    ring
  rw [hprod] at e2
  unfold tooltipTenths
  simp only [Dbl.div, Dbl.mulNat] at e3 ⊢
  generalize ((toDbl ((toDbl v t).m * 100) (2 ^ (toDbl v t).k)).tenths : ℚ) = T at e3 ⊢
  generalize (toDbl ((toDbl v t).m * 100) (2 ^ (toDbl v t).k)).toRat = x2 at e2 e3
  generalize (toDbl v t).toRat = x1 at e1 e2
  generalize (v : ℚ) / t = p at e1 ⊢
  rw [abs_le] at e1 e2 e3 ⊢
  have hnum : (1 : ℚ) / 2 ^ (46 + 1) + 100 * (1 / 2 ^ (52 + 1)) ≤ 1 / 2 ^ 45 := by norm_num
  constructor <;> linarith [e1.1, e1.2, e2.1, e2.2, e3.1, e3.2]

/-! ## Lemmas: percentages -/

theorem sum_percent (es : List ChartEntry) (n : Nat) (htot : ∀ e ∈ es, e.total = n) :
    (es.map (fun e => (e.value : ℚ) / e.total * 100)).sum =
      (((es.map (fun e => e.value)).sum : Nat) : ℚ) / n * 100 := by
  induction es with
  | nil => simp
  | cons e es ih =>
    have he : e.total = n := htot e (List.mem_cons_self _ _)
    have ih' := ih (fun x hx => htot x (List.mem_cons_of_mem _ hx))
    simp only [List.map_cons, List.sum_cons, ih', he]
    push_cast
    ring

theorem chartData_values_sum (data : List FeedbackRecord) :
    ((FeedbackAnalysis.chartData data).map (fun e => e.value)).sum = data.length := by
  have h := total_eq_length data
  unfold FeedbackAnalysis.total at h
  rw [foldl_add_eq_sum, Nat.zero_add] at h
  unfold FeedbackAnalysis.chartData
  rw [List.map_map]
  exact h

theorem chartData_entry (data : List FeedbackRecord) (e : ChartEntry)
    (he : e ∈ FeedbackAnalysis.chartData data) :
    e.total = data.length ∧
      ∃ k, k ∈ data.map (fun r => r.category) ∧ e.name = formatCategoryName k ∧
        e.value = data.countP (fun r => r.category == k) ∧ 0 < e.value ∧
        e.value ≤ data.length := by
  rw [chartData_eq] at he
  obtain ⟨k, hk, rfl⟩ := List.mem_map.mp he
  have hk' : k ∈ data.map (fun r => r.category) := by simpa using hk
  have hcount : (data.map (fun r => r.category)).count k =
      data.countP (fun r => r.category == k) := by
    simp only [List.count, List.countP_map]
    rfl
  refine ⟨rfl, k, hk', rfl, hcount, List.count_pos_iff.mpr hk', ?_⟩
  have := List.count_le_length k (data.map (fun r => r.category))
  rwa [List.length_map] at this

/-- C15: for a non-empty fetched set (categories among the enum values, fewer
than `2 ^ 53` records) every chart entry carries the count of its category as
value and the number of records as total, which is not zero; the tooltip shows
`value / total * 100` computed in double precision and printed with one
decimal, which differs from the exact percentage by at most 0.05 (plus
`2 ^ -45` for the rounding of the two operations); the exact percentages of
all entries sum to 100. For suggestion, suggestion, bug_report the texts are
66.7 and 33.3. -/
theorem tooltip_percentage (data : List FeedbackRecord) (hne : data ≠ [])
    (hcat : ∀ r ∈ data, r.category ∈ categories) (hlen : data.length < 2 ^ 53) :
    FeedbackAnalysis.total data = data.length ∧ FeedbackAnalysis.total data ≠ 0 ∧
      (∀ e ∈ FeedbackAnalysis.chartData data,
        e.total = data.length ∧ e.total < 2 ^ 53 ∧ 0 < e.value ∧ e.value ≤ e.total ∧
          (∃ k, k ∈ categories ∧ k ∈ data.map (fun r => r.category) ∧
            e.name = formatCategoryName k ∧
            e.value = data.countP (fun r => r.category == k)) ∧
          tooltipPercentage e =
            Nat.repr (tooltipTenths e / 10) ++ "." ++ Nat.repr (tooltipTenths e % 10) ∧
          |(tooltipTenths e : ℚ) / 10 - (e.value : ℚ) / e.total * 100| ≤ 1 / 20 + 1 / 2 ^ 45) ∧
      ((FeedbackAnalysis.chartData data).map
        (fun e => (e.value : ℚ) / e.total * 100)).sum = 100 ∧
      (data.map (fun r => r.category) = ["suggestion", "suggestion", "bug_report"] →
        (FeedbackAnalysis.chartData data).map (fun e => (e.name, tooltipPercentage e)) =
          [("Suggestion", "66.7"), ("Bug Report", "33.3")]) := by
  have hpos : data.length ≠ 0 := fun h => hne (List.length_eq_zero.mp h)
  refine ⟨total_eq_length data, by rw [total_eq_length]; exact hpos, ?_, ?_, ?_⟩
  · intro e he
    obtain ⟨htot, k, hk, hname, hval, hv0, hvle⟩ := chartData_entry data e he
    have hkcat : k ∈ categories := by
      obtain ⟨r, hr, rfl⟩ := List.mem_map.mp hk
      exact hcat r hr
    refine ⟨htot, by rw [htot]; exact hlen, hv0, by rw [htot]; exact hvle,
      ⟨k, hkcat, hk, hname, hval⟩, rfl, ?_⟩
    have := tooltipTenths_err e.name e.value e.total hv0 (by rw [htot]; exact hvle)
    exact this
  · rw [sum_percent _ data.length (fun e he => (chartData_entry data e he).1),
      chartData_values_sum]
    have : (data.length : ℚ) ≠ 0 := by exact_mod_cast hpos
    field_simp
  · intro hcats
    have hlen3 : data.length = 3 := by
      have := congrArg List.length hcats
      rwa [List.length_map] at this
    rw [chartData_eq, hcats, hlen3]
    decide

/-- Witness for C15: two suggestions and one bug report. -/
theorem tooltip_percentage_witness :
    ([⟨1, "Bob", "b@x.io", "hi", "suggestion", 10⟩, ⟨2, "Al", "a@x.io", "yo", "suggestion", 30⟩,
        ⟨3, "Cy", "c@x.io", "oh", "bug_report", 20⟩] : List FeedbackRecord) ≠ [] ∧
      (FeedbackAnalysis.chartData
          [⟨1, "Bob", "b@x.io", "hi", "suggestion", 10⟩,
            ⟨2, "Al", "a@x.io", "yo", "suggestion", 30⟩,
            ⟨3, "Cy", "c@x.io", "oh", "bug_report", 20⟩]).map
          (fun e => (e.name, tooltipPercentage e)) =
        [("Suggestion", "66.7"), ("Bug Report", "33.3")] :=
  ⟨by decide,
    (tooltip_percentage
      [⟨1, "Bob", "b@x.io", "hi", "suggestion", 10⟩, ⟨2, "Al", "a@x.io", "yo", "suggestion", 30⟩,
        ⟨3, "Cy", "c@x.io", "oh", "bug_report", 20⟩]
      (by decide) (by decide) (by decide)).2.2.2.2 rfl⟩

/-! ## Lemmas: the matcher decides the language -/

theorem matches_nil_nullable {r : Regex} {s : List Char} (h : r.Matches s) (hs : s = []) :
    r.nullable = true := by
  induction h with
  | empty => rfl
  | cls p c _ => exact absurd hs (List.cons_ne_nil _ _)
  | seq _ _ iha ihb =>
    obtain ⟨h1, h2⟩ := List.append_eq_nil.mp hs
    simp only [Regex.nullable, iha h1, ihb h2, Bool.and_self]
  | altLeft _ ih => simp only [Regex.nullable, ih hs, Bool.true_or]
  | altRight _ ih => simp only [Regex.nullable, ih hs, Bool.or_true]
  | starNil => rfl
  | starCons _ _ _ _ => rfl

theorem nullable_matches_nil (r : Regex) (h : r.nullable = true) : r.Matches [] := by
  induction r with
  | never => exact absurd h (by simp [Regex.nullable])
  | empty => exact .empty
  | cls p => exact absurd h (by simp [Regex.nullable])
  | seq a b iha ihb =>
    simp only [Regex.nullable, Bool.and_eq_true] at h
    exact (List.append_nil []) ▸ Regex.Matches.seq (iha h.1) (ihb h.2)
  | alt a b iha ihb =>
    simp only [Regex.nullable, Bool.or_eq_true] at h
    rcases h with h | h
    · exact .altLeft (iha h)
    · exact .altRight (ihb h)
  | star a _ => exact .starNil

theorem nullable_iff (r : Regex) : r.nullable = true ↔ r.Matches [] :=
  ⟨nullable_matches_nil r, fun h => matches_nil_nullable h rfl⟩

theorem deriv_sound (c : Char) (r : Regex) :
    ∀ s, (r.deriv c).Matches s → r.Matches (c :: s) := by
  induction r with
  | never => intro s h; cases h
  | empty => intro s h; cases h
  | cls p =>
    intro s h
    by_cases hp : p c = true
    · simp only [Regex.deriv, hp, if_true] at h
      cases h
      exact .cls p c hp
    · simp only [Regex.deriv, hp] at h
      cases h
  | seq a b iha ihb =>
    intro s h
    have hleft : ∀ s, ((a.deriv c).seq b).Matches s → (a.seq b).Matches (c :: s) := by
      intro s h
      cases h with
      | seq h1 h2 => exact Regex.Matches.seq (iha _ h1) h2
    by_cases hn : a.nullable = true
    · simp only [Regex.deriv, hn, if_true] at h
      cases h with
      | altLeft h => exact hleft s h
      | altRight h =>
        exact Regex.Matches.seq (nullable_matches_nil a hn) (ihb s h)
    · simp only [Regex.deriv, hn] at h
      exact hleft s h
  | alt a b iha ihb =>
    intro s h
    cases h with
    | altLeft h => exact .altLeft (iha s h)
    | altRight h => exact .altRight (ihb s h)
  | star a iha =>
    intro s h
    cases h with
    | seq h1 h2 => exact Regex.Matches.starCons (iha _ h1) h2

theorem deriv_complete (c : Char) {r : Regex} {x : List Char} (h : r.Matches x) :
    ∀ s, x = c :: s → (r.deriv c).Matches s := by
  induction h with
  | empty => intro s hs; exact List.noConfusion hs
  | cls p d hp =>
    intro s hs
    obtain ⟨rfl, rfl⟩ := List.cons.inj hs
    simp only [Regex.deriv, hp, if_true]
    exact .empty
  | @seq a b s1 t h1 h2 ih1 ih2 =>
    intro s hs
    cases s1 with
    | nil =>
      have hn : a.nullable = true := matches_nil_nullable h1 rfl
      simp only [Regex.deriv, hn, if_true]
      exact .altRight (ih2 s hs)
    | cons d s1' =>
      obtain ⟨rfl, rfl⟩ := List.cons.inj hs
      have hl : ((a.deriv d).seq b).Matches (s1' ++ t) := Regex.Matches.seq (ih1 s1' rfl) h2
      by_cases hn : a.nullable = true
      · simp only [Regex.deriv, hn, if_true]
        exact .altLeft hl
      · simp only [Regex.deriv, hn]
        exact hl
  | altLeft _ ih => intro s hs; exact .altLeft (ih s hs)
  | altRight _ ih => intro s hs; exact .altRight (ih s hs)
  | starNil => intro s hs; exact List.noConfusion hs
  | @starCons a s1 t h1 h2 ih1 ih2 =>
    intro s hs
    cases s1 with
    | nil => exact ih2 s hs
    | cons d s1' =>
      obtain ⟨rfl, rfl⟩ := List.cons.inj hs
      exact Regex.Matches.seq (ih1 s1' rfl) h2

theorem fullMatch_iff (r : Regex) (s : List Char) : r.fullMatch s = true ↔ r.Matches s := by
  induction s generalizing r with
  | nil => exact nullable_iff r
  | cons c s ih =>
    rw [Regex.fullMatch, ih]
    exact ⟨deriv_sound c r s, fun h => deriv_complete c h s rfl⟩

/-! ## Lemmas: the shape of the strings the email patterns accept -/

theorem within_chars {P : Char → Prop} {r : Regex} {s : List Char} (h : r.Matches s) :
    r.Within P → ∀ c ∈ s, P c := by
  induction h with
  | empty => intro _ c hc; exact absurd hc (List.not_mem_nil _)
  | cls p d hp =>
    intro hw c hc
    rw [List.mem_singleton.mp hc]
    exact hw d hp
  | seq _ _ iha ihb =>
    intro hw c hc
    rcases List.mem_append.mp hc with hc | hc
    · exact iha hw.1 c hc
    · exact ihb hw.2 c hc
  | altLeft _ ih => intro hw c hc; exact ih hw.1 c hc
  | altRight _ ih => intro hw c hc; exact ih hw.2 c hc
  | starNil => intro _ c hc; exact absurd hc (List.not_mem_nil _)
  | starCons _ _ iha ihb =>
    intro hw c hc
    rcases List.mem_append.mp hc with hc | hc
    · exact iha hw c hc
    · exact ihb hw c hc

theorem matches_seq {a b : Regex} {s : List Char} (h : (a.seq b).Matches s) :
    ∃ s1 s2, s = s1 ++ s2 ∧ a.Matches s1 ∧ b.Matches s2 := by
  cases h with
  | seq h1 h2 => exact ⟨_, _, rfl, h1, h2⟩

theorem matches_cls {p : Char → Bool} {s : List Char} (h : (Regex.cls p).Matches s) :
    ∃ c, s = [c] ∧ p c = true := by
  cases h with
  | cls _ c hp => exact ⟨c, rfl, hp⟩

theorem matches_chr {d : Char} {s : List Char} (h : (Regex.chr d).Matches s) : s = [d] := by
  obtain ⟨c, rfl, hc⟩ := matches_cls h
  simp only [beq_iff_eq] at hc
  rw [hc]

theorem matches_opt {a : Regex} {s : List Char} (h : a.opt.Matches s) :
    s = [] ∨ a.Matches s := by
  cases h with
  | altLeft h => cases h; exact Or.inl rfl
  | altRight h => exact Or.inr h

theorem matches_plus_cls_ne {p : Char → Bool} {s : List Char}
    (h : (Regex.plus (.cls p)).Matches s) : s ≠ [] := by
  obtain ⟨s1, s2, rfl, h1, _⟩ := matches_seq h
  obtain ⟨c, rfl, _⟩ := matches_cls h1
  exact List.cons_ne_nil _ _

theorem matches_star_last {a r : Regex} {t : List Char} (h : r.Matches t) (hr : r = a.star) :
    ∀ s1, a.Matches s1 → ∃ pre w, s1 ++ t = pre ++ w ∧ a.Matches w := by
  induction h with
  | empty => exact Regex.noConfusion hr
  | cls _ _ _ => exact Regex.noConfusion hr
  | seq _ _ _ _ => exact Regex.noConfusion hr
  | altLeft _ _ => exact Regex.noConfusion hr
  | altRight _ _ => exact Regex.noConfusion hr
  | starNil =>
    intro s1 h1
    exact ⟨[], s1, by simp, h1⟩
  | @starCons b s2 t' h2 _ _ ih =>
    intro s1 h1
    have hb : b = a := Regex.star.inj hr
    subst hb
    obtain ⟨pre, w, heq, hw⟩ := ih hr s2 h2
    exact ⟨s1 ++ pre, w, by rw [heq, List.append_assoc], hw⟩

theorem matches_plus_last {a : Regex} {s : List Char} (h : a.plus.Matches s) :
    ∃ pre w, s = pre ++ w ∧ a.Matches w := by
  obtain ⟨s1, t, rfl, h1, ht⟩ := matches_seq h
  exact matches_star_last ht rfl s1 h1

theorem matches_star_cls (p : Char → Bool) (s : List Char) (h : ∀ c ∈ s, p c = true) :
    (Regex.star (.cls p)).Matches s := by
  induction s with
  | nil => exact .starNil
  | cons c s ih =>
    exact Regex.Matches.starCons (s := [c]) (.cls p c (h c (List.mem_cons_self _ _)))
      (ih (fun d hd => h d (List.mem_cons_of_mem _ hd)))

theorem matches_plus_cls (p : Char → Bool) (s : List Char) (hne : s ≠ [])
    (h : ∀ c ∈ s, p c = true) : (Regex.plus (.cls p)).Matches s := by
  cases s with
  | nil => exact absurd rfl hne
  | cons c s =>
    exact Regex.Matches.seq (s := [c]) (.cls p c (h c (List.mem_cons_self _ _)))
      (matches_star_cls p s (fun d hd => h d (List.mem_cons_of_mem _ hd)))

theorem wordChar_not_space (c : Char) (h : isWordChar c = true) : isJsWhitespace c = false := by
  unfold isWordChar at h
  unfold isJsWhitespace
  simp only [Bool.or_eq_true, Bool.and_eq_true, decide_eq_true_eq, beq_iff_eq] at h
  simp only [Bool.or_eq_false_iff, Bool.and_eq_false_iff, decide_eq_false_iff_not,
    beq_eq_false_iff_ne, ne_eq]
  omega

theorem matches_label {x : List Char}
    (h : (Regex.seq (.chr '.')
      (.seq (.cls isWordChar) (.seq (.cls isWordChar) (.opt (.cls isWordChar))))).Matches x) :
    ∃ cs, x = '.' :: cs ∧ (cs.length = 2 ∨ cs.length = 3) ∧ ∀ c ∈ cs, isWordChar c = true := by
  obtain ⟨s1, r1, rfl, h1, h⟩ := matches_seq h
  obtain ⟨s2, r2, rfl, h2, h⟩ := matches_seq h
  obtain ⟨s3, r3, rfl, h3, h4⟩ := matches_seq h
  rw [matches_chr h1]
  obtain ⟨c2, rfl, hc2⟩ := matches_cls h2
  obtain ⟨c3, rfl, hc3⟩ := matches_cls h3
  rcases matches_opt h4 with rfl | h4
  · refine ⟨[c2, c3], rfl, Or.inl rfl, ?_⟩
    intro c hc
    simp only [List.mem_cons, List.mem_singleton, List.not_mem_nil, or_false] at hc
    rcases hc with rfl | rfl <;> assumption
  · obtain ⟨c4, rfl, hc4⟩ := matches_cls h4
    refine ⟨[c2, c3, c4], rfl, Or.inr rfl, ?_⟩
    intro c hc
    simp only [List.mem_cons, List.mem_singleton, List.not_mem_nil, or_false] at hc
    rcases hc with rfl | rfl | rfl <;> assumption

theorem dottedWords_within :
    dottedWords.Within (fun c => isWordChar c = true ∨ c = '.' ∨ c = '-') := by
  simp only [dottedWords, Regex.Within, Regex.plus, Regex.opt, and_true, true_and]
  refine ⟨⟨fun c h => Or.inl h, fun c h => Or.inl h⟩, ?_, fun c h => Or.inl h,
    fun c h => Or.inl h⟩
  intro c h
  simp only [Bool.or_eq_true, beq_iff_eq] at h
  exact Or.inr h

theorem domainSuffix_within :
    domainSuffix.Within (fun c => isWordChar c = true ∨ c = '.' ∨ c = '-') := by
  simp only [domainSuffix, Regex.Within, Regex.plus, Regex.opt, Regex.chr, and_true, true_and]
  have hdot : ∀ c : Char, (c == '.') = true → isWordChar c = true ∨ c = '.' ∨ c = '-' := by
    intro c h
    simp only [beq_iff_eq] at h
    exact Or.inr (Or.inl h)
  have hw : ∀ c : Char, isWordChar c = true → isWordChar c = true ∨ c = '.' ∨ c = '-' :=
    fun c h => Or.inl h
  exact ⟨⟨hdot, hw, hw, hw⟩, hdot, hw, hw, hw⟩

theorem matches_dottedWords_ne {s : List Char} (h : dottedWords.Matches s) : s ≠ [] := by
  obtain ⟨s1, s2, rfl, h1, _⟩ := matches_seq h
  have := matches_plus_cls_ne h1
  intro h0
  exact this (List.append_eq_nil.mp h0).1

theorem emailChar_not_space (c : Char) (h : isWordChar c = true ∨ c = '.' ∨ c = '-') :
    isJsWhitespace c = false := by
  rcases h with h | rfl | rfl
  · exact wordChar_not_space c h
  · decide
  · decide

/-- The shape of an accepted email: local part, `@`, domain, further labels,
and a last label of two or three word characters after the last dot. -/
theorem emailPattern_shape (s : List Char) (h : emailPattern.Matches s) :
    ∃ u v pre cs, s = u ++ '@' :: (v ++ (pre ++ '.' :: cs)) ∧ u ≠ [] ∧ v ≠ [] ∧
      (∀ c ∈ u, isJsWhitespace c = false) ∧ (∀ c ∈ v ++ pre, isJsWhitespace c = false) ∧
      (cs.length = 2 ∨ cs.length = 3) ∧ ∀ c ∈ cs, isWordChar c = true := by
  obtain ⟨u, r1, rfl, hu, h⟩ := matches_seq h
  obtain ⟨a, r2, rfl, ha, h⟩ := matches_seq h
  obtain ⟨v, suf, rfl, hv, hsuf⟩ := matches_seq h
  rw [matches_chr ha]
  have hsufchars := within_chars hsuf domainSuffix_within
  obtain ⟨pre, w, rfl, hw⟩ := matches_plus_last hsuf
  obtain ⟨cs, rfl, hlen, hcs⟩ := matches_label hw
  refine ⟨u, v, pre, cs, by simp, matches_dottedWords_ne hu, matches_dottedWords_ne hv, ?_, ?_,
    hlen, hcs⟩
  · intro c hc
    exact emailChar_not_space c (within_chars hu dottedWords_within c hc)
  · intro c hc
    rcases List.mem_append.mp hc with hc | hc
    · exact emailChar_not_space c (within_chars hv dottedWords_within c hc)
    · exact emailChar_not_space c (hsufchars c (List.mem_append_left _ hc))

/-! ## Lemmas: the form and the two email patterns -/

theorem takeWhile_append_stop (p : Char → Bool) (l rest : List Char) (d : Char)
    (hl : ∀ c ∈ l, p c = true) (hd : p d = false) : (l ++ d :: rest).takeWhile p = l := by
  induction l with
  | nil => simp [List.takeWhile_cons, hd]
  | cons c l ih =>
    rw [List.cons_append, List.takeWhile_cons, hl c (List.mem_cons_self _ _)]
    simp only [if_true]
    rw [ih (fun x hx => hl x (List.mem_cons_of_mem _ hx))]

theorem lastLabel_append (front cs : List Char) (h : ∀ c ∈ cs, isWordChar c = true) :
    lastLabel ⟨front ++ '.' :: cs⟩ = ⟨cs⟩ := by
  unfold lastLabel
  have hrev : (front ++ '.' :: cs).reverse = cs.reverse ++ '.' :: front.reverse := by simp
  have hne : ∀ c ∈ cs.reverse, (c != '.') = true := by
    intro c hc
    have hw := h c (List.mem_reverse.mp hc)
    have : c ≠ '.' := by
      intro h0
      rw [h0] at hw
      exact absurd hw (by decide)
    simpa using this
  simp only
  rw [hrev, takeWhile_append_stop _ _ _ _ hne (by decide), List.reverse_reverse]

theorem formPattern_of_shape (u b cs : List Char) (hu : u ≠ []) (hb : b ≠ []) (hcs : cs ≠ [])
    (hus : ∀ c ∈ u, isJsWhitespace c = false) (hbs : ∀ c ∈ b, isJsWhitespace c = false)
    (hcss : ∀ c ∈ cs, isJsWhitespace c = false) :
    formEmailPattern.Matches (u ++ '@' :: (b ++ '.' :: cs)) := by
  have hplus : ∀ l : List Char, l ≠ [] → (∀ c ∈ l, isJsWhitespace c = false) →
      (Regex.plus nonSpace).Matches l := by
    intro l hl hs
    exact matches_plus_cls _ l hl (fun c hc => by simp [hs c hc])
  have hat : (Regex.chr '@').Matches ['@'] := .cls _ '@' (by decide)
  have hdot : (Regex.chr '.').Matches ['.'] := .cls _ '.' (by decide)
  exact Regex.Matches.seq (hplus u hu hus)
    (Regex.Matches.seq hat
      (Regex.Matches.seq (hplus b hb hbs) (Regex.Matches.seq hdot (hplus cs hcs hcss))))

theorem test_of_matches (r : Regex) (s : String) (h : r.Matches s.data) : r.test s = true := by
  unfold Regex.test
  rw [fullMatch_iff]
  have h1 : (r.seq (Regex.star anyChar)).Matches (s.data ++ []) :=
    Regex.Matches.seq h .starNil
  rw [List.append_nil] at h1
  exact Regex.Matches.seq (s := []) .starNil h1

theorem formValid_iff (st : FormState) :
    FeedbackForm.isFormValid st = true ↔
      st.name ≠ "" ∧ st.email ≠ "" ∧ st.feedback ≠ "" ∧
        (st.touched.email = true → formEmailPattern.test st.email = true) := by
  unfold FeedbackForm.isFormValid FeedbackForm.nameError FeedbackForm.emailError
    FeedbackForm.feedbackError
  by_cases hn : st.name = "" <;> by_cases he : st.email = "" <;>
    by_cases hf : st.feedback = "" <;> cases ht : st.touched.email <;>
    cases hm : formEmailPattern.test st.email <;> simp [hn, he, hf, ht, hm]

/-! ## The form and the email patterns: claims -/

/-- C21: `handleSubmit` sends a create request exactly when name, email and
feedback are non-empty and, if the email field has been touched, the email
contains a match of the form's pattern; the request carries the four fields.
Otherwise it sets the three touched flags, clears the loading flag and sends
nothing. For an untouched email field the outcome does not depend on the
pattern. -/
theorem handleSubmit_sends (st : FormState) (response : Option Response) :
    ((FeedbackForm.handleSubmit st response).request ≠ none ↔
        st.name ≠ "" ∧ st.email ≠ "" ∧ st.feedback ≠ "" ∧
          (st.touched.email = true → formEmailPattern.test st.email = true)) ∧
      ((FeedbackForm.handleSubmit st response).request ≠ none →
        (FeedbackForm.handleSubmit st response).request =
          some
            { name := some st.name, email := some st.email, feedback := some st.feedback,
              category := some st.category }) ∧
      ((FeedbackForm.handleSubmit st response).request = none →
        FeedbackForm.handleSubmit st response =
          { state :=
              { st with
                error := none
                success := false
                touched := { name := true, email := true, feedback := true }
                loading := false }
            request := none
            notified := false }) ∧
      (st.touched.email = false →
        ((FeedbackForm.handleSubmit st response).request ≠ none ↔
          st.name ≠ "" ∧ st.email ≠ "" ∧ st.feedback ≠ "")) := by
  have hreq : (FeedbackForm.handleSubmit st response).request =
      if FeedbackForm.isFormValid st = true then
        some
          { name := some st.name, email := some st.email, feedback := some st.feedback,
            category := some st.category }
      else none := by
    unfold FeedbackForm.handleSubmit
    by_cases hv : FeedbackForm.isFormValid st = true
    · simp only [hv, Bool.not_true, Bool.false_eq_true, if_false, if_true]
      rcases response with _ | ⟨status, body⟩
      · rfl
      · by_cases hs : 200 ≤ status ∧ status < 300
        · simp only [hs, and_self, if_true]
        · simp only [hs, if_false]
    · simp only [Bool.not_eq_true] at hv
      simp only [hv, Bool.not_false, if_true, Bool.false_eq_true, if_false]
  have hiff : (FeedbackForm.handleSubmit st response).request ≠ none ↔
      FeedbackForm.isFormValid st = true := by
    rw [hreq]
    by_cases hv : FeedbackForm.isFormValid st = true <;> simp [hv]
  refine ⟨hiff.trans (formValid_iff st), ?_, ?_, ?_⟩
  · intro h
    rw [hreq, if_pos (hiff.mp h)]
  · intro h
    have hv : FeedbackForm.isFormValid st = false := by
      cases hv : FeedbackForm.isFormValid st with
      | false => rfl
      | true => exact absurd h (hiff.mpr hv)
    unfold FeedbackForm.handleSubmit
    simp only [hv, Bool.not_false, if_true]
  · intro ht
    rw [hiff, formValid_iff]
    simp [ht]

/-- Witness for C21: all fields filled, email touched and matching. -/
theorem handleSubmit_sends_witness :
    (("Ann" : String) ≠ "" ∧ ("ann@x.io" : String) ≠ "" ∧ ("hello" : String) ≠ "" ∧
        ((true : Bool) = true → formEmailPattern.test "ann@x.io" = true)) ∧
      (FeedbackForm.handleSubmit
          ⟨"Ann", "ann@x.io", "hello", "bug_report", none, false, false, ⟨true, true, true⟩⟩
          none).request =
        some ⟨some "Ann", some "ann@x.io", some "hello", some "bug_report"⟩ :=
  ⟨by decide,
    (handleSubmit_sends
      ⟨"Ann", "ann@x.io", "hello", "bug_report", none, false, false, ⟨true, true, true⟩⟩
      none).2.1 (by decide)⟩

/-- C22: a string accepted by the model's email pattern ends in a dot followed
by its last label, which consists of two or three word characters; so an email
whose last label is shorter than two or longer than three characters does not
match and is rejected by the create operation with status 400 and the
messages of the failing paths (among them "Please add a valid email" when the
email is not empty), nothing being persisted; `user@example.info` is such an
email. -/
theorem emailPattern_last_label :
    (∀ s : String, emailMatches s = true →
      (∃ front, s.data = front ++ '.' :: (lastLabel s).data) ∧
        ((lastLabel s).data.length = 2 ∨ (lastLabel s).data.length = 3) ∧
        ∀ c ∈ (lastLabel s).data, isWordChar c = true) ∧
      (∀ env store body e, body.email = some e →
        (lastLabel e).data.length < 2 ∨ 3 < (lastLabel e).data.length →
        emailMatches e = false ∧
          ∃ msgs,
            submitFeedback env store body =
                ({ status := 400, body := .invalid msgs }, store) ∧
              msgs.Perm (expectedMessages body) ∧
              (e ≠ "" → "Please add a valid email" ∈ msgs) ∧
              (e = "" → "Please add an email" ∈ msgs)) ∧
      (lastLabel "user@example.info" = "info" ∧ emailMatches "user@example.info" = false) := by
  have hshape : ∀ s : String, emailMatches s = true →
      (∃ front, s.data = front ++ '.' :: (lastLabel s).data) ∧
        ((lastLabel s).data.length = 2 ∨ (lastLabel s).data.length = 3) ∧
        ∀ c ∈ (lastLabel s).data, isWordChar c = true := by
    intro s hs
    obtain ⟨u, v, pre, cs, heq, _, _, _, _, hlen, hcs⟩ :=
      emailPattern_shape s.data ((fullMatch_iff _ _).mp hs)
    have hfront : s.data = (u ++ '@' :: (v ++ pre)) ++ '.' :: cs := by
      rw [heq]; simp
    have hlast : lastLabel s = ⟨cs⟩ := by
      have : s = ⟨(u ++ '@' :: (v ++ pre)) ++ '.' :: cs⟩ := by
        rw [← hfront]
      rw [this]
      exact lastLabel_append _ cs hcs
    rw [hlast]
    exact ⟨⟨_, hfront⟩, hlen, hcs⟩
  refine ⟨hshape, ?_, by decide, by decide⟩
  intro env store body e he hlen
  have hm : emailMatches e = false := by
    cases hm : emailMatches e with
    | false => rfl
    | true =>
      have := (hshape e hm).2.1
      omega
  have hvalid : e ≠ "" → "Please add a valid email" ∈ expectedMessages body := fun hne =>
    (mem_expectedMessages body _).mpr (Or.inr (Or.inl (by simp [he, emailMessage, hne, hm])))
  have hempty : e = "" → "Please add an email" ∈ expectedMessages body := fun h0 =>
    (mem_expectedMessages body _).mpr (Or.inr (Or.inl (by simp [he, emailMessage, h0])))
  have hne : expectedMessages body ≠ [] := by
    by_cases h0 : e = ""
    · exact List.ne_nil_of_mem (hempty h0)
    · exact List.ne_nil_of_mem (hvalid h0)
  obtain ⟨msgs, hs, hperm⟩ := submitFeedback_invalid_perm env store body hne
  exact ⟨hm, msgs, hs, hperm, fun h0 => hperm.mem_iff.mpr (hvalid h0),
    fun h0 => hperm.mem_iff.mpr (hempty h0)⟩

/-- Witness for C22: a record whose email is `user@example.info`. -/
theorem emailPattern_last_label_witness :
    ((lastLabel "user@example.info").data.length < 2 ∨
        3 < (lastLabel "user@example.info").data.length) ∧
      submitFeedback ⟨1, 0, none⟩ [] ⟨some "A", some "user@example.info", some "x", none⟩ =
        ({ status := 400, body := .invalid ["Please add a valid email"] }, []) ∧
      ∃ msgs,
        submitFeedback ⟨1, 0, none⟩ [] ⟨some "A", some "user@example.info", some "x", none⟩ =
            ({ status := 400, body := .invalid msgs }, []) ∧
          "Please add a valid email" ∈ msgs :=
  ⟨by decide, by decide,
    (emailPattern_last_label.2.1 ⟨1, 0, none⟩ []
      ⟨some "A", some "user@example.info", some "x", none⟩ "user@example.info" rfl
      (by decide)).2.imp fun _ h => ⟨h.1, h.2.2.1 (by decide)⟩⟩

/-- C23: every string matched by the server's email pattern passes the test
of the form's pattern, so the form reports no email error for it, touched or
not: the client-side check never blocks an email the server would accept. -/
theorem form_accepts_server_emails (s : String) (h : emailMatches s = true) :
    formEmailPattern.test s = true ∧
      (∀ st : FormState, st.email = s → FeedbackForm.emailError st = "") ∧
      (∀ st : FormState, st.email = s → st.name ≠ "" → st.feedback ≠ "" →
        FeedbackForm.isFormValid st = true) := by
  obtain ⟨u, v, pre, cs, heq, hu, hv, hus, hbs, hlen, hcs⟩ :=
    emailPattern_shape s.data ((fullMatch_iff _ _).mp h)
  have hcsne : cs ≠ [] := by
    intro h0
    rw [h0] at hlen
    simp at hlen
  have hm : formEmailPattern.Matches s.data := by
    have := formPattern_of_shape u (v ++ pre) cs hu
      (fun h0 => hv (List.append_eq_nil.mp h0).1) hcsne hus hbs
      (fun c hc => wordChar_not_space c (hcs c hc))
    rw [heq]
    simpa using this
  have htest := test_of_matches formEmailPattern s hm
  have hne : s ≠ "" := by
    intro h0
    rw [h0, emailMatches_empty] at h
    exact Bool.noConfusion h
  refine ⟨htest, ?_, ?_⟩
  · intro st hst
    unfold FeedbackForm.emailError
    simp [hst, hne, htest]
  · intro st hst hn hf
    rw [formValid_iff]
    exact ⟨hn, by rw [hst]; exact hne, hf, fun _ => by rw [hst]; exact htest⟩

/-- Witness for C23: an address with a two-level domain. -/
theorem form_accepts_server_emails_witness :
    emailMatches "user.name-x@example.co.uk" = true ∧
      formEmailPattern.test "user.name-x@example.co.uk" = true :=
  ⟨by decide, (form_accepts_server_emails "user.name-x@example.co.uk" (by decide)).1⟩

end FeedbackPortal
